import Mathlib

/-!
Social interaction engine: follow graph, likes, notifications.

A shallow embedding of the backend controllers and Mongoose models
(`backend/controllers/*.js`, `backend/models/*.js`).

Conventions of the embedding:

* a Mongo collection is a list of documents in insertion (natural) order;
  `findOne` is `List.find?`, `findById` is `findOne` on the `_id`;
* `ObjectId`s are natural numbers, drawn from the counter `Db.nextId`;
* `Date` values are integers (milliseconds since the epoch), the clock value
  `Date.now()` is an explicit argument `now` of every operation;
* an `async` controller becomes a function from the database state before the
  request to the state after it and the HTTP response;
* an exception thrown by the notification collection is driven by an explicit
  `Faults` argument, every other collection is taken to be available;
* socket broadcasts (`io.emit`) and `populate` projections of the response
  payload do not touch stored documents and are left out.
-/

namespace SocialMedia

/-! ## Data model -/

abbrev Id := Nat
abbrev Time := Int

/-- The `type` enum of `notificationSchema`. -/
inductive NotifType where
  | like
  | comment
  | follow
  | mention
  | post
  deriving DecidableEq

/-- A stored document of the `Notification` model (`models/Notification.js`). -/
structure Notification where
  id : Id
  recipient : Id
  sender : Id
  type : NotifType
  message : String
  relatedPost : Option Id
  relatedComment : Option Id
  isRead : Bool
  readAt : Option Time
  createdAt : Time
  deriving DecidableEq

/-- The `data` object handed to either notification-creation routine. -/
structure NotificationData where
  recipient : Id
  sender : Id
  type : NotifType
  message : Option String
  relatedPost : Option Id
  relatedComment : Option Id
  deriving DecidableEq

/-- The `status` enum of `followSchema`. -/
inductive FollowStatus where
  | pending
  | accepted
  | blocked
  deriving DecidableEq

/-- A stored document of the `Follow` model (`models/Follow.js`). -/
structure Follow where
  follower : Id
  following : Id
  status : FollowStatus
  createdAt : Time
  deriving DecidableEq

/-- Modelled from the spec: the `User` model file is not part of the sources.
The fields are the ones the controllers read and write: the handle looked up by
mention extraction, the display names used in notification texts, and the
cached `followers` / `following` id arrays updated by `$push` and `$pull`. -/
structure User where
  id : Id
  username : String
  firstName : String
  lastName : String
  followers : List Id
  following : List Id
  deriving DecidableEq

/-- An entry of a `likes` array: `{ user, createdAt }`. -/
structure Like where
  user : Id
  createdAt : Time
  deriving DecidableEq

/-- The `visibility` values a post can carry. -/
inductive Visibility where
  | pub
  | followers
  | priv
  deriving DecidableEq

/-- Modelled from the spec: the `Post` model file is not part of the sources.
The fields are the ones named in the data model of the specification and used
by `postController.js` and `commentController.js`. -/
structure Post where
  id : Id
  author : Id
  content : String
  images : List String
  tags : List String
  mentions : List Id
  visibility : Visibility
  likes : List Like
  comments : List Id
  createdAt : Time
  deriving DecidableEq

/-- A stored document of the `Comment` model (`models/Comment.js`). -/
structure Comment where
  id : Id
  content : String
  author : Id
  post : Id
  parentComment : Option Id
  replies : List Id
  likes : List Like
  mentions : List Id
  isEdited : Bool
  editedAt : Option Time
  isDeleted : Bool
  deletedAt : Option Time
  createdAt : Time
  deriving DecidableEq

/-- The database: one list per collection, and the source of fresh ids. -/
structure Db where
  users : List User
  follows : List Follow
  posts : List Post
  comments : List Comment
  notifications : List Notification
  nextId : Id
  deriving DecidableEq

/-- Which calls on the notification collection throw during a request. -/
structure Faults where
  findFails : Bool
  saveFails : Bool
  populateFails : Bool
  deriving DecidableEq

/-- No storage fault at all. -/
def Faults.none : Faults := ⟨false, false, false⟩

/-- The body of `res.status(..).json(..)`: the status code, the `success` flag,
the `message` when there is one, and the `likesCount` field that the like and
unlike controllers add. Entity payloads are not part of the embedding. -/
structure Response where
  status : Nat
  success : Bool
  message : Option String
  likesCount : Option Int
  deriving DecidableEq

/-- A failure response `{ success: false, message }`. -/
def failure (status : Nat) (message : String) : Response :=
  ⟨status, false, some message, none⟩

/-- A success response `{ success: true, message }`. -/
def success (status : Nat) (message : String) : Response :=
  ⟨status, true, some message, none⟩

/-- A success response that carries an entity and no `message`. -/
def created : Response := ⟨201, true, none, none⟩

/-! ## Notification creation -/

/-- The dedup window `24 * 60 * 60 * 1000` milliseconds. -/
def dayMs : Time := 24 * 60 * 60 * 1000

/-- The filter of the `Notification.findOne` call in the controller helper:
same recipient, sender, type, related post and related comment, and
`createdAt >= Date.now() - 24h`. -/
def dupQuery (d : NotificationData) (now : Time) (n : Notification) : Bool :=
  decide (n.recipient = d.recipient ∧ n.sender = d.sender ∧ n.type = d.type ∧
    n.relatedPost = d.relatedPost ∧ n.relatedComment = d.relatedComment ∧
    now - dayMs ≤ n.createdAt)

/-- The document built by `new Notification(..)` once it has passed validation:
`isRead` takes its schema default, `createdAt` comes from `timestamps`. -/
def newNotification (db : Db) (now : Time) (d : NotificationData) (message : String) :
    Notification :=
  { id := db.nextId, recipient := d.recipient, sender := d.sender, type := d.type,
    message := message, relatedPost := d.relatedPost, relatedComment := d.relatedComment,
    isRead := false, readAt := none, createdAt := now }

/-- Insert a notification document. -/
def insertNotification (db : Db) (n : Notification) : Db :=
  { db with notifications := db.notifications ++ [n], nextId := db.nextId + 1 }

/-- The controller helper `createNotification` of `notificationController.js`.
Every exception (lookup failure, the `required` validator of `message`, which
rejects a missing and an empty string, a failed write, a failed `populate`) is
caught by the surrounding `try`/`catch` and turned into `null`. -/
def createNotification (f : Faults) (now : Time) (db : Db) (d : NotificationData) :
    Db × Option Notification :=
  if d.recipient = d.sender then (db, none)
  else if f.findFails then (db, none)
  else
    match db.notifications.find? (dupQuery d now) with
    | some existing => (db, some existing)
    | none =>
      match d.message with
      | none => (db, none)
      | some m =>
        if m = "" then (db, none)
        else if f.saveFails then (db, none)
        else if f.populateFails then (insertNotification db (newNotification db now d m), none)
        else (insertNotification db (newNotification db now d m),
              some (newNotification db now d m))

/-- The `switch (type)` of the model static. Its `default` branch
(`'interacted with your content'`) is only reached by a `type` outside the
schema enum, which `NotifType` has no value for. -/
def templateMessage : NotifType → String
  | .like => "liked your post"
  | .comment => "commented on your post"
  | .follow => "started following you"
  | .mention => "mentioned you in a post"
  | .post => "created a new post"

/-- The model static `Notification.createNotification` of `models/Notification.js`.
It has no `try`/`catch`: a failed `save` rejects the returned promise
(`Except.error`). It reads neither `data.message` nor the stored notifications. -/
def Notification.createNotification (f : Faults) (now : Time) (db : Db)
    (d : NotificationData) : Except String (Db × Option Notification) :=
  if d.sender = d.recipient then .ok (db, none)
  else if f.saveFails then .error "save failed"
  else
    .ok (insertNotification db (newNotification db now d (templateMessage d.type)),
         some (newNotification db now d (templateMessage d.type)))

/-- The stored notifications of one `(recipient, sender, type, relatedPost,
relatedComment)` tuple. -/
def sameTuple (d : NotificationData) (n : Notification) : Bool :=
  decide (n.recipient = d.recipient ∧ n.sender = d.sender ∧ n.type = d.type ∧
    n.relatedPost = d.relatedPost ∧ n.relatedComment = d.relatedComment)

/-- How many notifications are stored for the tuple of `d`. -/
def tupleCount (db : Db) (d : NotificationData) : Nat :=
  (db.notifications.filter (sameTuple d)).length

/-- An empty database. -/
def Db.empty : Db := ⟨[], [], [], [], [], 0⟩

/-! ## Collection helpers -/

/-- Apply `g` to the first element satisfying `p` (an update of one document). -/
def updateFirst {α : Type} (p : α → Bool) (g : α → α) : List α → List α
  | [] => []
  | x :: xs => if p x then g x :: xs else x :: updateFirst p g xs

/-- The call `User.findById(id)`. -/
def findUserById (db : Db) (id : Id) : Option User :=
  db.users.find? (fun u => decide (u.id = id))

/-- The call `User.findByIdAndUpdate(id, update)`; no document, no change. -/
def User.findByIdAndUpdate (db : Db) (id : Id) (g : User → User) : Db :=
  { db with users := updateFirst (fun u => decide (u.id = id)) g db.users }

/-- The call `Post.findById(id)`. -/
def findPostById (db : Db) (id : Id) : Option Post :=
  db.posts.find? (fun p => decide (p.id = id))

/-- The call `Comment.findById(id)`. -/
def findCommentById (db : Db) (id : Id) : Option Comment :=
  db.comments.find? (fun c => decide (c.id = id))

/-! ## Follow graph -/

/-- The unique compound index `{ follower: 1, following: 1 }` of `followSchema`:
no two stored edges share both ends. -/
def uniqueEdges (db : Db) : Prop :=
  (db.follows.map (fun e => (e.follower, e.following))).Nodup

instance (db : Db) : Decidable (uniqueEdges db) := by
  unfold uniqueEdges; infer_instance

/-- The filter `{ follower: a, following: b }` on the `Follow` collection. -/
def edgeOf (a b : Id) (e : Follow) : Bool := decide (e.follower = a ∧ e.following = b)

/-- The call `Follow.create({ follower, following })`: `status` defaults to
`'accepted'`; the `pre('save')` hook rejects a self-follow and the unique index
rejects a second edge for the pair (`none` stands for the thrown error). -/
def Follow.create (db : Db) (now : Time) (follower following : Id) : Option Db :=
  if follower = following then none
  else if db.follows.any (edgeOf follower following) then none
  else some { db with follows := db.follows ++ [⟨follower, following, .accepted, now⟩] }

/-- The static `Follow.isFollowing(followerId, followingId)`. -/
def Follow.isFollowing (db : Db) (followerId followingId : Id) : Bool :=
  (db.follows.find? (fun e => decide (e.follower = followerId ∧ e.following = followingId ∧
    e.status = .accepted))).isSome

/-- The edges stored for the ordered pair `(a, b)`, whatever their status. -/
def edgeCount (db : Db) (a b : Id) : Nat :=
  (db.follows.filter (edgeOf a b)).length

/-- The `following` array of user `a` (empty when there is no such user). -/
def followingOf (db : Db) (a : Id) : List Id :=
  match findUserById db a with
  | some u => u.following
  | none => []

/-- The `followers` array of user `b` (empty when there is no such user). -/
def followersOf (db : Db) (b : Id) : List Id :=
  match findUserById db b with
  | some u => u.followers
  | none => []

/-- The follower count of a user: the length of the cached `followers` array. -/
def followersCount (db : Db) (b : Id) : Int := (followersOf db b).length

/-- The following count of a user: the length of the cached `following` array. -/
def followingCount (db : Db) (a : Id) : Int := (followingOf db a).length

/-- The text of a notification sent in the name of `su`. -/
def senderText (su : User) (what : String) : String :=
  su.firstName ++ " " ++ su.lastName ++ " " ++ what

/-- The controller `followUser` (`POST /api/users/:id/follow`), `me` being
`req.user.id` and `target` being `req.params.id`. A `null` result of the
`senderUser` lookup makes `senderUser.firstName` throw, which the outer `catch`
answers with 500 after the edge and both arrays have been written. -/
def followUser (f : Faults) (now : Time) (db : Db) (me target : Id) : Db × Response :=
  match findUserById db target with
  | none => (db, failure 404 "User not found")
  | some _ =>
    if me = target then (db, failure 400 "You cannot follow yourself")
    else
      match db.follows.find? (edgeOf me target) with
      | some _ => (db, failure 400 "You are already following this user")
      | none =>
        match Follow.create db now me target with
        | none => (db, failure 500 "Server error")
        | some db1 =>
          let db2 := User.findByIdAndUpdate db1 me
            (fun u => { u with following := u.following ++ [target] })
          let db3 := User.findByIdAndUpdate db2 target
            (fun u => { u with followers := u.followers ++ [me] })
          match findUserById db3 me with
          | none => (db3, failure 500 "Server error")
          | some su =>
            ((createNotification f now db3
                { recipient := target, sender := me, type := .follow,
                  message := some (senderText su "started following you"),
                  relatedPost := none, relatedComment := none }).1,
             success 200 "User followed successfully")

/-- The controller `unfollowUser` (`DELETE /api/users/:id/follow`):
`findOneAndDelete` removes the first edge of the pair, `$pull` removes every
occurrence of the id from the array. -/
def unfollowUser (db : Db) (me target : Id) : Db × Response :=
  match findUserById db target with
  | none => (db, failure 404 "User not found")
  | some _ =>
    let db1 : Db :=
      { db with follows := db.follows.eraseP (edgeOf me target) }
    let db2 := User.findByIdAndUpdate db1 me
      (fun u => { u with following := u.following.filter (fun x => decide (x ≠ target)) })
    let db3 := User.findByIdAndUpdate db2 target
      (fun u => { u with followers := u.followers.filter (fun x => decide (x ≠ me)) })
    (db3, success 200 "User unfollowed successfully")

/-- The cached arrays hold no stale entry for the pair `(a, b)`: `b` is not in
the `following` array of `a` and `a` is not in the `followers` array of `b`. -/
def noStaleEntry (db : Db) (a b : Id) : Prop :=
  b ∉ followingOf db a ∧ a ∉ followersOf db b

instance (db : Db) (a b : Id) : Decidable (noStaleEntry db a b) := by
  unfold noStaleEntry; infer_instance

/-! ## Likes -/

/-- The method `comment.isLikedBy(userId)`. -/
def Comment.isLikedBy (c : Comment) (userId : Id) : Bool :=
  c.likes.any (fun l => decide (l.user = userId))

/-- The virtual `likesCount` of a comment: `this.likes.length`. -/
def Comment.likesCount (c : Comment) : Int := c.likes.length

/-- The `pre('save')` hook of `commentSchema`: a changed `content` on a document
that is not new marks the comment as edited. -/
def Comment.preSave (now : Time) (contentModified isNew : Bool) (c : Comment) : Comment :=
  if contentModified && !isNew then { c with isEdited := true, editedAt := some now } else c

/-- The call `comment.save()`: runs the hook, then writes the document under its
id (an insert when the id is not stored yet). -/
def Comment.save (db : Db) (now : Time) (c : Comment) : Db :=
  match findCommentById db c.id with
  | none => { db with comments := db.comments ++ [Comment.preSave now true true c] }
  | some old =>
    { db with
      comments := updateFirst (fun x => decide (x.id = c.id))
        (fun _ => Comment.preSave now (decide (c.content ≠ old.content)) false c) db.comments }

/-- The in-memory effect of `comment.addLike(userId)` before its `save()`. -/
def Comment.addLike (c : Comment) (userId : Id) (now : Time) : Comment :=
  if !c.isLikedBy userId then { c with likes := c.likes ++ [⟨userId, now⟩] } else c

/-- The in-memory effect of `comment.removeLike(userId)` before its `save()`. -/
def Comment.removeLike (c : Comment) (userId : Id) : Comment :=
  { c with likes := c.likes.filter (fun l => decide (l.user ≠ userId)) }

/-- The in-memory effect of `comment.addReply(replyId)` before its `save()`. -/
def Comment.addReply (c : Comment) (replyId : Id) : Comment :=
  { c with replies := c.replies ++ [replyId] }

/-- The controller `likeComment` (`POST /api/comments/:id/like`). The reported
`likesCount` is read from the document after `addLike` has pushed the entry. -/
def likeComment (now : Time) (db : Db) (me commentId : Id) : Db × Response :=
  match findCommentById db commentId with
  | none => (db, failure 404 "Comment not found")
  | some c =>
    if c.isDeleted then (db, failure 404 "Comment not found")
    else if c.isLikedBy me then (db, failure 400 "Comment already liked")
    else
      (Comment.save db now (c.addLike me now),
       ⟨200, true, some "Comment liked successfully", some ((c.addLike me now).likesCount + 1)⟩)

/-- The controller `unlikeComment` (`DELETE /api/comments/:id/like`). -/
def unlikeComment (now : Time) (db : Db) (me commentId : Id) : Db × Response :=
  match findCommentById db commentId with
  | none => (db, failure 404 "Comment not found")
  | some c =>
    if c.isDeleted then (db, failure 404 "Comment not found")
    else if !c.isLikedBy me then (db, failure 400 "Comment not liked yet")
    else
      (Comment.save db now (c.removeLike me),
       ⟨200, true, some "Comment unliked successfully", some ((c.removeLike me).likesCount - 1)⟩)

/-- Modelled from the spec: `post.isLikedBy` lives in the absent `Post` model;
the specification makes it the membership test on the like set. -/
def Post.isLikedBy (p : Post) (userId : Id) : Bool :=
  p.likes.any (fun l => decide (l.user = userId))

/-- Modelled from the spec: the like count of a post is the size of its like set. -/
def Post.likesCount (p : Post) : Int := p.likes.length

/-- Modelled from the spec: `post.addLike` lives in the absent `Post` model; the
specification makes it append `(actor, now)` to the like set. -/
def Post.addLike (p : Post) (userId : Id) (now : Time) : Post :=
  { p with likes := p.likes ++ [⟨userId, now⟩] }

/-- Modelled from the spec: `post.removeLike` lives in the absent `Post` model;
the specification makes it remove the entry of the actor. -/
def Post.removeLike (p : Post) (userId : Id) : Post :=
  { p with likes := p.likes.filter (fun l => decide (l.user ≠ userId)) }

/-- The call `post.save()`: writes the document under its id. -/
def Post.save (db : Db) (p : Post) : Db :=
  { db with posts := updateFirst (fun x => decide (x.id = p.id)) (fun _ => p) db.posts }

/-- The controller `likePost` (`POST /api/posts/:id/like`). As in `followUser`, a
`null` result of the `senderUser` lookup ends in the outer `catch` (500) after
the like has been written. -/
def likePost (f : Faults) (now : Time) (db : Db) (me postId : Id) : Db × Response :=
  match findPostById db postId with
  | none => (db, failure 404 "Post not found")
  | some p =>
    if p.isLikedBy me then (db, failure 400 "Post already liked")
    else
      let db1 := Post.save db (p.addLike me now)
      let ok : Response :=
        ⟨200, true, some "Post liked successfully", some ((p.addLike me now).likesCount + 1)⟩
      if p.author ≠ me then
        match findUserById db1 me with
        | none => (db1, failure 500 "Server error")
        | some su =>
          ((createNotification f now db1
              { recipient := p.author, sender := me, type := .like,
                message := some (senderText su "liked your post"),
                relatedPost := some p.id, relatedComment := none }).1, ok)
      else (db1, ok)

/-- The controller `unlikePost` (`DELETE /api/posts/:id/like`). -/
def unlikePost (db : Db) (me postId : Id) : Db × Response :=
  match findPostById db postId with
  | none => (db, failure 404 "Post not found")
  | some p =>
    if !p.isLikedBy me then (db, failure 400 "Post not liked yet")
    else
      (Post.save db (p.removeLike me),
       ⟨200, true, some "Post unliked successfully", some ((p.removeLike me).likesCount - 1)⟩)

/-- The entries of the like set of a post (empty when the post is not stored). -/
def postLikes (db : Db) (postId : Id) : List Like :=
  match findPostById db postId with
  | some p => p.likes
  | none => []

/-- The entries of the like set of a comment (empty when it is not stored). -/
def commentLikes (db : Db) (commentId : Id) : List Like :=
  match findCommentById db commentId with
  | some c => c.likes
  | none => []

/-! ## Mention extraction -/

/-- The class `\w` of a JavaScript regular expression without the `u` flag. -/
def isWordChar (c : Char) : Bool := c.isAlphanum || c == '_'

/-- The handles captured by the loop `while ((match = /@(\w+)/g.exec(content)))`,
in order of occurrence. A match is an `@` followed by the longest run of word
characters, which must not be empty; the search resumes behind the match. As a
word character is never an `@`, resuming right behind the `@` finds the same
later matches, which keeps the recursion structural. -/
def scanMentions : List Char → List String
  | [] => []
  | c :: rest =>
    if c = '@' then
      match rest.takeWhile isWordChar with
      | [] => scanMentions rest
      | w :: ws => String.mk (w :: ws) :: scanMentions rest
    else scanMentions rest

/-- The `mentions` array: each captured handle is looked up with
`User.findOne({ username })`, the id is pushed when a user is found. -/
def extractMentions (db : Db) (content : String) : List Id :=
  (scanMentions content.toList).filterMap
    (fun h => (db.users.find? (fun u => decide (u.username = h))).map (fun u => u.id))

/-! ## Content creation -/

/-- The `tags` field of a request body: an array, or one comma-separated string. -/
inductive TagsInput where
  | array (tags : List String)
  | csv (tags : String)
  deriving DecidableEq

/-- The characters that `trim()` removes: the white space and line terminator
characters of the language (TAB, LF, VT, FF, CR, SP, NBSP, U+1680,
U+2000 to U+200A, U+2028, U+2029, U+202F, U+205F, U+3000, U+FEFF). -/
def isJsWhiteSpace (c : Char) : Bool :=
  decide (c.toNat ∈ [9, 10, 11, 12, 13, 32, 160, 5760, 8232, 8233, 8239, 8287, 12288, 65279]) ||
    (decide (8192 ≤ c.toNat) && decide (c.toNat ≤ 8202))

/-- The method `trim()` of a string. -/
def jsTrim (s : String) : String :=
  String.mk ((s.toList.dropWhile isJsWhiteSpace).reverse.dropWhile isJsWhiteSpace).reverse

/-- The step `Array.isArray(tags) ? tags : tags.split(',').map(tag => tag.trim())`,
guarded by `if (tags)` (an absent field and the empty string are falsy). -/
def processTags : Option TagsInput → List String
  | none => []
  | some (.array l) => l
  | some (.csv s) => if s = "" then [] else (s.splitOn ",").map jsTrim

/-- The `length` of a string: its number of UTF-16 code units, two for a
character beyond U+FFFF. -/
def utf16Length (s : String) : Nat :=
  (s.toList.map (fun c => if c.toNat < 65536 then 1 else 2)).sum

/-- The length that `isLength` of the route validator compares with its bounds:
`str.length` minus the number of surrogate pairs minus the number of the
presentation selectors U+FE0E and U+FE0F, which is the number of characters
other than these two selectors. -/
def routeLength (s : String) : Nat :=
  (s.toList.filter (fun c => !(decide (c.toNat = 65038) || decide (c.toNat = 65039)))).length

/-- The rule `createPostValidation` / `createCommentValidation` on `content`
(`isLength({ min: 1, max })`), applied to the body after the `trim` sanitizer of
the route has run. -/
def validContent (maxLen : Nat) (content : String) : Bool :=
  decide (1 ≤ routeLength content ∧ routeLength content ≤ maxLen)

/-- The validators of `commentSchema` on `content`, run by `Comment.create` and by
`findByIdAndUpdate` with `runValidators: true`: `required` rejects the empty
string, `maxlength` compares `content.length`, counted in UTF-16 code units,
with 500. A rejected document makes the call throw. -/
def Comment.validate (content : String) : Bool :=
  decide (content ≠ "" ∧ utf16Length content ≤ 500)

/-- The loop `for (const mentionedUserId of mentions)` of `createPost`: each
iteration awaits the model static, so the first rejected call leaves the loop
with the exception (`false`). -/
def notifyPostMentions (f : Faults) (now : Time) (me postId : Id) : Db → List Id → Db × Bool
  | db, [] => (db, true)
  | db, m :: ms =>
    match Notification.createNotification f now db
        { recipient := m, sender := me, type := .mention, message := none,
          relatedPost := some postId, relatedComment := none } with
    | .error _ => (db, false)
    | .ok (db1, _) => notifyPostMentions f now me postId db1 ms

/-- The controller `createPost` (`POST /api/posts`). -/
def createPost (f : Faults) (now : Time) (db : Db) (me : Id) (content : String)
    (visibility : Visibility) (tags : Option TagsInput) (images : List String) :
    Db × Response :=
  if !validContent 2000 content then (db, failure 400 "Validation failed")
  else
    let post : Post :=
      { id := db.nextId, author := me, content := content, images := images,
        tags := processTags tags, mentions := extractMentions db content,
        visibility := visibility, likes := [], comments := [], createdAt := now }
    let db1 : Db := { db with posts := db.posts ++ [post], nextId := db.nextId + 1 }
    match notifyPostMentions f now me post.id db1 post.mentions with
    | (db2, false) => (db2, failure 500 "Server error")
    | (db2, true) => (db2, created)

/-- The loop `for (const mentionedUserId of mentions)` of `createComment`, which
skips the author and goes through the controller helper. -/
def notifyCommentMentions (f : Faults) (now : Time) (me postId commentId : Id) :
    Db → List Id → Db × Bool
  | db, [] => (db, true)
  | db, m :: ms =>
    if m ≠ me then
      match findUserById db me with
      | none => (db, false)
      | some su =>
        notifyCommentMentions f now me postId commentId
          (createNotification f now db
            { recipient := m, sender := me, type := .mention,
              message := some (senderText su "mentioned you in a comment"),
              relatedPost := some postId, relatedComment := some commentId }).1 ms
    else notifyCommentMentions f now me postId commentId db ms

/-- The notification part of `createComment`: the post author first, then the
mentioned users. -/
def notifyComment (f : Faults) (now : Time) (me : Id) (post : Post) (commentId : Id)
    (mentions : List Id) (db : Db) : Db × Bool :=
  if post.author ≠ me then
    match findUserById db me with
    | none => (db, false)
    | some su =>
      notifyCommentMentions f now me post.id commentId
        (createNotification f now db
          { recipient := post.author, sender := me, type := .comment,
            message := some (senderText su "commented on your post"),
            relatedPost := some post.id, relatedComment := some commentId }).1 mentions
  else notifyCommentMentions f now me post.id commentId db mentions

/-- The controller `createComment` (`POST /api/comments` and `/reply`). A content
that the schema validators reject makes `Comment.create` throw before anything
is written, which the `catch` block answers with 500. -/
def createComment (f : Faults) (now : Time) (db : Db) (me : Id) (content : String)
    (postId : Id) (parentCommentId : Option Id) : Db × Response :=
  if !validContent 500 content then (db, failure 400 "Validation failed")
  else
    match findPostById db postId with
    | none => (db, failure 404 "Post not found")
    | some post =>
      let parent : Option (Option Comment) :=
        match parentCommentId with
        | none => some none
        | some pid =>
          match findCommentById db pid with
          | none => none
          | some pc => some (some pc)
      match parent with
      | none => (db, failure 404 "Parent comment not found")
      | some parentComment =>
        if !Comment.validate content then (db, failure 500 "Server error")
        else
          let comment : Comment :=
            { id := db.nextId, content := content, author := me, post := postId,
              parentComment := parentCommentId, replies := [], likes := [],
              mentions := extractMentions db content, isEdited := false, editedAt := none,
              isDeleted := false, deletedAt := none, createdAt := now }
          let db1 : Db := { db with comments := db.comments ++ [comment], nextId := db.nextId + 1 }
          let db2 := Post.save db1 { post with comments := post.comments ++ [comment.id] }
          let db3 :=
            match parentComment with
            | none => db2
            | some pc => Comment.save db2 now (pc.addReply comment.id)
          match notifyComment f now me post comment.id comment.mentions db3 with
          | (db4, false) => (db4, failure 500 "Server error")
          | (db4, true) => (db4, created)

/-! ## Editing and deleting content -/

/-- A success response `{ success: true, <entity> }` with status 200. -/
def ok200 : Response := ⟨200, true, none, none⟩

/-- The fixed text that `softDelete` writes into `content`. -/
def tombstone : String := "[This comment has been deleted]"

/-- The in-memory effect of `comment.softDelete()` before its `save()`. -/
def Comment.softDelete (c : Comment) (now : Time) : Comment :=
  { c with isDeleted := true, deletedAt := some now, content := tombstone }

/-- The in-memory effect of `comment.removeReply(replyId)` before its `save()`. -/
def Comment.removeReply (c : Comment) (replyId : Id) : Comment :=
  { c with replies := c.replies.filter (fun r => decide (r ≠ replyId)) }

/-- Modelled from the spec: `post.removeComment` lives in the absent `Post` model;
the specification calls it the detaching of a comment from the comment-id list. -/
def Post.removeComment (p : Post) (commentId : Id) : Post :=
  { p with comments := p.comments.filter (fun c => decide (c ≠ commentId)) }

/-- The controller `getComment` (`GET /api/comments/:id`), reduced to its answer. -/
def getComment (db : Db) (commentId : Id) : Response :=
  match findCommentById db commentId with
  | none => failure 404 "Comment not found"
  | some c => if c.isDeleted then failure 404 "Comment not found" else ok200

/-- The controller `updateComment` (`PUT /api/comments/:id`). The write is
`Comment.findByIdAndUpdate(id, { content, mentions })` with `runValidators: true`:
a query update, on which the `pre('save')` hook of the schema does not run and
which throws, writing nothing, when the schema validators reject the content. -/
def updateComment (db : Db) (me commentId : Id) (content : String) : Db × Response :=
  if !validContent 500 content then (db, failure 400 "Validation failed")
  else
    match findCommentById db commentId with
    | none => (db, failure 404 "Comment not found")
    | some c =>
      if c.isDeleted then (db, failure 404 "Comment not found")
      else if c.author ≠ me then (db, failure 403 "Not authorized to update this comment")
      else if !Comment.validate content then (db, failure 500 "Server error")
      else
        ({ db with
            comments := updateFirst (fun x => decide (x.id = commentId))
              (fun x => { x with content := content, mentions := extractMentions db content })
              db.comments },
         ok200)

/-- The controller `deleteComment` (`DELETE /api/comments/:id`): soft delete, then
detach the id from the post and, for a reply, from the parent comment. -/
def deleteComment (now : Time) (db : Db) (me commentId : Id) : Db × Response :=
  match findCommentById db commentId with
  | none => (db, failure 404 "Comment not found")
  | some c =>
    if c.isDeleted then (db, failure 404 "Comment not found")
    else if c.author ≠ me then (db, failure 403 "Not authorized to delete this comment")
    else
      let db1 := Comment.save db now (c.softDelete now)
      let db2 :=
        match findPostById db1 c.post with
        | some p => Post.save db1 (p.removeComment c.id)
        | none => db1
      let db3 :=
        match c.parentComment with
        | none => db2
        | some parentId =>
          match findCommentById db2 parentId with
          | some pc => Comment.save db2 now (pc.removeReply c.id)
          | none => db2
      (db3, success 200 "Comment deleted successfully")

/-- The rule `updatePostValidation`: `content` is optional; when present it is
checked like the content of a new post. -/
def validOptContent : Option String → Bool
  | none => true
  | some s => validContent 2000 s

/-- The controller `updatePost` (`PUT /api/posts/:id`). The mention loop runs on
`content` as it is: for an absent `content` the pattern is matched against the
text `undefined`. The update object always carries `mentions`; it carries
`content`, `visibility` and `tags` only when they are truthy, respectively
non-empty. -/
def updatePost (db : Db) (me postId : Id) (content : Option String)
    (visibility : Option Visibility) (tags : Option TagsInput) : Db × Response :=
  if !validOptContent content then (db, failure 400 "Validation failed")
  else
    match findPostById db postId with
    | none => (db, failure 404 "Post not found")
    | some p =>
      if p.author ≠ me then (db, failure 403 "Not authorized to update this post")
      else
        ({ db with
            posts := updateFirst (fun x => decide (x.id = postId))
              (fun x =>
                { x with
                  content := match content with
                    | some s => if s = "" then x.content else s
                    | none => x.content
                  visibility := visibility.getD x.visibility
                  tags := if processTags tags = [] then x.tags else processTags tags
                  mentions := extractMentions db (content.getD "undefined") })
              db.posts },
         ok200)

/-- The controller `deletePost` (`DELETE /api/posts/:id`); the removal of the image
files is outside the database. -/
def deletePost (db : Db) (me postId : Id) : Db × Response :=
  match findPostById db postId with
  | none => (db, failure 404 "Post not found")
  | some p =>
    if p.author ≠ me then (db, failure 403 "Not authorized to delete this post")
    else
      ({ db with posts := db.posts.eraseP (fun x => decide (x.id = postId)) },
       success 200 "Post deleted successfully")

/-- A request to one of the comment controllers. -/
inductive CommentOp where
  | edit (me commentId : Id) (content : String)
  | delete (me commentId : Id)
  | like (me commentId : Id)
  | unlike (me commentId : Id)
  | create (f : Faults) (me : Id) (content : String) (postId : Id) (parent : Option Id)

/-- The state after one comment request served at time `now`. -/
def applyCommentOp (now : Time) (db : Db) : CommentOp → Db
  | .edit me commentId content => (updateComment db me commentId content).1
  | .delete me commentId => (deleteComment now db me commentId).1
  | .like me commentId => (likeComment now db me commentId).1
  | .unlike me commentId => (unlikeComment now db me commentId).1
  | .create f me content postId parent => (createComment f now db me content postId parent).1

/-- The state after a sequence of timed comment requests. -/
def runCommentOps : Db → List (Time × CommentOp) → Db
  | db, [] => db
  | db, (now, op) :: rest => runCommentOps (applyCommentOp now db op) rest

/-- The comment stored under `commentId` is tombstoned and has the given content. -/
def tombstonedWith (db : Db) (commentId : Id) (content : String) : Prop :=
  ∃ c, findCommentById db commentId = some c ∧ c.isDeleted = true ∧ c.content = content

/-! ## Mention extraction as the specification words it -/

/-- Specification reading of the mention pattern: the non-overlapping matches of
`@` followed by one or more word characters, found from left to right; each
match takes the longest run of word characters and the search resumes behind
the match. -/
def specMentionHandles (l : List Char) : List String :=
  match l with
  | [] => []
  | c :: rest =>
    if c = '@' ∧ rest.takeWhile isWordChar ≠ [] then
      String.mk (rest.takeWhile isWordChar) :: specMentionHandles (rest.dropWhile isWordChar)
    else specMentionHandles rest
termination_by l.length
decreasing_by
  · simp_wf
    exact Nat.lt_succ_of_le (List.dropWhile_sublist isWordChar).length_le
  · simp_wf

/-- Specification reading of the resolution of one handle against the identity
directory: the id of the user with that handle, if there is one. -/
def resolveHandle (db : Db) (handle : String) : Option Id :=
  (db.users.find? (fun u => decide (u.username = handle))).map (fun u => u.id)

/-- Specification reading of the stored mention list: the ids of the handles
that resolve, in order of occurrence. -/
def specMentions (db : Db) (content : String) : List Id :=
  (specMentionHandles content.toList).filterMap (resolveHandle db)

/-! ## Feed -/

/-- The order `sort({ createdAt: -1 })` on posts: newer posts first. -/
def newerFirst (p q : Post) : Prop := q.createdAt ≤ p.createdAt

instance : DecidableRel newerFirst := fun p q => by
  unfold newerFirst; infer_instance

instance : IsTotal Post newerFirst := ⟨fun p q => le_total q.createdAt p.createdAt⟩

instance : IsTrans Post newerFirst := ⟨fun _ _ _ h1 h2 => le_trans h2 h1⟩

/-- The filter of the two `Post` queries of `getFeedPosts`: the author is one of
`[...followingIds, me]`, and the post is public, or for followers and by a
followed author, or by the viewer. -/
def inFeed (me : Id) (followingIds : List Id) (p : Post) : Bool :=
  decide (p.author ∈ followingIds ++ [me]) &&
    (decide (p.visibility = .pub) ||
      (decide (p.visibility = .followers) && decide (p.author ∈ followingIds)) ||
      decide (p.author = me))

/-- The matching posts in the order of the query, before `skip` and `limit`. -/
def feedQuery (db : Db) (me : Id) (followingIds : List Id) : List Post :=
  (db.posts.filter (inFeed me followingIds)).insertionSort newerFirst

/-- The value of `parseInt(req.query.x) || fallback` for a parsed value that is
not negative; an absent or unparsable parameter and `0` give the fallback. -/
def orDefault (parsed fallback : Nat) : Nat := if parsed = 0 then fallback else parsed

/-- The answer of a paginated post listing: status, the posts of the page, `total`
and the `pagination` object. -/
structure FeedResponse where
  status : Nat
  posts : List Post
  total : Nat
  page : Nat
  pages : Nat
  hasNext : Bool
  hasPrev : Bool
  deriving DecidableEq

/-- The controller `getFeedPosts` (`GET /api/posts/feed`). The followed authors
are read from the `following` array of the viewer's user document; a viewer
without a user document makes `currentUser.following` throw (500). -/
def getFeedPosts (db : Db) (me : Id) (pageParam limitParam : Nat) : FeedResponse :=
  let page := orDefault pageParam 1
  let limit := orDefault limitParam 10
  let skip := (page - 1) * limit
  match findUserById db me with
  | none => ⟨500, [], 0, 0, 0, false, false⟩
  | some currentUser =>
    let found := feedQuery db me currentUser.following
    let total := (db.posts.filter (inFeed me currentUser.following)).length
    let pages := (total + limit - 1) / limit
    ⟨200, (found.drop skip).take limit, total, page, pages,
      decide (page < pages), decide (1 < page)⟩

/-! ## Paginated lists -/

/-- The numbers every paginated controller computes from `page`, `limit` and
`total`: `skip = (page - 1) * limit`, `pages = Math.ceil(total / limit)`,
`hasNext = page < pages`, `hasPrev = page > 1`. The quotient is exact in double
precision for every total below `2^53`. -/
structure Pagination where
  skip : Nat
  page : Nat
  pages : Nat
  hasNext : Bool
  hasPrev : Bool
  deriving DecidableEq

/-- The pagination numbers for parsed `page` and `limit` that are at least 1. -/
def paginate (page limit total : Nat) : Pagination :=
  { skip := (page - 1) * limit
    page := page
    pages := (total + limit - 1) / limit
    hasNext := decide (page < (total + limit - 1) / limit)
    hasPrev := decide (1 < page) }

/-- The answer of a paginated listing of documents of type `α`. -/
structure Listing (α : Type) where
  status : Nat
  items : List α
  total : Nat
  pagination : Pagination

/-- The controller `getPosts` (`GET /api/posts`): the public posts, newest first. -/
def getPosts (db : Db) (pageParam limitParam : Nat) : Listing Post :=
  let page := orDefault pageParam 1
  let limit := orDefault limitParam 10
  let found := (db.posts.filter (fun p => decide (p.visibility = .pub))).insertionSort newerFirst
  ⟨200, (found.drop (paginate page limit found.length).skip).take limit, found.length,
    paginate page limit found.length⟩

/-- The order `sort({ createdAt: -1 })` on comments. -/
def newerComment (c d : Comment) : Prop := d.createdAt ≤ c.createdAt

instance : DecidableRel newerComment := fun c d => by
  unfold newerComment; infer_instance

instance : IsTotal Comment newerComment := ⟨fun c d => le_total d.createdAt c.createdAt⟩

instance : IsTrans Comment newerComment := ⟨fun _ _ _ h1 h2 => le_trans h2 h1⟩

/-- The order `sort({ createdAt: 1 })` on comments. -/
def olderComment (c d : Comment) : Prop := c.createdAt ≤ d.createdAt

instance : DecidableRel olderComment := fun c d => by
  unfold olderComment; infer_instance

instance : IsTotal Comment olderComment := ⟨fun c d => le_total c.createdAt d.createdAt⟩

instance : IsTrans Comment olderComment := ⟨fun _ _ _ h1 h2 => le_trans h1 h2⟩

/-- The filter `{ post: postId, parentComment: null, isDeleted: false }`. -/
def topLevelOf (postId : Id) (c : Comment) : Bool :=
  decide (c.post = postId ∧ c.parentComment = none ∧ c.isDeleted = false)

/-- The filter `{ parentComment: id, isDeleted: false }`. -/
def liveReplyOf (commentId : Id) (c : Comment) : Bool :=
  decide (c.parentComment = some commentId ∧ c.isDeleted = false)

/-- The controller `getComments` (`GET /api/comments/post/:postId`), rows only. -/
def getComments (db : Db) (postId : Id) (pageParam limitParam : Nat) : Listing Comment :=
  let page := orDefault pageParam 1
  let limit := orDefault limitParam 20
  let found := (db.comments.filter (topLevelOf postId)).insertionSort newerComment
  ⟨200, (found.drop (paginate page limit found.length).skip).take limit, found.length,
    paginate page limit found.length⟩

/-- The controller `getReplies` (`GET /api/comments/:id/replies`). -/
def getReplies (db : Db) (commentId : Id) (pageParam limitParam : Nat) : Listing Comment :=
  let page := orDefault pageParam 1
  let limit := orDefault limitParam 10
  let found := (db.comments.filter (liveReplyOf commentId)).insertionSort olderComment
  ⟨200, (found.drop (paginate page limit found.length).skip).take limit, found.length,
    paginate page limit found.length⟩

/-! ## Read state of notifications -/

/-- The in-memory effect of the method `notification.markAsRead()`. -/
def Notification.markAsRead (n : Notification) (now : Time) : Notification :=
  { n with isRead := true, readAt := some now }

/-- The call `Notification.findById(id)`. -/
def findNotificationById (db : Db) (id : Id) : Option Notification :=
  db.notifications.find? (fun n => decide (n.id = id))

/-- The controller `markAsRead` (`PUT /api/notifications/:id/read`). -/
def markAsRead (now : Time) (db : Db) (me notificationId : Id) : Db × Response :=
  match findNotificationById db notificationId with
  | none => (db, failure 404 "Notification not found")
  | some n =>
    if n.recipient ≠ me then (db, failure 401 "Not authorized to access this notification")
    else
      ({ db with
          notifications := updateFirst (fun x => decide (x.id = notificationId))
            (fun _ => n.markAsRead now) db.notifications },
       success 200 "Notification marked as read")

/-- The controller `markAllAsRead` (`PUT /api/notifications/read-all`): an
`updateMany` on the filter `{ recipient, isRead: false }`. -/
def markAllAsRead (now : Time) (db : Db) (me : Id) : Db × Response :=
  ({ db with
      notifications := db.notifications.map (fun n =>
        if n.recipient = me ∧ n.isRead = false then { n with isRead := true, readAt := some now }
        else n) },
   success 200 "All notifications marked as read")

/-! ## Sequences of like calls and of follow requests -/

/-- A call of one of the two like methods of a comment. -/
inductive LikeCall where
  | add (userId : Id) (now : Time)
  | remove (userId : Id)

/-- The comment after one like call. -/
def applyLikeCall (c : Comment) : LikeCall → Comment
  | .add userId now => c.addLike userId now
  | .remove userId => c.removeLike userId

/-- The comment after a sequence of like calls. -/
def runLikeCalls (c : Comment) (calls : List LikeCall) : Comment :=
  calls.foldl applyLikeCall c

/-- A follow or unfollow request, with the faults and the time it is served at. -/
inductive FollowOp where
  | follow (f : Faults) (now : Time) (me target : Id)
  | unfollow (me target : Id)

/-- The state after one follow or unfollow request. -/
def applyFollowOp (db : Db) : FollowOp → Db
  | .follow f now me target => (followUser f now db me target).1
  | .unfollow me target => (unfollowUser db me target).1

/-- The state after a sequence of follow and unfollow requests. -/
def runFollowOps (db : Db) (ops : List FollowOp) : Db :=
  ops.foldl applyFollowOp db

/-- The primary key of the user collection: no two user documents share an id. -/
def uniqueUserIds (db : Db) : Prop := (db.users.map (fun u => u.id)).Nodup

/-- The cached arrays agree with the edge collection: in every user document the
`following` array lists, without repetition, exactly the users the document's
owner has an edge to, and the `followers` array exactly the users with an edge
to the owner. -/
def cacheAgrees (db : Db) : Prop :=
  ∀ u ∈ db.users,
    u.following.Nodup ∧ u.followers.Nodup ∧
    (∀ b, b ∈ u.following ↔ 0 < edgeCount db u.id b) ∧
    (∀ a, a ∈ u.followers ↔ 0 < edgeCount db a u.id)

/-! ## Trending topics -/

/-- The value of the method `toLowerCase` on a string of ASCII characters: the
letters `A` to `Z` are replaced by `a` to `z`. The controller below takes the
method itself as its argument `lower`; this function stands in for it on sample
inputs whose tags and contents are ASCII text. -/
def asciiToLowerCase (s : String) : String := String.mk (s.toList.map Char.toLower)

/-- An entry of `userProfiles`: `fullName` and `username` of a populated author
(the user documents of this development carry no `profilePicture`). -/
structure Profile where
  fullName : String
  username : String
  deriving DecidableEq

/-- The object literal pushed to `userProfiles` for a populated author. -/
def profileOf (u : User) : Profile := ⟨u.firstName ++ " " ++ u.lastName, u.username⟩

/-- A value of `hashtagStats`: `count`, the set `recentUsers` (author ids in
insertion order) and the array `userProfiles`. -/
structure TagStat where
  count : Nat
  recentUsers : List Id
  userProfiles : List Profile
  deriving DecidableEq

/-- The object `hashtagStats`: its own properties in insertion order. -/
abbrev HashtagStats := List (String × TagStat)

/-- The property names every plain object inherits from `Object.prototype`. For
such a name `hashtagStats[name]` is the inherited value, which is truthy, although
the object has no own property of that name. -/
def isInheritedKey (k : String) : Bool :=
  k ∈ ["constructor", "__proto__", "__defineGetter__", "__defineSetter__", "__lookupGetter__",
    "__lookupSetter__", "hasOwnProperty", "isPrototypeOf", "propertyIsEnumerable",
    "toLocaleString", "toString", "valueOf"]

/-- The own property `hashtagStats[k]`, if there is one. -/
def statOf (m : HashtagStats) (k : String) : Option TagStat :=
  (m.find? (fun e => decide (e.1 = k))).map (fun e => e.2)

/-- The object after `hashtagStats[k]` has been given the value `st`: an existing
property keeps its place, a new one is added behind the others. -/
def setStat : HashtagStats → String → TagStat → HashtagStats
  | [], k, st => [(k, st)]
  | e :: rest, k, st => if e.1 = k then (k, st) :: rest else e :: setStat rest k st

/-- The body of `post.tags.forEach(tag => ...)` for one tag of one post; `lower`
is the method `toLowerCase` of strings, and `none` stands for a thrown
`TypeError`. For an inherited property name the entry is
not created, and `hashtagStats[hashtag].recentUsers` is `undefined`, so reading
its `size` throws. For an own entry the count is incremented; while fewer than
three users are recorded, `post.author._id` is read, which throws for a post
whose author was not found by `populate`. -/
def countTag (lower : String → String) (db : Db) (m : HashtagStats) (p : Post) (tag : String) :
    Option HashtagStats :=
  if isInheritedKey (lower tag) then none
  else
    let st := (statOf m (lower tag)).getD ⟨0, [], []⟩
    if st.recentUsers.length < 3 then
      match findUserById db p.author with
      | none => none
      | some u =>
        if p.author ∈ st.recentUsers then
          some (setStat m (lower tag) { st with count := st.count + 1 })
        else
          some (setStat m (lower tag)
            { count := st.count + 1,
              recentUsers := st.recentUsers ++ [p.author],
              userProfiles := st.userProfiles ++ [profileOf u] })
    else some (setStat m (lower tag) { st with count := st.count + 1 })

/-- The pairs `(post, tag)` in the order in which the two nested `forEach` loops
visit them. -/
def tagVisits (posts : List Post) : List (Post × String) :=
  posts.flatMap (fun p => p.tags.map (fun t => (p, t)))

/-- The two nested `forEach` loops, run from the object `m`. -/
def countTags (lower : String → String) (db : Db) :
    HashtagStats → List (Post × String) → Option HashtagStats
  | m, [] => some m
  | m, v :: rest =>
    match countTag lower db m v.1 v.2 with
    | none => none
    | some m1 => countTags lower db m1 rest

/-- The start of the window: `setDate(getDate() - 7)` on the current time, taken
as seven days of 24 hours. -/
def sevenDaysAgo (now : Time) : Time := now - 7 * dayMs

/-- The first `Post.find` of `getTrendingTopics`: public posts of the window with
a non-empty `tags` array, newest first. -/
def taggedRecent (db : Db) (now : Time) : List Post :=
  (db.posts.filter (fun p => decide (sevenDaysAgo now ≤ p.createdAt) && decide (p.tags ≠ []) &&
    decide (p.visibility = .pub))).insertionSort newerFirst

/-- The number written by a string of decimal digits. -/
def digitsValue (cs : List Char) : Nat := cs.foldl (fun n c => 10 * n + (c.toNat - 48)) 0

/-- The array index a property name stands for, if it is one: a canonical decimal
numeral below `2^32 - 1`. -/
def arrayIndex? (k : String) : Option Nat :=
  match k.toList with
  | [] => none
  | c :: cs =>
    if (c :: cs).all Char.isDigit && (decide (c ≠ '0') || cs.isEmpty) &&
        decide (digitsValue (c :: cs) < 4294967295) then
      some (digitsValue (c :: cs))
    else none

/-- Ascending order of the array indices of two property names. -/
def indexOrder (a b : String × TagStat) : Prop :=
  (arrayIndex? a.1).getD 0 ≤ (arrayIndex? b.1).getD 0

instance : DecidableRel indexOrder := fun a b => by
  unfold indexOrder; infer_instance

/-- The call `Object.entries(hashtagStats)`: array indices in ascending order, then
the other names in insertion order. -/
def objectEntries (m : HashtagStats) : HashtagStats :=
  (m.filter (fun e => (arrayIndex? e.1).isSome)).insertionSort indexOrder ++
    m.filter (fun e => (arrayIndex? e.1).isNone)

/-- An element of the `data` array of the answer. -/
structure Topic where
  hashtag : String
  count : Nat
  recentUsers : List Profile
  deriving DecidableEq

/-- The comparator `(a, b) => b.count - a.count`: larger counts first. -/
def moreFrequent (a b : Topic) : Prop := b.count ≤ a.count

instance : DecidableRel moreFrequent := fun a b => by
  unfold moreFrequent; infer_instance

instance : IsTotal Topic moreFrequent := ⟨fun a b => le_total b.count a.count⟩

instance : IsTrans Topic moreFrequent := ⟨fun _ _ _ h1 h2 => le_trans h2 h1⟩

/-- The entries mapped to topics and sorted by count, before `slice`. The sort
of an array is stable. -/
def rankedTopics (m : HashtagStats) : List Topic :=
  ((objectEntries m).map (fun e => (⟨e.1, e.2.count, e.2.userProfiles⟩ : Topic))).insertionSort
    moreFrequent

/-- The array `trending`: the ranked topics cut by `slice(0, 10)`. -/
def trendingOf (m : HashtagStats) : List Topic := (rankedTopics m).take 10

/-- The matches of `/#\w+/g` in a content, each without its leading `#`
(`match.substring(1)`), in order of occurrence. As a word character is never a
`#`, resuming the search right behind a `#` finds the same later matches. -/
def scanHashtags : List Char → List String
  | [] => []
  | c :: rest =>
    if c = '#' then
      match rest.takeWhile isWordChar with
      | [] => scanHashtags rest
      | w :: ws => String.mk (w :: ws) :: scanHashtags rest
    else scanHashtags rest

/-- The order `sort({ likesCount: -1 })`: more liked posts first. -/
def moreLiked (p q : Post) : Prop := q.likesCount ≤ p.likesCount

instance : DecidableRel moreLiked := fun p q => by
  unfold moreLiked; infer_instance

/-- The second `Post.find` of `getTrendingTopics`: public posts of the window, most
liked first, cut by `limit(10)`. -/
def popularRecent (db : Db) (now : Time) : List Post :=
  ((db.posts.filter (fun p => decide (sevenDaysAgo now ≤ p.createdAt) &&
    decide (p.visibility = .pub))).insertionSort moreLiked).take 10

/-- The pairs `(post, hashtag)` in the order in which the two nested `for` loops
of the fallback visit them, the hashtag lower-cased. -/
def fallbackVisits (lower : String → String) (posts : List Post) : List (Post × String) :=
  posts.flatMap (fun p => (scanHashtags p.content.toList).map (fun h => (p, lower h)))

/-- The body of the inner `for` loop of the fallback on the pair
(`fallbackTrending`, `usedHashtags`); `none` stands for the `TypeError` of
`post.author.firstName` on a post whose author was not found. The count is
`Math.floor(Math.random() * 50) + 10`; `rand k` supplies the draw for the
`k`-th topic. -/
def fallbackTag (db : Db) (rand : Nat → Nat) (s : List Topic × List String) (p : Post)
    (hashtag : String) : Option (List Topic × List String) :=
  if hashtag ∉ s.2 ∧ s.1.length < 5 then
    match findUserById db p.author with
    | none => none
    | some u =>
      some (s.1 ++ [⟨hashtag, rand s.1.length % 50 + 10, [profileOf u]⟩], s.2 ++ [hashtag])
  else some s

/-- The two nested `for` loops of the fallback, run from the pair `s`. -/
def fallbackTags (db : Db) (rand : Nat → Nat) :
    List Topic × List String → List (Post × String) → Option (List Topic × List String)
  | s, [] => some s
  | s, v :: rest =>
    match fallbackTag db rand s v.1 v.2 with
    | none => none
    | some s1 => fallbackTags db rand s1 rest

/-- The answer of `getTrendingTopics`: the status and, for 200, the `data` array. -/
structure TrendingResponse where
  status : Nat
  data : Option (List Topic)
  deriving DecidableEq

/-- The controller `getTrendingTopics` (`GET /api/posts/trending`) at time `now`,
`lower` being the method `toLowerCase` of strings and `rand` supplying the draws
of `Math.random`. Any exception is answered by the `catch` block with 500. -/
def getTrendingTopics (lower : String → String) (rand : Nat → Nat) (now : Time) (db : Db) :
    TrendingResponse :=
  match countTags lower db [] (tagVisits (taggedRecent db now)) with
  | none => ⟨500, none⟩
  | some hashtagStats =>
    if (trendingOf hashtagStats).length = 0 then
      match fallbackTags db rand ([], []) (fallbackVisits lower (popularRecent db now)) with
      | none => ⟨500, none⟩
      | some s => ⟨200, some s.1⟩
    else ⟨200, some (trendingOf hashtagStats)⟩

/-! ## Trending topics as the specification words them -/

/-- The tag occurrences equal to `h` ignoring letter case, that is after `lower`,
among the visited pairs. -/
def visitsOf (lower : String → String) (h : String) (vs : List (Post × String)) :
    List (Post × String) :=
  vs.filter (fun v => decide (lower v.2 = h))

/-- The number of tag occurrences equal to `h` ignoring letter case over the public
posts of the window. -/
def occurrences (lower : String → String) (db : Db) (now : Time) (h : String) : Nat :=
  (visitsOf lower h (tagVisits (taggedRecent db now))).length

/-- The public posts of the window that carry the tag `h`, newest first. -/
def carriers (lower : String → String) (db : Db) (now : Time) (h : String) : List Post :=
  (taggedRecent db now).filter (fun p => p.tags.any (fun t => decide (lower t = h)))

/-- One step of a scan that collects distinct ids. -/
def addDistinct (acc : List Id) (a : Id) : List Id := if a ∈ acc then acc else acc ++ [a]

/-- The distinct ids of a list in the order in which a scan first meets them. -/
def firstDistinct (l : List Id) : List Id := l.foldl addDistinct []

/-- The up to three most recent contributors of the tag `h`: the first distinct
authors met when the posts carrying it are scanned newest first. -/
def recentAuthors (lower : String → String) (db : Db) (now : Time) (h : String) : List Id :=
  (firstDistinct ((carriers lower db now h).map (fun p => p.author))).take 3

/-- The object `m` records the visited pairs `seen`: its property names are
distinct, a name has a property exactly when an occurrence of it was visited, and
the property holds the number of its occurrences, the first three distinct
authors of those occurrences in the order of the visits, and their profiles. -/
def recordsVisits (lower : String → String) (db : Db) (seen : List (Post × String))
    (m : HashtagStats) : Prop :=
  (m.map (fun e => e.1)).Nodup ∧
  ∀ h, (visitsOf lower h seen = [] ∧ statOf m h = none) ∨
    ∃ st, statOf m h = some st ∧ visitsOf lower h seen ≠ [] ∧
      st.count = (visitsOf lower h seen).length ∧
      st.recentUsers = (firstDistinct ((visitsOf lower h seen).map (fun v => v.1.author))).take 3 ∧
      st.userProfiles.map some =
        st.recentUsers.map (fun i => (findUserById db i).map profileOf)

/-- Two states hold the same users, edges, posts and comments: they differ at
most in the notification collection and the id counter. -/
def sameContent (db1 db2 : Db) : Prop :=
  db1.users = db2.users ∧ db1.follows = db2.follows ∧ db1.posts = db2.posts ∧
    db1.comments = db2.comments

/-! ## Sample states

Small concrete databases on which the statements below are evaluated. -/

/-- Two users, Ann (id 1) and Bob (id 2), and nothing else. -/
def twoUsers : Db :=
  { Db.empty with
    users := [⟨1, "ann", "Ann", "Lee", [], []⟩, ⟨2, "bob", "Bob", "Ray", [], []⟩]
    nextId := 3 }

/-- The two users, a post of Bob (id 3) and a comment of Ann on it (id 4). -/
def smallForum : Db :=
  { twoUsers with
    posts := [⟨3, 2, "hello", [], [], [], .pub, [], [4], 900⟩]
    comments := [⟨4, "nice", 1, 3, none, [], [], [], false, none, false, none, 950⟩]
    nextId := 5 }

/-- The two users without any follow edge, while Ann still lists Bob in her
`following` array and Bob lists Ann in his `followers` array. -/
def staleCache : Db :=
  { Db.empty with
    users := [⟨1, "ann", "Ann", "Lee", [], [2]⟩, ⟨2, "bob", "Bob", "Ray", [1], []⟩]
    nextId := 3 }

/-- A mention of Bob by Ann in the post with id 3, as `createPost` passes it. -/
def mentionBob : NotificationData := ⟨2, 1, .mention, none, some 3, none⟩

/-- A like of Ann on post 7 of Bob, with the text the controllers supply. -/
def likeBob : NotificationData := ⟨2, 1, .like, some "Ann Lee liked your post", some 7, none⟩

/-- The two users, a post of Bob (id 3) and a tombstoned comment of Ann (id 4)
that has been detached from the post. -/
def withTombstone : Db :=
  { twoUsers with
    posts := [⟨3, 2, "hello", [], [], [], .pub, [], [], 900⟩]
    comments := [⟨4, tombstone, 1, 3, none, [], [], [], true, some 980, true, some 980, 950⟩]
    nextId := 5 }

/-- The stale cache of `staleCache`, with one public post of Bob (id 3). -/
def staleFeed : Db :=
  { staleCache with
    posts := [⟨3, 2, "hello", [], [], [], .pub, [], [], 900⟩]
    nextId := 4 }

/-- The two users and one unread `like` notification for Bob (id 3), sent by Ann. -/
def oneNotification : Db :=
  { twoUsers with
    notifications := [⟨3, 2, 1, .like, "Ann Lee liked your post", some 7, none, false, none, 500⟩]
    nextId := 4 }

/-- The two users and a post of Ann (id 3) that mentions Bob. -/
def mentionPost : Db :=
  { twoUsers with
    posts := [⟨3, 1, "hi @bob", [], ["news"], [2], .pub, [], [], 900⟩]
    nextId := 4 }

/-- The two users and a public post of Bob (id 3) tagged `launch`. -/
def launchPost : Db :=
  { twoUsers with
    posts := [⟨3, 2, "we are live", [], ["launch"], [], .pub, [], [], 900⟩]
    nextId := 4 }

/-- The state `launchPost` with a second public post (id 4), of Ann, tagged
`Constructor`. -/
def reservedTag : Db :=
  { twoUsers with
    posts := [⟨3, 2, "we are live", [], ["launch"], [], .pub, [], [], 900⟩,
      ⟨4, 1, "built it", [], ["Constructor"], [], .pub, [], [], 950⟩]
    nextId := 5 }

/-- The two users and a public post of Bob (id 3) without tags whose content
holds a hashtag. -/
def hashtagInContent : Db :=
  { twoUsers with
    posts := [⟨3, 2, "see #Launch", [], [], [], .pub, [], [], 900⟩]
    nextId := 4 }

/-- The text of 251 copies of the character U+1F600: 251 characters, 502 UTF-16
code units. -/
def longEmoji : String := String.mk (List.replicate 251 (Char.ofNat 128512))

/-! ## Theorems -/

/-! ## Facts about collections -/

theorem updateFirst_eq_self {α : Type} (p : α → Bool) (g : α → α) (l : List α)
    (h : ∀ x, l.find? p = some x → g x = x) : updateFirst p g l = l := by
  induction l with
  | nil => rfl
  | cons x xs ih =>
    simp only [updateFirst]
    split
    · next hp => rw [h x (by simp [List.find?_cons, hp])]
    · next hp => rw [ih (fun y hy => h y (by simpa [List.find?_cons, hp] using hy))]

theorem find?_updateFirst_isSome {α : Type} (p q : α → Bool) (g : α → α) (l : List α)
    (hq : ∀ x, q (g x) = q x) :
    ((updateFirst p g l).find? q).isSome = (l.find? q).isSome := by
  induction l with
  | nil => rfl
  | cons x xs ih =>
    simp only [updateFirst]
    split
    · simp only [List.find?_cons, hq]
      cases q x <;> rfl
    · simp only [List.find?_cons]
      cases q x
      · exact ih
      · rfl

theorem find?_updateFirst_same {α : Type} (p : α → Bool) (g : α → α) (l : List α)
    (hp : ∀ x, p x = true → p (g x) = true) :
    (updateFirst p g l).find? p = (l.find? p).map g := by
  induction l with
  | nil => rfl
  | cons x xs ih =>
    simp only [updateFirst]
    split
    · next h => simp [List.find?_cons, h, hp x h]
    · next h => simp [List.find?_cons, h, ih]

theorem findUserById_congr (db1 db2 : Db) (x : Id) (h : db1.users = db2.users) :
    findUserById db1 x = findUserById db2 x := by
  simp [findUserById, h]

theorem findPostById_congr (db1 db2 : Db) (x : Id) (h : db1.posts = db2.posts) :
    findPostById db1 x = findPostById db2 x := by
  simp [findPostById, h]

theorem findUserById_update_isSome (db : Db) (id x : Id) (g : User → User)
    (hg : ∀ u, (g u).id = u.id) :
    (findUserById (User.findByIdAndUpdate db id g) x).isSome = (findUserById db x).isSome := by
  unfold findUserById User.findByIdAndUpdate
  exact find?_updateFirst_isSome _ _ g db.users (fun u => by simp [hg u])

theorem findPostById_id (db : Db) (pid : Id) (p : Post) (h : findPostById db pid = some p) :
    p.id = pid := by
  simpa using List.find?_some h

theorem findCommentById_id (db : Db) (cid : Id) (c : Comment)
    (h : findCommentById db cid = some c) : c.id = cid := by
  simpa using List.find?_some h

theorem findPostById_save (db : Db) (p q : Post) (hp : findPostById db p.id = some p)
    (hq : q.id = p.id) : findPostById (Post.save db q) p.id = some q := by
  unfold findPostById Post.save at *
  simp only [hq]
  rw [find?_updateFirst_same _ _ _ (fun _ _ => by simp [hq]), hp]
  rfl

theorem Comment.save_stored (db : Db) (now : Time) (c q : Comment)
    (hc : findCommentById db c.id = some c) (hq : q.id = c.id) (hcontent : q.content = c.content) :
    Comment.save db now q =
      { db with comments := updateFirst (fun x => decide (x.id = c.id)) (fun _ => q) db.comments }
    := by
  unfold Comment.save
  rw [hq, hc]
  simp [Comment.preSave, hcontent]

theorem findCommentById_save (db : Db) (now : Time) (c q : Comment)
    (hc : findCommentById db c.id = some c) (hq : q.id = c.id) (hcontent : q.content = c.content) :
    findCommentById (Comment.save db now q) c.id = some q := by
  rw [Comment.save_stored db now c q hc hq hcontent]
  unfold findCommentById at *
  simp only
  rw [find?_updateFirst_same _ _ _ (fun _ _ => by simp [hq]), hc]
  rfl

/-! ## Mention scan -/

theorem isWordChar_ne_at (c : Char) (h : isWordChar c = true) : c ≠ '@' := by
  rintro rfl
  revert h
  decide

theorem scanMentions_dropWhile (l : List Char) :
    scanMentions (l.dropWhile isWordChar) = scanMentions l := by
  induction l with
  | nil => rfl
  | cons c cs ih =>
    cases hc : isWordChar c with
    | false => simp [List.dropWhile_cons, hc]
    | true =>
      have hne := isWordChar_ne_at c hc
      simp [List.dropWhile_cons, hc, ih, scanMentions, hne]

/-! ## Notification creation -/

theorem find?_dupQuery_append_none (d : NotificationData) (t : Time) (l : List Notification)
    (n : Notification) (hl : l.find? (dupQuery d t) = none) (hn : dupQuery d t n = false) :
    (l ++ [n]).find? (dupQuery d t) = none := by
  simp only [List.find?_eq_none, List.mem_append, List.mem_singleton] at *
  rintro x (hx | rfl)
  · exact hl x hx
  · simp [hn]

theorem dupQuery_mono (d : NotificationData) (t1 t2 : Time) (n : Notification)
    (h : t1 ≤ t2) (hq : dupQuery d t1 n = false) : dupQuery d t2 n = false := by
  simp only [dupQuery, decide_eq_false_iff_not] at *
  intro hc
  exact hq ⟨hc.1, hc.2.1, hc.2.2.1, hc.2.2.2.1, hc.2.2.2.2.1, by linarith [hc.2.2.2.2.2]⟩

theorem find?_dupQuery_mono (d : NotificationData) (t1 t2 : Time) (l : List Notification)
    (h : t1 ≤ t2) (hl : l.find? (dupQuery d t1) = none) : l.find? (dupQuery d t2) = none := by
  simp only [List.find?_eq_none] at *
  intro x hx
  have := hl x hx
  simp only [Bool.not_eq_true] at *
  exact dupQuery_mono d t1 t2 x h this

theorem dupQuery_new (db : Db) (d : NotificationData) (t1 t : Time) (m : String) :
    dupQuery d t (newNotification db t1 d m) = decide (t - dayMs ≤ t1) := by
  simp [dupQuery, newNotification]

theorem sameTuple_new (db : Db) (d : NotificationData) (t1 : Time) (m : String) :
    sameTuple d (newNotification db t1 d m) = true := by
  simp [sameTuple, newNotification]

theorem createNotification_fresh (db : Db) (d : NotificationData) (m : String) (t : Time)
    (hne : d.recipient ≠ d.sender) (hm : d.message = some m) (hm0 : m ≠ "")
    (hfresh : db.notifications.find? (dupQuery d t) = none) :
    createNotification Faults.none t db d =
      (insertNotification db (newNotification db t d m), some (newNotification db t d m)) := by
  simp [createNotification, hne, hfresh, hm, hm0, Faults.none]

theorem createNotification_state (f : Faults) (now : Time) (db : Db) (d : NotificationData) :
    (createNotification f now db d).1 = db ∨
      ∃ m, d.message = some m ∧
        (createNotification f now db d).1 = insertNotification db (newNotification db now d m) := by
  unfold createNotification
  by_cases h1 : d.recipient = d.sender
  · simp [h1]
  by_cases h2 : f.findFails = true
  · simp [h1, h2]
  cases h3 : db.notifications.find? (dupQuery d now) with
  | some e => simp [h1, h2]
  | none =>
    cases h4 : d.message with
    | none => simp [h1, h2]
    | some m =>
      by_cases h5 : m = ""
      · simp [h1, h2, h5]
      by_cases h6 : f.saveFails = true
      · simp [h1, h2, h5, h6]
      by_cases h7 : f.populateFails = true
      · simp [h1, h2, h5, h6, h7]
      · simp [h1, h2, h5, h6, h7]

theorem createNotification_no_message (f : Faults) (now : Time) (db : Db)
    (d : NotificationData) (h : d.message = none) : (createNotification f now db d).1 = db := by
  rcases createNotification_state f now db d with h1 | ⟨m, hm, _⟩
  · exact h1
  · rw [h] at hm; cases hm

theorem createNotification_frame (f : Faults) (now : Time) (db : Db) (d : NotificationData) :
    (createNotification f now db d).1.users = db.users ∧
    (createNotification f now db d).1.follows = db.follows ∧
    (createNotification f now db d).1.posts = db.posts ∧
    (createNotification f now db d).1.comments = db.comments := by
  rcases createNotification_state f now db d with h | ⟨m, _, h⟩ <;> rw [h] <;>
    simp [insertNotification]

/-- Supporting fact for the dedup window (controller helper): with a message
supplied and no stored duplicate in the window at the first call, a second call
less than 24 hours later stores nothing and returns the stored notification of
the first call as it is, and a third call after the window stores a second
notification under a fresh id. -/
theorem createNotification_dedup_window (db : Db) (d : NotificationData) (m : String)
    (t1 t2 t3 : Time) (hne : d.recipient ≠ d.sender) (hm : d.message = some m) (hm0 : m ≠ "")
    (hfresh : db.notifications.find? (dupQuery d t1) = none)
    (h12 : t1 ≤ t2) (h2 : t2 < t1 + dayMs) (h3 : t1 + dayMs < t3) :
    (createNotification Faults.none t1 db d).2 = some (newNotification db t1 d m) ∧
    createNotification Faults.none t2 (createNotification Faults.none t1 db d).1 d =
      ((createNotification Faults.none t1 db d).1, some (newNotification db t1 d m)) ∧
    tupleCount (createNotification Faults.none t1 db d).1 d = tupleCount db d + 1 ∧
    (createNotification Faults.none t3 (createNotification Faults.none t1 db d).1 d).2 =
      some (newNotification (createNotification Faults.none t1 db d).1 t3 d m) ∧
    (newNotification (createNotification Faults.none t1 db d).1 t3 d m).id ≠
      (newNotification db t1 d m).id ∧
    tupleCount (createNotification Faults.none t3 (createNotification Faults.none t1 db d).1 d).1 d
      = tupleCount db d + 2 := by
  have e1 := createNotification_fresh db d m t1 hne hm hm0 hfresh
  have hfind2 : (insertNotification db (newNotification db t1 d m)).notifications.find?
      (dupQuery d t2) = some (newNotification db t1 d m) := by
    have h0 := find?_dupQuery_mono d t1 t2 db.notifications h12 hfresh
    have hq : dupQuery d t2 (newNotification db t1 d m) = true := by
      rw [dupQuery_new]; simp; linarith
    simp [insertNotification, List.find?_append, h0, hq]
  have hfind3 : (insertNotification db (newNotification db t1 d m)).notifications.find?
      (dupQuery d t3) = none := by
    have h0 := find?_dupQuery_mono d t1 t3 db.notifications (by linarith) hfresh
    apply find?_dupQuery_append_none _ _ _ _ h0
    rw [dupQuery_new]; simp; linarith
  have e3 := createNotification_fresh (insertNotification db (newNotification db t1 d m)) d m t3
    hne hm hm0 hfind3
  rw [e1]
  refine ⟨rfl, ?_, ?_, ?_, ?_, ?_⟩
  · simp [createNotification, hne, hfind2, Faults.none]
  · simp [tupleCount, insertNotification, List.filter_append, sameTuple_new]
  · rw [e3]
  · simp [newNotification, insertNotification]
  · rw [e3]
    simp [tupleCount, insertNotification, List.filter_append, sameTuple_new]

/-- Claim C1, at the input on which the model static breaks it: two calls of
`Notification.createNotification` with the same (recipient, sender, type,
relatedPost, relatedComment) tuple one second apart store two notifications and
the second call does not return the first notification; `createPost` reaches
this with a content that mentions the same user twice. -/
theorem static_createNotification_stores_duplicate :
    (do
      let r1 ← Notification.createNotification Faults.none 1000 twoUsers mentionBob
      let r2 ← Notification.createNotification Faults.none 2000 r1.1 mentionBob
      pure (tupleCount r2.1 mentionBob, r2.2 == r1.2)).toOption = some (2, false) ∧
    tupleCount (createPost Faults.none 1000 twoUsers 1 "hi @bob and @bob" .pub none []).1
      mentionBob = 2 := by
  decide

/-- Claim C2: a creation call whose recipient is its sender returns `null` and
leaves the database as it was, in the controller helper and in the model static,
for every notification type, message, related post and related comment. -/
theorem self_notification_is_noop (f : Faults) (now : Time) (db : Db) (r : Id)
    (type : NotifType) (message : Option String) (relatedPost relatedComment : Option Id) :
    createNotification f now db ⟨r, r, type, message, relatedPost, relatedComment⟩ = (db, none) ∧
    Notification.createNotification f now db ⟨r, r, type, message, relatedPost, relatedComment⟩
      = .ok (db, none) := by
  simp [createNotification, Notification.createNotification]

/-- Claim C3, at the inputs on which the two routines break it. The data that
`createPost` builds for a mention carries no message: the model static stores it
with the template `mentioned you in a post`, while the controller helper, given
the same data, stores nothing and returns `null`. The data that `likePost`
builds for a like carries the message `Ann Lee liked your post`: the controller
helper stores it with that message, while the model static, given the same
data, stores the template `liked your post` in its place. -/
theorem message_source_differs_between_routines :
    mentionBob.message = none ∧
    (Notification.createNotification Faults.none 1000 twoUsers mentionBob).toOption.map
      (fun r => r.1.notifications.map (fun n => n.message)) =
        some ["mentioned you in a post"] ∧
    createNotification Faults.none 1000 twoUsers mentionBob = (twoUsers, none) ∧
    likeBob.message = some "Ann Lee liked your post" ∧
    (createNotification Faults.none 1000 twoUsers likeBob).1.notifications.map
      (fun n => n.message) = ["Ann Lee liked your post"] ∧
    (Notification.createNotification Faults.none 1000 twoUsers likeBob).toOption.map
      (fun r => r.1.notifications.map (fun n => n.message)) = some ["liked your post"] := by
  decide

/-- Supporting fact for claim C3: the controller helper either stores nothing or stores
exactly one new notification whose message is the caller-supplied string, which
is then not empty; given no message or the empty one it stores nothing and
returns `null`, or the stored duplicate of the last 24 hours when there is one;
the model static, when it stores, stores exactly one new notification whose
message is the fixed template of the type, whatever message the caller
supplied. -/
theorem stored_message_by_routine (f : Faults) (now : Time) (db : Db) (d : NotificationData) :
    ((createNotification f now db d).1 = db ∨
      ∃ m, d.message = some m ∧ m ≠ "" ∧
        (createNotification f now db d).1 =
          insertNotification db (newNotification db now d m)) ∧
    ((d.message = none ∨ d.message = some "") →
      (createNotification f now db d).1 = db ∧
      (createNotification f now db d).2 =
        if d.recipient = d.sender ∨ f.findFails = true then none
        else db.notifications.find? (dupQuery d now)) ∧
    (Notification.createNotification f now db d = .error "save failed" ∨
      Notification.createNotification f now db d = .ok (db, none) ∨
      Notification.createNotification f now db d =
        .ok (insertNotification db (newNotification db now d (templateMessage d.type)),
          some (newNotification db now d (templateMessage d.type)))) := by
  refine ⟨?_, ?_, ?_⟩
  · unfold createNotification
    by_cases h1 : d.recipient = d.sender
    · simp [h1]
    by_cases h2 : f.findFails = true
    · simp [h1, h2]
    cases h3 : db.notifications.find? (dupQuery d now) with
    | some e => simp [h1, h2]
    | none =>
      cases h4 : d.message with
      | none => simp [h1, h2]
      | some m =>
        by_cases h5 : m = ""
        · simp [h1, h2, h5]
        by_cases h6 : f.saveFails = true
        · simp [h1, h2, h5, h6]
        by_cases h7 : f.populateFails = true
        · simp [h1, h2, h5, h6, h7]
        · simp [h1, h2, h5, h6, h7]
  · intro hm
    unfold createNotification
    by_cases h1 : d.recipient = d.sender
    · simp [h1]
    by_cases h2 : f.findFails = true
    · simp [h1, h2]
    cases h3 : db.notifications.find? (dupQuery d now) with
    | some e => simp [h1, h2]
    | none =>
      rcases hm with hm | hm
      · simp [h1, h2, hm]
      · simp [h1, h2, hm]
  · unfold Notification.createNotification
    split_ifs <;> simp

/-! ## Storage faults during fan-out -/

theorem sameContent_refl (db : Db) : sameContent db db := ⟨rfl, rfl, rfl, rfl⟩

theorem createNotification_sameContent (f1 f2 : Faults) (t : Time) (db1 db2 : Db)
    (d1 d2 : NotificationData) (h : sameContent db1 db2) :
    sameContent (createNotification f1 t db1 d1).1 (createNotification f2 t db2 d2).1 := by
  obtain ⟨a1, a2, a3, a4⟩ := createNotification_frame f1 t db1 d1
  obtain ⟨b1, b2, b3, b4⟩ := createNotification_frame f2 t db2 d2
  exact ⟨by rw [a1, b1, h.1], by rw [a2, b2, h.2.1], by rw [a3, b3, h.2.2.1],
    by rw [a4, b4, h.2.2.2]⟩

theorem notifyCommentMentions_faults (f1 f2 : Faults) (now : Time) (me postId commentId : Id)
    (ms : List Id) :
    ∀ db1 db2 : Db, sameContent db1 db2 →
      (notifyCommentMentions f1 now me postId commentId db1 ms).2 =
        (notifyCommentMentions f2 now me postId commentId db2 ms).2 ∧
      sameContent (notifyCommentMentions f1 now me postId commentId db1 ms).1
        (notifyCommentMentions f2 now me postId commentId db2 ms).1 := by
  induction ms with
  | nil => intro db1 db2 h; exact ⟨rfl, h⟩
  | cons m ms ih =>
    intro db1 db2 h
    have hu : findUserById db1 me = findUserById db2 me := findUserById_congr _ _ _ h.1
    unfold notifyCommentMentions
    by_cases hm : m = me
    · simp only [ne_eq, hm, not_true_eq_false, if_false]
      exact ih db1 db2 h
    · simp only [ne_eq, hm, not_false_eq_true, if_true, hu]
      cases findUserById db2 me with
      | none => exact ⟨rfl, h⟩
      | some su => exact ih _ _ (createNotification_sameContent _ _ _ _ _ _ _ h)

theorem notifyComment_faults (f1 f2 : Faults) (now : Time) (me : Id) (post : Post)
    (commentId : Id) (ms : List Id) (db1 db2 : Db) (h : sameContent db1 db2) :
    (notifyComment f1 now me post commentId ms db1).2 =
      (notifyComment f2 now me post commentId ms db2).2 ∧
    sameContent (notifyComment f1 now me post commentId ms db1).1
      (notifyComment f2 now me post commentId ms db2).1 := by
  have hu : findUserById db1 me = findUserById db2 me := findUserById_congr _ _ _ h.1
  unfold notifyComment
  by_cases ha : post.author = me
  · simp only [ne_eq, ha, not_true_eq_false, if_false]
    exact notifyCommentMentions_faults _ _ _ _ _ _ _ _ _ h
  · simp only [ne_eq, ha, not_false_eq_true, if_true, hu]
    cases findUserById db2 me with
    | none => exact ⟨rfl, h⟩
    | some su =>
      exact notifyCommentMentions_faults _ _ _ _ _ _ _ _ _
        (createNotification_sameContent _ _ _ _ _ _ _ h)

theorem answer_faults (r1 r2 : Db × Bool) (h2 : r1.2 = r2.2) (h1 : sameContent r1.1 r2.1) :
    (match r1 with
      | (db4, false) => (db4, failure 500 "Server error")
      | (db4, true) => (db4, created)).2 =
    (match r2 with
      | (db4, false) => (db4, failure 500 "Server error")
      | (db4, true) => (db4, created)).2 ∧
    sameContent
      (match r1 with
        | (db4, false) => (db4, failure 500 "Server error")
        | (db4, true) => (db4, created)).1
      (match r2 with
        | (db4, false) => (db4, failure 500 "Server error")
        | (db4, true) => (db4, created)).1 := by
  obtain ⟨d1, b1⟩ := r1
  obtain ⟨d2, b2⟩ := r2
  simp only at h2 h1
  subst h2
  cases b1 <;> exact ⟨rfl, h1⟩

/-- Supporting fact for fan-out failures: the three mutations that notify through the
controller helper answer the same and store the same users, edges, posts and
comments whatever calls on the notification collection fail. -/
theorem helper_fanout_faults_invisible (f : Faults) (now : Time) (db : Db) (me other : Id)
    (content : String) (parent : Option Id) :
    ((followUser f now db me other).2 = (followUser Faults.none now db me other).2 ∧
      sameContent (followUser f now db me other).1 (followUser Faults.none now db me other).1) ∧
    ((likePost f now db me other).2 = (likePost Faults.none now db me other).2 ∧
      sameContent (likePost f now db me other).1 (likePost Faults.none now db me other).1) ∧
    ((createComment f now db me content other parent).2 =
        (createComment Faults.none now db me content other parent).2 ∧
      sameContent (createComment f now db me content other parent).1
        (createComment Faults.none now db me content other parent).1) := by
  refine ⟨?_, ?_, ?_⟩
  · unfold followUser
    cases findUserById db other with
    | none => exact ⟨rfl, sameContent_refl _⟩
    | some ub =>
      by_cases hab : me = other
      · simp only [hab, if_true]; exact ⟨trivial, sameContent_refl _⟩
      simp only [hab, if_false]
      cases db.follows.find? (edgeOf me other) with
      | some e => exact ⟨rfl, sameContent_refl _⟩
      | none =>
        simp only
        cases Follow.create db now me other with
        | none => exact ⟨rfl, sameContent_refl _⟩
        | some db1 =>
          simp only
          split
          · exact ⟨rfl, sameContent_refl _⟩
          · exact ⟨rfl, createNotification_sameContent _ _ _ _ _ _ _ (sameContent_refl _)⟩
  · unfold likePost
    cases findPostById db other with
    | none => exact ⟨rfl, sameContent_refl _⟩
    | some p =>
      simp only
      split
      · exact ⟨rfl, sameContent_refl _⟩
      · split
        · split
          · exact ⟨rfl, sameContent_refl _⟩
          · exact ⟨rfl, createNotification_sameContent _ _ _ _ _ _ _ (sameContent_refl _)⟩
        · exact ⟨rfl, sameContent_refl _⟩
  · unfold createComment
    split
    · exact ⟨rfl, sameContent_refl _⟩
    · cases findPostById db other with
      | none => exact ⟨rfl, sameContent_refl _⟩
      | some post =>
        simp only
        split
        · exact ⟨rfl, sameContent_refl _⟩
        · split
          · exact ⟨rfl, sameContent_refl _⟩
          · exact answer_faults _ _
              (notifyComment_faults f Faults.none now me post _ _ _ _ (sameContent_refl _)).1
              (notifyComment_faults f Faults.none now me post _ _ _ _ (sameContent_refl _)).2

/-- Claim C4, at the input on which `createPost` breaks it: when the write of the
mention notification fails, the post is stored and the request is answered with
500 `Server error`. -/
theorem createPost_fails_when_fanout_write_fails :
    createPost ⟨false, true, false⟩ 1000 twoUsers 1 "hi @bob" .pub none [] =
      ({ twoUsers with
          posts := [⟨3, 1, "hi @bob", [], [], [2], .pub, [], [], 1000⟩]
          nextId := 4 },
       failure 500 "Server error") := by
  decide

/-! ## Follow graph -/

theorem edge_find?_eq_none_iff (db : Db) (a b : Id) :
    db.follows.find? (edgeOf a b) = none ↔ edgeCount db a b = 0 := by
  simp [edgeCount, List.find?_eq_none, List.filter_eq_nil_iff]

theorem edge_find?_isSome_iff (db : Db) (a b : Id) :
    (db.follows.find? (edgeOf a b)).isSome ↔ 0 < edgeCount db a b := by
  rw [Nat.pos_iff_ne_zero, Ne, ← edge_find?_eq_none_iff]
  cases db.follows.find? (edgeOf a b) <;> simp

theorem edgeCount_le_one (db : Db) (a b : Id) (h : uniqueEdges db) : edgeCount db a b ≤ 1 := by
  unfold uniqueEdges at h
  unfold edgeCount
  generalize db.follows = l at h
  induction l with
  | nil => simp
  | cons x xs ih =>
    simp only [List.map_cons, List.nodup_cons] at h
    cases hx : edgeOf a b x with
    | false => simpa [List.filter_cons, hx] using ih h.2
    | true =>
      have hnil : xs.filter (edgeOf a b) = [] := by
        rw [List.filter_eq_nil_iff]
        intro e he hc
        apply h.1
        rw [List.mem_map]
        simp only [edgeOf, decide_eq_true_eq] at hx hc
        exact ⟨e, he, by rw [hc.1, hc.2, hx.1, hx.2]⟩
      simp [List.filter_cons, hx, hnil]

theorem eraseP_no_edge (l : List Follow) (a b : Id)
    (h : (l.map (fun e => (e.follower, e.following))).Nodup) :
    ∀ e ∈ l.eraseP (edgeOf a b), edgeOf a b e = false := by
  induction l with
  | nil => simp
  | cons x xs ih =>
    simp only [List.map_cons, List.nodup_cons] at h
    cases hx : edgeOf a b x with
    | true =>
      rw [List.eraseP_cons_of_pos hx]
      intro e he
      cases hc : edgeOf a b e with
      | false => rfl
      | true =>
        exfalso
        apply h.1
        rw [List.mem_map]
        simp only [edgeOf, decide_eq_true_eq] at hx hc
        exact ⟨e, he, by rw [hc.1, hc.2, hx.1, hx.2]⟩
    | false =>
      rw [List.eraseP_cons_of_neg (by simp [hx])]
      intro e he
      rcases List.mem_cons.1 he with rfl | he
      · exact hx
      · exact ih h.2 e he

theorem unfollowUser_follows (db : Db) (a b : Id) (hb : (findUserById db b).isSome) :
    (unfollowUser db a b).2 = success 200 "User unfollowed successfully" ∧
    (unfollowUser db a b).1.follows = db.follows.eraseP (edgeOf a b) := by
  obtain ⟨u, hu⟩ := Option.isSome_iff_exists.1 hb
  simp [unfollowUser, hu, User.findByIdAndUpdate]

theorem Follow.create_fresh (db : Db) (now : Time) (a b : Id) (hab : a ≠ b)
    (he : db.follows.find? (edgeOf a b) = none) :
    Follow.create db now a b =
      some { db with follows := db.follows ++ [⟨a, b, .accepted, now⟩] } := by
  have hany : db.follows.any (edgeOf a b) = false := by
    rw [List.find?_eq_none] at he
    rw [List.any_eq_false]
    exact he
  simp [Follow.create, hab, hany]

theorem followUser_created (f : Faults) (now : Time) (db : Db) (a b : Id)
    (h : (followUser f now db a b).2.status = 200) :
    (followUser f now db a b).1.follows = db.follows ++ [⟨a, b, .accepted, now⟩] := by
  unfold followUser at h ⊢
  cases hb : findUserById db b with
  | none => rw [hb] at h; simp [failure] at h
  | some ub =>
    rw [hb] at h
    by_cases hab : a = b
    · simp [hab, failure] at h
    cases he : db.follows.find? (edgeOf a b) with
    | some e => rw [he] at h; simp [hab, failure] at h
    | none =>
      simp only [hab, he, Follow.create_fresh db now a b hab he, if_false]
      split
      · simp [User.findByIdAndUpdate]
      · simp [User.findByIdAndUpdate, (createNotification_frame _ _ _ _).2.1]

theorem followUser_pushed_isSome (db1 : Db) (a b x : Id) :
    (findUserById
      (User.findByIdAndUpdate
        (User.findByIdAndUpdate db1 a (fun u => { u with following := u.following ++ [b] }))
        b (fun u => { u with followers := u.followers ++ [a] })) x).isSome =
      (findUserById db1 x).isSome := by
  exact (findUserById_update_isSome _ _ _ _ (by intro _; rfl)).trans
    (findUserById_update_isSome _ _ _ _ (by intro _; rfl))

theorem followUser_ok (f : Faults) (now : Time) (db : Db) (a b : Id) (hab : a ≠ b)
    (ha : (findUserById db a).isSome) (hb : (findUserById db b).isSome)
    (he : db.follows.find? (edgeOf a b) = none) :
    (followUser f now db a b).2 = success 200 "User followed successfully" := by
  obtain ⟨ub, hub⟩ := Option.isSome_iff_exists.1 hb
  unfold followUser
  simp only [hub, hab, he, Follow.create_fresh db now a b hab he, if_false]
  have h3 : (findUserById
      (User.findByIdAndUpdate
        (User.findByIdAndUpdate { db with follows := db.follows ++ [⟨a, b, .accepted, now⟩] } a
          (fun u => { u with following := u.following ++ [b] }))
        b (fun u => { u with followers := u.followers ++ [a] })) a).isSome = true := by
    rw [followUser_pushed_isSome]; exact ha
  obtain ⟨su, hsu⟩ := Option.isSome_iff_exists.1 h3
  rw [hsu]

theorem followUser_existing (f : Faults) (now : Time) (db : Db) (a b : Id) (hab : a ≠ b)
    (hb : (findUserById db b).isSome) (he : (db.follows.find? (edgeOf a b)).isSome) :
    followUser f now db a b = (db, failure 400 "You are already following this user") := by
  obtain ⟨ub, hub⟩ := Option.isSome_iff_exists.1 hb
  obtain ⟨e, hee⟩ := Option.isSome_iff_exists.1 he
  unfold followUser
  simp only [hub, hab, hee, if_false]

theorem followUser_users_isSome (f : Faults) (now : Time) (db : Db) (a b x : Id) :
    (findUserById (followUser f now db a b).1 x).isSome = (findUserById db x).isSome := by
  unfold followUser
  cases hb : findUserById db b with
  | none => rfl
  | some ub =>
    by_cases hab : a = b
    · simp [hab]
    cases he : db.follows.find? (edgeOf a b) with
    | some e => simp [hab]
    | none =>
      simp only [hab, Follow.create_fresh db now a b hab he, if_false]
      split
      · rw [followUser_pushed_isSome]; rfl
      · rw [findUserById_congr _ _ x (createNotification_frame _ _ _ _).1,
          followUser_pushed_isSome]; rfl

/-- Claim C5: for users `a ≠ b` with `b` stored, on a follow collection that
respects its unique index: `followUser` succeeds when `a` is stored and no edge
exists; after a successful `followUser`, `isFollowing(a, b)` is true; and
`unfollowUser` succeeds and leaves `isFollowing(a, b)` false, whatever edges were
stored before. -/
theorem follow_sets_unfollow_clears_isFollowing (f : Faults) (now : Time) (db : Db) (a b : Id)
    (hab : a ≠ b) (hb : (findUserById db b).isSome) (hu : uniqueEdges db) :
    ((findUserById db a).isSome → edgeCount db a b = 0 →
      (followUser f now db a b).2.status = 200) ∧
    ((followUser f now db a b).2.status = 200 →
      Follow.isFollowing (followUser f now db a b).1 a b = true) ∧
    (unfollowUser db a b).2.status = 200 ∧
    Follow.isFollowing (unfollowUser db a b).1 a b = false := by
  refine ⟨?_, ?_, ?_, ?_⟩
  · intro ha he
    rw [followUser_ok f now db a b hab ha hb ((edge_find?_eq_none_iff db a b).2 he)]
    rfl
  · intro h
    simp [Follow.isFollowing, followUser_created f now db a b h, List.find?_append]
  · rw [(unfollowUser_follows db a b hb).1]; rfl
  · have hno := eraseP_no_edge db.follows a b hu
    unfold Follow.isFollowing
    rw [(unfollowUser_follows db a b hb).2]
    cases hfind : List.find? (fun e => decide (e.follower = a ∧ e.following = b ∧
        e.status = .accepted)) (db.follows.eraseP (edgeOf a b)) with
    | none => rfl
    | some e =>
      exfalso
      have hmem := List.mem_of_find?_eq_some hfind
      have hp := List.find?_some hfind
      have := hno e hmem
      simp only [edgeOf, decide_eq_false_iff_not] at this
      simp only [decide_eq_true_eq] at hp
      exact this ⟨hp.1, hp.2.1⟩

/-- Claim C5 on a sample state. -/
theorem follow_sets_unfollow_clears_isFollowing_witness :
    Follow.isFollowing (followUser Faults.none 1000 twoUsers 1 2).1 1 2 = true ∧
    Follow.isFollowing
      (unfollowUser (followUser Faults.none 1000 twoUsers 1 2).1 1 2).1 1 2 = false :=
  ⟨(follow_sets_unfollow_clears_isFollowing Faults.none 1000 twoUsers 1 2
      (by decide) (by decide) (by decide)).2.1 (by decide),
   (follow_sets_unfollow_clears_isFollowing Faults.none 1000
      (followUser Faults.none 1000 twoUsers 1 2).1 1 2
      (by decide) (by decide) (by decide)).2.2.2⟩

/-- Claim C6: for stored users `a ≠ b`, calling `followUser` twice in a row: the
first call succeeds when no edge existed, the second is answered with 400
`You are already following this user` and changes nothing, and afterwards
exactly one edge is stored for the pair. -/
theorem follow_twice_one_edge (f1 f2 : Faults) (t1 t2 : Time) (db : Db) (a b : Id)
    (hab : a ≠ b) (ha : (findUserById db a).isSome) (hb : (findUserById db b).isSome)
    (hu : uniqueEdges db) :
    (edgeCount db a b = 0 →
      (followUser f1 t1 db a b).2 = success 200 "User followed successfully") ∧
    followUser f2 t2 (followUser f1 t1 db a b).1 a b =
      ((followUser f1 t1 db a b).1, failure 400 "You are already following this user") ∧
    edgeCount (followUser f2 t2 (followUser f1 t1 db a b).1 a b).1 a b = 1 := by
  have hb1 : (findUserById (followUser f1 t1 db a b).1 b).isSome := by
    rw [followUser_users_isSome]; exact hb
  have hcount : edgeCount (followUser f1 t1 db a b).1 a b = 1 := by
    by_cases he : edgeCount db a b = 0
    · have hok := followUser_ok f1 t1 db a b hab ha hb ((edge_find?_eq_none_iff db a b).2 he)
      have hfol := followUser_created f1 t1 db a b (by rw [hok]; rfl)
      unfold edgeCount at he ⊢
      rw [hfol, List.filter_append, List.length_append, he]
      simp [edgeOf]
    · have hex := followUser_existing f1 t1 db a b hab hb
        ((edge_find?_isSome_iff db a b).2 (Nat.pos_of_ne_zero he))
      rw [hex]
      show edgeCount db a b = 1
      have := edgeCount_le_one db a b hu
      omega
  have h2 := followUser_existing f2 t2 (followUser f1 t1 db a b).1 a b hab hb1
    ((edge_find?_isSome_iff _ a b).2 (by rw [hcount]; exact Nat.one_pos))
  refine ⟨fun he => followUser_ok f1 t1 db a b hab ha hb ((edge_find?_eq_none_iff db a b).2 he),
    h2, ?_⟩
  rw [h2]; exact hcount

/-- Claim C6 on a sample state. -/
theorem follow_twice_one_edge_witness :
    followUser Faults.none 2000 (followUser Faults.none 1000 twoUsers 1 2).1 1 2 =
      ((followUser Faults.none 1000 twoUsers 1 2).1,
        failure 400 "You are already following this user") ∧
    edgeCount (followUser Faults.none 2000 (followUser Faults.none 1000 twoUsers 1 2).1 1 2).1
      1 2 = 1 :=
  (follow_twice_one_edge Faults.none Faults.none 1000 2000 twoUsers 1 2
    (by decide) (by decide) (by decide) (by decide)).2

/-- Claim C7: for every stored user `a`, `followUser(a, a)` is answered with 400
`You cannot follow yourself` and the database (edges and both cached arrays) is
the same afterwards; the `pre('save')` hook of the model refuses a self-edge as
well. -/
theorem self_follow_rejected (f : Faults) (now : Time) (db : Db) (a : Id)
    (ha : (findUserById db a).isSome) :
    followUser f now db a a = (db, failure 400 "You cannot follow yourself") ∧
    Follow.create db now a a = none := by
  obtain ⟨u, hu⟩ := Option.isSome_iff_exists.1 ha
  constructor
  · unfold followUser
    simp only [hu, if_true]
  · simp [Follow.create]

/-- Claim C7 on a sample state. -/
theorem self_follow_rejected_witness :
    (findUserById twoUsers 1).isSome ∧
    followUser Faults.none 1000 twoUsers 1 1 =
      (twoUsers, failure 400 "You cannot follow yourself") :=
  ⟨by decide, (self_follow_rejected Faults.none 1000 twoUsers 1 (by decide)).1⟩

/-- Claim C8 fails as stated: without any edge between them, a stale entry in the
cached arrays is removed by `unfollowUser`, so both arrays change. -/
theorem unfollow_changes_stale_cache :
    edgeCount staleCache 1 2 = 0 ∧
    followingOf staleCache 1 = [2] ∧ followersOf staleCache 2 = [1] ∧
    (unfollowUser staleCache 1 2).2.status = 200 ∧
    followingOf (unfollowUser staleCache 1 2).1 1 = [] ∧
    followersOf (unfollowUser staleCache 1 2).1 2 = [] := by
  decide

/-- Claim C8 as amended: for a stored user `b`, no edge from `a` to `b` and no
stale entry for the pair in the cached arrays, `unfollowUser` answers 200 and
leaves the whole database unchanged; and after any `unfollowUser` call the
follower and following counts of every user are non-negative. -/
theorem unfollow_without_edge_is_noop (db : Db) (a b : Id)
    (hb : (findUserById db b).isSome) (he : edgeCount db a b = 0)
    (hc : noStaleEntry db a b) :
    unfollowUser db a b = (db, success 200 "User unfollowed successfully") ∧
    (∀ (db0 : Db) (x y u : Id),
      0 ≤ followersCount (unfollowUser db0 x y).1 u ∧
      0 ≤ followingCount (unfollowUser db0 x y).1 u) := by
  obtain ⟨ub, hub⟩ := Option.isSome_iff_exists.1 hb
  constructor
  · have h1 : db.follows.eraseP (edgeOf a b) = db.follows := by
      apply List.eraseP_of_forall_not
      have := (edge_find?_eq_none_iff db a b).2 he
      rw [List.find?_eq_none] at this
      exact this
    have h2 : updateFirst (fun u => decide (u.id = a))
        (fun u => { u with following := u.following.filter (fun x => decide (x ≠ b)) })
        db.users = db.users := by
      apply updateFirst_eq_self
      intro u hu
      have hnb : b ∉ u.following := by
        have := hc.1
        simpa [followingOf, findUserById, hu] using this
      have : u.following.filter (fun x => decide (x ≠ b)) = u.following := by
        rw [List.filter_eq_self]
        intro x hx
        simp only [ne_eq, decide_eq_true_eq]
        rintro rfl
        exact hnb hx
      rw [this]
    have h3 : updateFirst (fun u => decide (u.id = b))
        (fun u => { u with followers := u.followers.filter (fun x => decide (x ≠ a)) })
        db.users = db.users := by
      apply updateFirst_eq_self
      intro u hu
      have hna : a ∉ u.followers := by
        have := hc.2
        simpa [followersOf, findUserById, hu] using this
      have : u.followers.filter (fun x => decide (x ≠ a)) = u.followers := by
        rw [List.filter_eq_self]
        intro x hx
        simp only [ne_eq, decide_eq_true_eq]
        rintro rfl
        exact hna hx
      rw [this]
    unfold unfollowUser
    simp only [hub, User.findByIdAndUpdate, h1, h2, h3]
  · intro db0 x y u
    exact ⟨Int.natCast_nonneg _, Int.natCast_nonneg _⟩

/-- Claim C8 on a sample state. -/
theorem unfollow_without_edge_is_noop_witness :
    edgeCount twoUsers 1 2 = 0 ∧ noStaleEntry twoUsers 1 2 ∧
    unfollowUser twoUsers 1 2 = (twoUsers, success 200 "User unfollowed successfully") :=
  ⟨by decide, by decide,
    (unfollow_without_edge_is_noop twoUsers 1 2 (by decide) (by decide) (by decide)).1⟩

/-! ## Likes -/

theorem likePost_first (f : Faults) (now : Time) (db : Db) (u : Id) (p : Post)
    (hu : (findUserById db u).isSome) (hp : findPostById db p.id = some p)
    (hl : p.isLikedBy u = false) :
    (likePost f now db u p.id).2 =
      ⟨200, true, some "Post liked successfully", some ((p.addLike u now).likesCount + 1)⟩ ∧
    (likePost f now db u p.id).1.posts = (Post.save db (p.addLike u now)).posts := by
  obtain ⟨su, hsu⟩ := Option.isSome_iff_exists.1 hu
  have hsu1 : findUserById (Post.save db (p.addLike u now)) u = some su := by
    rw [← hsu]; rfl
  unfold likePost
  simp only [hp, hl, Bool.false_eq_true, if_false]
  by_cases ha : p.author = u
  · simp [ha]
  · simp only [ne_eq, ha, not_false_eq_true, if_true, hsu1]
    constructor
    · trivial
    · exact (createNotification_frame _ _ _ _).2.2.1

theorem likePost_already (f : Faults) (now : Time) (db : Db) (u pid : Id) (p : Post)
    (hp : findPostById db pid = some p) (hl : p.isLikedBy u = true) :
    likePost f now db u pid = (db, failure 400 "Post already liked") := by
  unfold likePost
  simp only [hp, hl, if_true]

theorem likeComment_already (now : Time) (db : Db) (u cid : Id) (c : Comment)
    (hc : findCommentById db cid = some c) (hd : c.isDeleted = false)
    (hl : c.isLikedBy u = true) :
    likeComment now db u cid = (db, failure 400 "Comment already liked") := by
  unfold likeComment
  simp only [hc, hd, hl, Bool.false_eq_true, if_false, if_true]

/-- Claim C9: for a stored user `u` and a stored post, respectively a stored
comment that is not deleted, neither liked by `u` yet: the first like succeeds
and appends one entry for `u`, the second is answered with 400 (`Post already
liked`, `Comment already liked`) and changes nothing, so the like set has grown
by exactly one entry after both calls. -/
theorem like_twice_counts_once :
    (∀ (f1 f2 : Faults) (t1 t2 : Time) (db : Db) (u pid : Id) (p : Post),
      (findUserById db u).isSome → findPostById db pid = some p → p.isLikedBy u = false →
      (likePost f1 t1 db u pid).2.status = 200 ∧
      postLikes (likePost f1 t1 db u pid).1 pid = p.likes ++ [⟨u, t1⟩] ∧
      likePost f2 t2 (likePost f1 t1 db u pid).1 u pid =
        ((likePost f1 t1 db u pid).1, failure 400 "Post already liked") ∧
      (postLikes (likePost f2 t2 (likePost f1 t1 db u pid).1 u pid).1 pid).length =
        (postLikes db pid).length + 1) ∧
    (∀ (t1 t2 : Time) (db : Db) (u cid : Id) (c : Comment),
      findCommentById db cid = some c → c.isDeleted = false → c.isLikedBy u = false →
      (likeComment t1 db u cid).2.status = 200 ∧
      commentLikes (likeComment t1 db u cid).1 cid = c.likes ++ [⟨u, t1⟩] ∧
      likeComment t2 (likeComment t1 db u cid).1 u cid =
        ((likeComment t1 db u cid).1, failure 400 "Comment already liked") ∧
      (commentLikes (likeComment t2 (likeComment t1 db u cid).1 u cid).1 cid).length =
        (commentLikes db cid).length + 1) := by
  constructor
  · intro f1 f2 t1 t2 db u pid p hu hp hpl
    have hpid := findPostById_id db pid p hp
    subst hpid
    obtain ⟨hres, hposts⟩ := likePost_first f1 t1 db u p hu hp hpl
    have hfind : findPostById (likePost f1 t1 db u p.id).1 p.id = some (p.addLike u t1) := by
      rw [findPostById_congr _ _ _ hposts]
      exact findPostById_save db p _ hp rfl
    have hlikes : postLikes (likePost f1 t1 db u p.id).1 p.id = p.likes ++ [⟨u, t1⟩] := by
      simp [postLikes, hfind, Post.addLike]
    have hsecond : likePost f2 t2 (likePost f1 t1 db u p.id).1 u p.id =
        ((likePost f1 t1 db u p.id).1, failure 400 "Post already liked") := by
      have : (p.addLike u t1).isLikedBy u = true := by
        simp [Post.isLikedBy, Post.addLike]
      exact likePost_already f2 t2 _ u p.id _ hfind this
    refine ⟨by rw [hres], hlikes, hsecond, ?_⟩
    rw [hsecond]
    show (postLikes (likePost f1 t1 db u p.id).1 p.id).length = _
    rw [hlikes]
    simp [postLikes, hp]
  · intro t1 t2 db u cid c hc hcd hcl
    have hcid := findCommentById_id db cid c hc
    subst hcid
    have hadd : c.addLike u t1 = { c with likes := c.likes ++ [⟨u, t1⟩] } := by
      simp [Comment.addLike, hcl]
    have hfirst : likeComment t1 db u c.id =
        (Comment.save db t1 (c.addLike u t1),
          ⟨200, true, some "Comment liked successfully",
            some ((c.addLike u t1).likesCount + 1)⟩) := by
      unfold likeComment
      simp only [hc, hcd, hcl, Bool.false_eq_true, if_false]
    have hfind : findCommentById (likeComment t1 db u c.id).1 c.id = some (c.addLike u t1) := by
      rw [hfirst]
      exact findCommentById_save db t1 c _ hc (by rw [hadd]) (by rw [hadd])
    have hlikes : commentLikes (likeComment t1 db u c.id).1 c.id = c.likes ++ [⟨u, t1⟩] := by
      simp [commentLikes, hfind, hadd]
    have hsecond : likeComment t2 (likeComment t1 db u c.id).1 u c.id =
        ((likeComment t1 db u c.id).1, failure 400 "Comment already liked") := by
      have h1 : (c.addLike u t1).isLikedBy u = true := by
        simp [Comment.isLikedBy, hadd]
      have h2 : (c.addLike u t1).isDeleted = false := by
        rw [hadd]; exact hcd
      exact likeComment_already t2 _ u c.id _ hfind h2 h1
    refine ⟨by rw [hfirst], hlikes, hsecond, ?_⟩
    rw [hsecond]
    show (commentLikes (likeComment t1 db u c.id).1 c.id).length = _
    rw [hlikes]
    simp [commentLikes, hc]

/-- Claim C9 on a sample state. -/
theorem like_twice_counts_once_witness :
    (postLikes (likePost Faults.none 2000
        (likePost Faults.none 1000 smallForum 1 3).1 1 3).1 3).length = 1 ∧
    (commentLikes (likeComment 2000 (likeComment 1000 smallForum 1 4).1 1 4).1 4).length = 1 :=
  ⟨(like_twice_counts_once.1 Faults.none Faults.none 1000 2000 smallForum 1 3
      ⟨3, 2, "hello", [], [], [], .pub, [], [4], 900⟩
      (by decide) (by decide) (by decide)).2.2.2,
   (like_twice_counts_once.2 1000 2000 smallForum 1 4
      ⟨4, "nice", 1, 3, none, [], [], [], false, none, false, none, 950⟩
      (by decide) (by decide) (by decide)).2.2.2⟩

/-- Claim C10: for a stored post, respectively a stored comment that is not
deleted, whose like set has no entry of `u`: the unlike request is answered with
400 (`Post not liked yet`, `Comment not liked yet`) and the database, hence the
like set and its size, is unchanged. -/
theorem unlike_without_like_rejected :
    (∀ (db : Db) (u pid : Id) (p : Post),
      findPostById db pid = some p → p.isLikedBy u = false →
      unlikePost db u pid = (db, failure 400 "Post not liked yet")) ∧
    (∀ (now : Time) (db : Db) (u cid : Id) (c : Comment),
      findCommentById db cid = some c → c.isDeleted = false → c.isLikedBy u = false →
      unlikeComment now db u cid = (db, failure 400 "Comment not liked yet")) := by
  constructor
  · intro db u pid p hp hpl
    unfold unlikePost
    simp only [hp, hpl, Bool.not_false, if_true]
  · intro now db u cid c hc hcd hcl
    unfold unlikeComment
    simp only [hc, hcd, hcl, Bool.not_false, Bool.false_eq_true, if_false, if_true]

/-- Claim C10 on a sample state. -/
theorem unlike_without_like_rejected_witness :
    unlikePost smallForum 1 3 = (smallForum, failure 400 "Post not liked yet") ∧
    unlikeComment 1000 smallForum 1 4 = (smallForum, failure 400 "Comment not liked yet") :=
  ⟨unlike_without_like_rejected.1 smallForum 1 3
      ⟨3, 2, "hello", [], [], [], .pub, [], [4], 900⟩ (by decide) (by decide),
   unlike_without_like_rejected.2 1000 smallForum 1 4
      ⟨4, "nice", 1, 3, none, [], [], [], false, none, false, none, 950⟩
      (by decide) (by decide) (by decide)⟩

/-! ## Soft delete and edit of comments -/

theorem find?_updateFirst_other {α : Type} (p q : α → Bool) (g : α → α) (l : List α)
    (h1 : ∀ x, p x = true → q x = false) (h2 : ∀ x, p x = true → q (g x) = false) :
    (updateFirst p g l).find? q = l.find? q := by
  induction l with
  | nil => rfl
  | cons x xs ih =>
    simp only [updateFirst]
    split
    · next hp => simp [List.find?_cons, h1 x hp, h2 x hp]
    · simp [List.find?_cons, ih]

theorem find?_append_singleton_other {α : Type} (q : α → Bool) (l : List α) (x : α)
    (h : q x = false) : (l ++ [x]).find? q = l.find? q := by
  simp [List.find?_append, h]

theorem Comment.preSave_id (now : Time) (m n : Bool) (c : Comment) :
    (Comment.preSave now m n c).id = c.id := by
  unfold Comment.preSave; split <;> rfl

theorem findCommentById_save_other (db : Db) (now : Time) (q : Comment) (cid : Id)
    (h : q.id ≠ cid) :
    findCommentById (Comment.save db now q) cid = findCommentById db cid := by
  unfold Comment.save
  cases hq : findCommentById db q.id with
  | none =>
    simp only [findCommentById]
    apply find?_append_singleton_other
    simp [Comment.preSave_id, h]
  | some old =>
    simp only [findCommentById]
    apply find?_updateFirst_other
    · intro x hx
      simp only [decide_eq_true_eq] at hx
      simp [hx, h]
    · intro x _
      simp [Comment.preSave_id, h]

theorem findCommentById_save_same (db : Db) (now : Time) (q old : Comment)
    (hold : findCommentById db q.id = some old) :
    findCommentById (Comment.save db now q) q.id =
      some (Comment.preSave now (decide (q.content ≠ old.content)) false q) := by
  unfold Comment.save
  rw [hold]
  unfold findCommentById at *
  simp only
  rw [find?_updateFirst_same _ _ _ (fun _ _ => by simp [Comment.preSave_id]), hold]
  rfl

theorem findCommentById_postSave (db : Db) (p : Post) (cid : Id) :
    findCommentById (Post.save db p) cid = findCommentById db cid := rfl

/-- Claim C11 as amended: for a stored comment that is not deleted and is not its
own parent, `deleteComment` by the author answers 200 and keeps the record under
its id with `isDeleted = true`, `deletedAt` set to the time of the call and the
tombstone text as content; id, author, post id, parent-comment id, reply-id list,
like set and mention list are as before; `isEdited` becomes true and `editedAt`
the time of the call, unless the content already was the tombstone text. -/
theorem soft_delete_keeps_record (now : Time) (db : Db) (me cid : Id) (c : Comment)
    (hc : findCommentById db cid = some c) (hlive : c.isDeleted = false)
    (hown : c.author = me) (hpar : c.parentComment ≠ some c.id) :
    (deleteComment now db me cid).2 = success 200 "Comment deleted successfully" ∧
    findCommentById (deleteComment now db me cid).1 cid =
      some { c with
        isDeleted := true
        deletedAt := some now
        content := tombstone
        isEdited := if c.content = tombstone then c.isEdited else true
        editedAt := if c.content = tombstone then c.editedAt else some now } := by
  have hid := findCommentById_id db cid c hc
  subst hid
  subst hown
  have h1 : findCommentById (Comment.save db now (c.softDelete now)) c.id =
      some { c with
        isDeleted := true
        deletedAt := some now
        content := tombstone
        isEdited := if c.content = tombstone then c.isEdited else true
        editedAt := if c.content = tombstone then c.editedAt else some now } := by
    have := findCommentById_save_same db now (c.softDelete now) c hc
    rw [show (c.softDelete now).id = c.id from rfl] at this
    rw [this]
    by_cases ht : c.content = tombstone
    · simp [Comment.preSave, Comment.softDelete, ht]
    · have : tombstone ≠ c.content := fun h => ht h.symm
      simp [Comment.preSave, Comment.softDelete, ht, this]
  unfold deleteComment
  simp only [hc, hlive, Bool.false_eq_true, if_false, ne_eq, not_true_eq_false]
  refine ⟨trivial, ?_⟩
  have h2 : ∀ dbx : Db, findCommentById dbx c.id = findCommentById
      (Comment.save db now (c.softDelete now)) c.id →
      findCommentById
        (match c.parentComment with
          | none => dbx
          | some parentId =>
            match findCommentById dbx parentId with
            | some pc => Comment.save dbx now (pc.removeReply c.id)
            | none => dbx) c.id =
        findCommentById (Comment.save db now (c.softDelete now)) c.id := by
    intro dbx hx
    cases hp : c.parentComment with
    | none => exact hx
    | some pid =>
      have hne : pid ≠ c.id := fun h => hpar (by rw [hp, h])
      simp only
      cases hpc : findCommentById dbx pid with
      | none => exact hx
      | some pc =>
        simp only
        rw [findCommentById_save_other _ _ _ _ (by
          show pc.id ≠ c.id
          rw [findCommentById_id dbx pid pc hpc]; exact hne)]
        exact hx
  refine (h2 _ ?_).trans h1
  split <;> rfl

theorem createNotification_sameContent_self (f : Faults) (t : Time) (db : Db)
    (d : NotificationData) : sameContent (createNotification f t db d).1 db := by
  obtain ⟨a1, a2, a3, a4⟩ := createNotification_frame f t db d
  exact ⟨a1, a2, a3, a4⟩

theorem sameContent_trans {a b c : Db} (h1 : sameContent a b) (h2 : sameContent b c) :
    sameContent a c :=
  ⟨h1.1.trans h2.1, h1.2.1.trans h2.2.1, h1.2.2.1.trans h2.2.2.1, h1.2.2.2.trans h2.2.2.2⟩

theorem notifyCommentMentions_frame (f : Faults) (now : Time) (me postId commentId : Id)
    (ms : List Id) :
    ∀ db : Db, sameContent (notifyCommentMentions f now me postId commentId db ms).1 db := by
  induction ms with
  | nil => intro db; exact sameContent_refl db
  | cons m ms ih =>
    intro db
    unfold notifyCommentMentions
    by_cases hm : m = me
    · simp only [ne_eq, hm, not_true_eq_false, if_false]
      exact ih db
    · simp only [ne_eq, hm, not_false_eq_true, if_true]
      cases findUserById db me with
      | none => exact sameContent_refl db
      | some su =>
        exact sameContent_trans (ih _) (createNotification_sameContent_self _ _ _ _)

theorem notifyComment_frame (f : Faults) (now : Time) (me : Id) (post : Post)
    (commentId : Id) (ms : List Id) (db : Db) :
    sameContent (notifyComment f now me post commentId ms db).1 db := by
  unfold notifyComment
  by_cases ha : post.author = me
  · simp only [ne_eq, ha, not_true_eq_false, if_false]
    exact notifyCommentMentions_frame _ _ _ _ _ _ _
  · simp only [ne_eq, ha, not_false_eq_true, if_true]
    cases findUserById db me with
    | none => exact sameContent_refl db
    | some su =>
      exact sameContent_trans (notifyCommentMentions_frame _ _ _ _ _ _ _)
        (createNotification_sameContent_self _ _ _ _)

theorem tombstonedWith_congr (db1 db2 : Db) (cid : Id) (s : String)
    (h : db1.comments = db2.comments) (ht : tombstonedWith db2 cid s) :
    tombstonedWith db1 cid s := by
  obtain ⟨c, hc, hd, hs⟩ := ht
  exact ⟨c, by simpa [findCommentById, h] using hc, hd, hs⟩

theorem tombstonedWith_save (db : Db) (now : Time) (q : Comment) (cid : Id) (s : String)
    (h : tombstonedWith db cid s)
    (hq : q.id = cid → q.isDeleted = true ∧ q.content = s) :
    tombstonedWith (Comment.save db now q) cid s := by
  obtain ⟨c, hc, hd, hs⟩ := h
  by_cases hid : q.id = cid
  · subst hid
    refine ⟨q, ?_, (hq rfl).1, (hq rfl).2⟩
    rw [findCommentById_save_same db now q c hc]
    simp [Comment.preSave, (hq rfl).2, hs]
  · exact ⟨c, by rw [findCommentById_save_other _ _ _ _ hid]; exact hc, hd, hs⟩

theorem live_ne_tombstoned (db : Db) (cid id : Id) (s : String) (t : Comment)
    (h : tombstonedWith db cid s) (ht : findCommentById db id = some t)
    (hl : t.isDeleted = false) : t.id ≠ cid := by
  obtain ⟨c, hc, hd, _⟩ := h
  have hid := findCommentById_id db id t ht
  intro he
  rw [hid] at he
  subst he
  rw [hc] at ht
  cases ht
  rw [hd] at hl
  cases hl

theorem answer_fst (r : Db × Bool) :
    (match r with
      | (db4, false) => (db4, failure 500 "Server error")
      | (db4, true) => (db4, created)).1 = r.1 := by
  obtain ⟨d, b⟩ := r
  cases b <;> rfl

theorem tombstonedWith_step (now : Time) (db : Db) (op : CommentOp) (cid : Id) (s : String)
    (h : tombstonedWith db cid s) : tombstonedWith (applyCommentOp now db op) cid s := by
  cases op with
  | edit me id content =>
    simp only [applyCommentOp, updateComment]
    split
    · exact h
    · cases ht : findCommentById db id with
      | none => exact h
      | some t =>
        simp only
        split
        · exact h
        · next hl =>
          split
          · exact h
          · split
            · exact h
            · have hne := live_ne_tombstoned db cid id s t h ht (by simpa using hl)
              have hid := findCommentById_id db id t ht
              obtain ⟨c, hc, hd, hs⟩ := h
              refine ⟨c, ?_, hd, hs⟩
              simp only [findCommentById] at hc ⊢
              rw [find?_updateFirst_other _ _ _ _ ?_ ?_]
              · exact hc
              · intro x hx
                simp only [decide_eq_true_eq] at hx
                simp only [decide_eq_false_iff_not]
                rw [hx, ← hid]; exact hne
              · intro x hx
                simp only [decide_eq_true_eq] at hx
                simp only [decide_eq_false_iff_not]
                rw [hx, ← hid]; exact hne
  | delete me id =>
    simp only [applyCommentOp, deleteComment]
    cases ht : findCommentById db id with
    | none => exact h
    | some t =>
      simp only
      split
      · exact h
      · next hl =>
        split
        · exact h
        · have hne := live_ne_tombstoned db cid id s t h ht (by simpa using hl)
          have h1 : tombstonedWith (Comment.save db now (t.softDelete now)) cid s :=
            tombstonedWith_save db now _ cid s h (fun he => absurd he hne)
          have h2 : tombstonedWith
              (match findPostById (Comment.save db now (t.softDelete now)) t.post with
                | some p => Post.save (Comment.save db now (t.softDelete now))
                    (p.removeComment t.id)
                | none => Comment.save db now (t.softDelete now)) cid s := by
            split
            · exact tombstonedWith_congr _ _ cid s rfl h1
            · exact h1
          simp only
          cases t.parentComment with
          | none => exact h2
          | some pid =>
            simp only
            split
            · next pc hpc =>
              apply tombstonedWith_save _ _ _ _ _ h2
              intro he
              obtain ⟨c, hc, hd, hs⟩ := h2
              have hpid := findCommentById_id _ pid pc hpc
              rw [show (pc.removeReply t.id).id = pc.id from rfl, hpid] at he
              subst he
              have hcc : some c = some pc := hc.symm.trans hpc
              cases hcc
              exact ⟨hd, hs⟩
            · exact h2
  | like me id =>
    simp only [applyCommentOp, likeComment]
    cases ht : findCommentById db id with
    | none => exact h
    | some t =>
      simp only
      split
      · exact h
      · next hl =>
        split
        · exact h
        · have hne := live_ne_tombstoned db cid id s t h ht (by simpa using hl)
          apply tombstonedWith_save _ _ _ _ _ h
          intro he
          exfalso
          apply hne
          rw [← he]
          unfold Comment.addLike
          split <;> rfl
  | unlike me id =>
    simp only [applyCommentOp, unlikeComment]
    cases ht : findCommentById db id with
    | none => exact h
    | some t =>
      simp only
      split
      · exact h
      · next hl =>
        split
        · exact h
        · have hne := live_ne_tombstoned db cid id s t h ht (by simpa using hl)
          exact tombstonedWith_save _ _ _ _ _ h (fun he => absurd he hne)
  | create f me content postId parent =>
    simp only [applyCommentOp, createComment]
    split
    · exact h
    · cases findPostById db postId with
      | none => exact h
      | some post =>
        simp only
        split
        · exact h
        · next parentComment hparent =>
          split
          · exact h
          · obtain ⟨c, hc, hd, hs⟩ := h
            have hpc : ∀ pc, parentComment = some pc → ∃ pid, findCommentById db pid = some pc := by
              intro pc hpc
              subst hpc
              cases parent with
              | none => simp at hparent
              | some pid =>
                refine ⟨pid, ?_⟩
                simp only at hparent
                cases hf : findCommentById db pid with
                | none => rw [hf] at hparent; simp at hparent
                | some pc2 => rw [hf] at hparent; simpa using hparent
            have h1 : ∀ x : Comment, tombstonedWith
                ({ db with comments := db.comments ++ [x], nextId := db.nextId + 1 } : Db) cid s := by
              intro x
              refine ⟨c, ?_, hd, hs⟩
              simp only [findCommentById] at hc ⊢
              rw [List.find?_append, hc]
              rfl
            refine tombstonedWith_congr _ _ cid s (congrArg Db.comments (answer_fst _)) ?_
            apply tombstonedWith_congr _ _ cid s (notifyComment_frame _ _ _ _ _ _ _).2.2.2
            cases parentComment with
            | none => exact tombstonedWith_congr _ _ cid s rfl (h1 _)
            | some pc =>
              obtain ⟨pid, hpid⟩ := hpc pc rfl
              apply tombstonedWith_save
              · exact tombstonedWith_congr _ _ cid s rfl (h1 _)
              · intro he
                have hid := findCommentById_id db pid pc hpid
                rw [show (pc.addReply db.nextId).id = pc.id from rfl, hid] at he
                subst he
                rw [hc] at hpid
                cases hpid
                exact ⟨hd, hs⟩

theorem tombstonedWith_run (ops : List (Time × CommentOp)) (cid : Id) (s : String) :
    ∀ db : Db, tombstonedWith db cid s → tombstonedWith (runCommentOps db ops) cid s := by
  induction ops with
  | nil => intro db h; exact h
  | cons op rest ih =>
    intro db h
    obtain ⟨now, o⟩ := op
    exact ih _ (tombstonedWith_step now db o cid s h)

/-- Claim C12: for a stored comment with `isDeleted = true`, after every sequence
of comment requests (edit, delete, like, unlike, creation of comments and
replies, addressed to any comment) the comment stored under its id still has
`isDeleted = true` and the same content; and an edit (with valid content),
delete, like or unlike addressed to it is answered with 404 `Comment not found`
and leaves the database unchanged. -/
theorem soft_delete_is_terminal (db : Db) (cid : Id) (c : Comment)
    (hc : findCommentById db cid = some c) (hd : c.isDeleted = true) :
    (∀ ops : List (Time × CommentOp), tombstonedWith (runCommentOps db ops) cid c.content) ∧
    (∀ (me : Id) (content : String),
      (updateComment db me cid content).1 = db ∧
      (validContent 500 content = true →
        (updateComment db me cid content).2 = failure 404 "Comment not found")) ∧
    (∀ (now : Time) (me : Id),
      deleteComment now db me cid = (db, failure 404 "Comment not found") ∧
      likeComment now db me cid = (db, failure 404 "Comment not found") ∧
      unlikeComment now db me cid = (db, failure 404 "Comment not found")) := by
  refine ⟨fun ops => tombstonedWith_run ops cid c.content db ⟨c, hc, hd, rfl⟩, ?_, ?_⟩
  · intro me content
    unfold updateComment
    by_cases hv : validContent 500 content = true
    · simp [hv, hc, hd]
    · simp [hv]
  · intro now me
    refine ⟨?_, ?_, ?_⟩
    · unfold deleteComment
      simp only [hc, hd, if_true]
    · unfold likeComment
      simp only [hc, hd, if_true]
    · unfold unlikeComment
      simp only [hc, hd, if_true]


/-! ## Mention extraction against its specification -/

theorem scanMentions_eq_spec (l : List Char) : scanMentions l = specMentionHandles l := by
  induction l using specMentionHandles.induct with
  | case1 => simp [scanMentions, specMentionHandles]
  | case2 c rest h ih =>
    rw [specMentionHandles, if_pos h, ← ih, scanMentions_dropWhile]
    obtain ⟨hc, hw⟩ := h
    simp only [scanMentions, hc, if_true]
    cases htw : rest.takeWhile isWordChar with
    | nil => exact absurd htw hw
    | cons w ws => rfl
  | case3 c rest h ih =>
    rw [specMentionHandles, if_neg h, ← ih]
    by_cases hc : c = '@'
    · have htw : rest.takeWhile isWordChar = [] := by
        by_contra hne
        exact h ⟨hc, hne⟩
      simp only [scanMentions, hc, if_true, htw]
    · simp only [scanMentions, hc, if_false]

theorem extractMentions_eq_spec (db : Db) (content : String) :
    extractMentions db content = specMentions db content := by
  unfold extractMentions specMentions
  rw [scanMentions_eq_spec]
  rfl

theorem notifyPostMentions_frame (f : Faults) (now : Time) (me postId : Id) (ms : List Id) :
    ∀ db : Db, sameContent (notifyPostMentions f now me postId db ms).1 db := by
  induction ms with
  | nil => intro db; exact sameContent_refl db
  | cons m ms ih =>
    intro db
    unfold notifyPostMentions
    unfold Notification.createNotification
    by_cases hm : me = m
    · rw [if_pos hm]
      exact ih db
    · rw [if_neg hm]
      by_cases hf : f.saveFails = true
      · simp only [hf, if_true]
        exact sameContent_refl db
      · simp only [hf, if_false]
        exact sameContent_trans (ih _) ⟨rfl, rfl, rfl, rfl⟩

theorem createPost_posts (f : Faults) (now : Time) (db : Db) (me : Id) (content : String)
    (visibility : Visibility) (tags : Option TagsInput) (images : List String)
    (hv : validContent 2000 content = true) :
    (createPost f now db me content visibility tags images).1.posts =
      db.posts ++ [⟨db.nextId, me, content, images, processTags tags,
        extractMentions db content, visibility, [], [], now⟩] := by
  unfold createPost
  simp only [hv, Bool.not_true, Bool.false_eq_true, if_false]
  exact (congrArg Db.posts (answer_fst _)).trans (notifyPostMentions_frame _ _ _ _ _ _).2.2.1

theorem updateFirst_append_left {α : Type} (p : α → Bool) (g : α → α) (l : List α) (x : α)
    (h : (l.find? p).isSome) : updateFirst p g (l ++ [x]) = updateFirst p g l ++ [x] := by
  induction l with
  | nil => simp at h
  | cons y ys ih =>
    show updateFirst p g (y :: (ys ++ [x])) = updateFirst p g (y :: ys) ++ [x]
    simp only [updateFirst]
    split
    · rfl
    · next hp =>
      rw [ih (by simpa [List.find?_cons, hp] using h)]
      rfl

theorem Comment.save_append (db1 : Db) (now : Time) (l : List Comment) (x q old : Comment)
    (h : db1.comments = l ++ [x])
    (hold : l.find? (fun y => decide (y.id = q.id)) = some old) :
    (Comment.save db1 now q).comments
      = updateFirst (fun y => decide (y.id = q.id))
          (fun _ => Comment.preSave now (decide (q.content ≠ old.content)) false q) l
        ++ [x] := by
  have hfind : findCommentById db1 q.id = some old := by
    simp only [findCommentById, h]
    rw [List.find?_append, hold]; rfl
  unfold Comment.save
  rw [hfind]
  simp only [h]
  apply updateFirst_append_left
  rw [hold]; rfl

theorem createComment_comments (f : Faults) (now : Time) (db : Db) (me : Id)
    (content : String) (postId : Id) (parent : Option Id) (post : Post)
    (hv : validContent 500 content = true) (hs : Comment.validate content = true)
    (hp : findPostById db postId = some post)
    (hpar : ∀ pid, parent = some pid → (findCommentById db pid).isSome) :
    ∃ others, (createComment f now db me content postId parent).1.comments =
      others ++ [⟨db.nextId, content, me, postId, parent, [], [],
        extractMentions db content, false, none, false, none, now⟩] := by
  unfold createComment
  simp only [hv, hs, hp, Bool.not_true, Bool.false_eq_true, if_false]
  cases parent with
  | none =>
    simp only
    refine ⟨db.comments, ?_⟩
    exact ((congrArg Db.comments (answer_fst _)).trans
      (notifyComment_frame _ _ _ _ _ _ _).2.2.2)
  | some pid =>
    obtain ⟨pc, hpc⟩ := Option.isSome_iff_exists.1 (hpar pid rfl)
    simp only [hpc, hs, Bool.not_true, Bool.false_eq_true, if_false]
    have hid := findCommentById_id db pid pc hpc
    refine ⟨updateFirst (fun y => decide (y.id = (pc.addReply db.nextId).id))
      (fun _ => Comment.preSave now
        (decide ((pc.addReply db.nextId).content ≠ pc.content)) false (pc.addReply db.nextId))
      db.comments, ?_⟩
    refine ((congrArg Db.comments (answer_fst _)).trans
      (notifyComment_frame _ _ _ _ _ _ _).2.2.2).trans ?_
    apply Comment.save_append _ now db.comments _ (pc.addReply db.nextId) pc rfl
    rw [← hid] at hpc
    exact hpc

/-- Claim C16: the mention list that the controllers compute is the list of the
specification (non-overlapping matches of `@` and word characters from left to
right, each resolved against the user directory, unresolved handles dropped);
`createPost` stores it in the new post and `updatePost` by the author with the
new content; `createComment` stores it in the new comment and `updateComment`
by the author with the new content whenever the content passes the validators
of the comment schema, and both answer 500 without storing anything when it
does not; a content without any resolving handle never makes `createPost`
fail. -/
theorem stored_mentions_follow_spec :
    (∀ (db : Db) (content : String), extractMentions db content = specMentions db content) ∧
    (∀ (f : Faults) (now : Time) (db : Db) (me : Id) (content : String)
        (visibility : Visibility) (tags : Option TagsInput) (images : List String),
      validContent 2000 content = true →
      (createPost f now db me content visibility tags images).1.posts =
        db.posts ++ [⟨db.nextId, me, content, images, processTags tags,
          specMentions db content, visibility, [], [], now⟩]) ∧
    (∀ (f : Faults) (now : Time) (db : Db) (me : Id) (content : String) (postId : Id)
        (parent : Option Id) (post : Post),
      validContent 500 content = true → findPostById db postId = some post →
      (∀ pid, parent = some pid → (findCommentById db pid).isSome) →
      (Comment.validate content = true →
        ∃ others, (createComment f now db me content postId parent).1.comments =
          others ++ [⟨db.nextId, content, me, postId, parent, [], [],
            specMentions db content, false, none, false, none, now⟩]) ∧
      (Comment.validate content = false →
        createComment f now db me content postId parent = (db, failure 500 "Server error"))) ∧
    (∀ (db : Db) (me postId : Id) (p : Post) (content : String)
        (visibility : Option Visibility) (tags : Option TagsInput),
      validContent 2000 content = true → findPostById db postId = some p → p.author = me →
      (updatePost db me postId (some content) visibility tags).2 = ok200 ∧
      (findPostById (updatePost db me postId (some content) visibility tags).1 postId).map
        (fun q => (q.content, q.mentions)) = some (content, specMentions db content)) ∧
    (∀ (db : Db) (me commentId : Id) (c : Comment) (content : String),
      validContent 500 content = true → findCommentById db commentId = some c →
      c.isDeleted = false → c.author = me →
      (Comment.validate content = true →
        (updateComment db me commentId content).2 = ok200 ∧
        (findCommentById (updateComment db me commentId content).1 commentId).map
          (fun q => (q.content, q.mentions)) = some (content, specMentions db content)) ∧
      (Comment.validate content = false →
        updateComment db me commentId content = (db, failure 500 "Server error"))) ∧
    (∀ (f : Faults) (now : Time) (db : Db) (me : Id) (content : String)
        (visibility : Visibility) (tags : Option TagsInput) (images : List String),
      validContent 2000 content = true → specMentions db content = [] →
      (createPost f now db me content visibility tags images).2 = created) := by
  refine ⟨extractMentions_eq_spec, ?_, ?_, ?_, ?_, ?_⟩
  · intro f now db me content visibility tags images hv
    rw [createPost_posts f now db me content visibility tags images hv, extractMentions_eq_spec]
  · intro f now db me content postId parent post hv hp hpar
    refine ⟨?_, ?_⟩
    · intro hs
      rw [← extractMentions_eq_spec]
      exact createComment_comments f now db me content postId parent post hv hs hp hpar
    · intro hs
      unfold createComment
      simp only [hv, hs, hp, Bool.not_true, Bool.not_false, Bool.false_eq_true, if_false, if_true]
      cases parent with
      | none => rfl
      | some pid =>
        obtain ⟨pc, hpc⟩ := Option.isSome_iff_exists.1 (hpar pid rfl)
        simp only [hpc]
  · intro db me postId p content visibility tags hv hp hown
    have hne : content ≠ "" := by
      intro h
      rw [h] at hv
      simp [validContent, routeLength] at hv
    unfold updatePost
    simp only [validOptContent, hv, hp, hown, Bool.not_true, Bool.false_eq_true, if_false,
      ne_eq, not_true_eq_false]
    refine ⟨trivial, ?_⟩
    unfold findPostById at hp ⊢
    simp only
    rw [find?_updateFirst_same _ _ _ (fun _ hx => by simpa using hx), hp]
    simp [hne, extractMentions_eq_spec]
  · intro db me commentId c content hv hc hlive hown
    refine ⟨?_, ?_⟩
    · intro hs
      unfold updateComment
      simp only [hv, hs, hc, hlive, hown, Bool.not_true, Bool.false_eq_true, if_false,
        ne_eq, not_true_eq_false]
      refine ⟨trivial, ?_⟩
      unfold findCommentById at hc ⊢
      simp only
      rw [find?_updateFirst_same _ _ _ (fun _ hx => by simpa using hx), hc]
      simp [extractMentions_eq_spec]
    · intro hs
      unfold updateComment
      simp only [hv, hs, hc, hlive, hown, Bool.not_true, Bool.not_false, Bool.false_eq_true,
        if_false, if_true, ne_eq, not_true_eq_false]
  · intro f now db me content visibility tags images hv hnone
    rw [← extractMentions_eq_spec] at hnone
    unfold createPost
    simp only [hv, hnone, Bool.not_true, Bool.false_eq_true, if_false, notifyPostMentions]


/-- Claim C13, at the input on which `createComment` breaks it: a reply whose
parent is a tombstoned comment is answered with 201, stored, and attached to the
post and to the reply-id list of the tombstoned parent. -/
theorem reply_to_tombstoned_parent_is_created :
    findCommentById withTombstone 4 =
      some ⟨4, tombstone, 1, 3, none, [], [], [], true, some 980, true, some 980, 950⟩ ∧
    (createComment Faults.none 3000 withTombstone 2 "me too" 3 (some 4)).2 = created ∧
    (createComment Faults.none 3000 withTombstone 2 "me too" 3 (some 4)).1.comments =
      [⟨4, tombstone, 1, 3, none, [5], [], [], true, some 980, true, some 980, 950⟩,
       ⟨5, "me too", 2, 3, some 4, [], [], [], false, none, false, none, 3000⟩] ∧
    (createComment Faults.none 3000 withTombstone 2 "me too" 3 (some 4)).1.posts =
      [⟨3, 2, "hello", [], [], [], .pub, [], [5], 900⟩] := by
  decide

/-- Supporting fact for claim C13: with valid content, a missing post and a parent id
without a stored comment are answered with 404 and leave the database unchanged. -/
theorem createComment_missing_target (f : Faults) (now : Time) (db : Db) (me : Id)
    (content : String) (postId : Id) (parent : Option Id)
    (hv : validContent 500 content = true) :
    (findPostById db postId = none →
      createComment f now db me content postId parent = (db, failure 404 "Post not found")) ∧
    (∀ pid, (findPostById db postId).isSome → parent = some pid →
      findCommentById db pid = none →
      createComment f now db me content postId parent =
        (db, failure 404 "Parent comment not found")) := by
  constructor
  · intro hp
    unfold createComment
    simp only [hv, hp, Bool.not_true, Bool.false_eq_true, if_false]
  · intro pid hp hpar hc
    obtain ⟨post, hpost⟩ := Option.isSome_iff_exists.1 hp
    unfold createComment
    simp only [hv, hpost, hpar, hc, Bool.not_true, Bool.false_eq_true, if_false]

/-- Claim C14, at the input on which `updateComment` breaks it: the author edits a
live comment; the new content is stored, `isEdited` stays false and `editedAt`
stays unset. -/
theorem edit_leaves_edit_flags_unset :
    findCommentById smallForum 4 =
      some ⟨4, "nice", 1, 3, none, [], [], [], false, none, false, none, 950⟩ ∧
    updateComment smallForum 1 4 "nicer" =
      ({ smallForum with
          comments := [⟨4, "nicer", 1, 3, none, [], [], [], false, none, false, none, 950⟩] },
       ok200) := by
  decide

/-- Supporting fact for claim C14: an edit by the author of a live comment whose content
passes the route validation and the schema validators answers 200 and changes
`content` and `mentions` of the stored comment and nothing else, so `isEdited`
and `editedAt` keep their values. -/
theorem updateComment_by_author (db : Db) (me commentId : Id) (c : Comment) (content : String)
    (hv : validContent 500 content = true) (hs : Comment.validate content = true)
    (hc : findCommentById db commentId = some c)
    (hlive : c.isDeleted = false) (hown : c.author = me) :
    (updateComment db me commentId content).2 = ok200 ∧
    findCommentById (updateComment db me commentId content).1 commentId =
      some { c with content := content, mentions := extractMentions db content } := by
  subst hown
  unfold updateComment
  simp only [hv, hs, hc, Bool.not_true, Bool.false_eq_true, if_false, ne_eq, not_true_eq_false]
  rw [if_neg (by simp [hlive])]
  refine ⟨rfl, ?_⟩
  unfold findCommentById at hc ⊢
  simp only
  rw [find?_updateFirst_same _ _ _ (fun _ hx => by simpa using hx), hc]
  rfl

/-- Claim C15: for a stored post, respectively a stored comment that is not
deleted, and a user who is not its author: `updatePost`, `deletePost`,
`updateComment` and `deleteComment` leave the whole database unchanged and answer
403 (for the two updates: whenever the body passes the content validation, which
is checked first). -/
theorem non_author_is_forbidden :
    (∀ (db : Db) (me postId : Id) (p : Post) (content : Option String)
        (visibility : Option Visibility) (tags : Option TagsInput),
      findPostById db postId = some p → p.author ≠ me →
      (updatePost db me postId content visibility tags).1 = db ∧
      (validOptContent content = true →
        (updatePost db me postId content visibility tags).2 =
          failure 403 "Not authorized to update this post")) ∧
    (∀ (db : Db) (me postId : Id) (p : Post),
      findPostById db postId = some p → p.author ≠ me →
      deletePost db me postId = (db, failure 403 "Not authorized to delete this post")) ∧
    (∀ (db : Db) (me commentId : Id) (c : Comment) (content : String),
      findCommentById db commentId = some c → c.isDeleted = false → c.author ≠ me →
      (updateComment db me commentId content).1 = db ∧
      (validContent 500 content = true →
        (updateComment db me commentId content).2 =
          failure 403 "Not authorized to update this comment")) ∧
    (∀ (now : Time) (db : Db) (me commentId : Id) (c : Comment),
      findCommentById db commentId = some c → c.isDeleted = false → c.author ≠ me →
      deleteComment now db me commentId =
        (db, failure 403 "Not authorized to delete this comment")) := by
  refine ⟨?_, ?_, ?_, ?_⟩
  · intro db me postId p content visibility tags hp hne
    unfold updatePost
    by_cases hv : validOptContent content = true
    · simp [hv, hp, hne]
    · simp [hv]
  · intro db me postId p hp hne
    unfold deletePost
    simp only [hp, ne_eq, hne, not_false_eq_true, if_true]
  · intro db me commentId c content hc hlive hne
    unfold updateComment
    by_cases hv : validContent 500 content = true
    · simp [hv, hc, hlive, hne]
    · simp [hv]
  · intro now db me commentId c hc hlive hne
    unfold deleteComment
    simp only [hc, hlive, ne_eq, hne, not_false_eq_true, if_true, Bool.false_eq_true, if_false]

/-- Claim C15 on a sample state. -/
theorem non_author_is_forbidden_witness :
    updatePost smallForum 1 3 (some "mine now") none none =
      (smallForum, failure 403 "Not authorized to update this post") ∧
    deletePost smallForum 1 3 =
      (smallForum, failure 403 "Not authorized to delete this post") ∧
    updateComment smallForum 2 4 "mine now" =
      (smallForum, failure 403 "Not authorized to update this comment") ∧
    deleteComment 2000 smallForum 2 4 =
      (smallForum, failure 403 "Not authorized to delete this comment") :=
  ⟨Prod.ext
      (non_author_is_forbidden.1 smallForum 1 3
        ⟨3, 2, "hello", [], [], [], .pub, [], [4], 900⟩ (some "mine now") none none
        (by decide) (by decide)).1
      ((non_author_is_forbidden.1 smallForum 1 3
        ⟨3, 2, "hello", [], [], [], .pub, [], [4], 900⟩ (some "mine now") none none
        (by decide) (by decide)).2 (by decide)),
   non_author_is_forbidden.2.1 smallForum 1 3
      ⟨3, 2, "hello", [], [], [], .pub, [], [4], 900⟩ (by decide) (by decide),
   Prod.ext
      (non_author_is_forbidden.2.2.1 smallForum 2 4
        ⟨4, "nice", 1, 3, none, [], [], [], false, none, false, none, 950⟩ "mine now"
        (by decide) (by decide) (by decide)).1
      ((non_author_is_forbidden.2.2.1 smallForum 2 4
        ⟨4, "nice", 1, 3, none, [], [], [], false, none, false, none, 950⟩ "mine now"
        (by decide) (by decide) (by decide)).2 (by decide)),
   non_author_is_forbidden.2.2.2 2000 smallForum 2 4
      ⟨4, "nice", 1, 3, none, [], [], [], false, none, false, none, 950⟩
      (by decide) (by decide) (by decide)⟩

/-- Claim C11 fails as stated: soft-deleting a comment that was never edited
leaves it with `isEdited = true` and `editedAt` set, because the `pre('save')`
hook sees the content change. -/
theorem soft_delete_sets_edit_flags :
    findCommentById smallForum 4 =
      some ⟨4, "nice", 1, 3, none, [], [], [], false, none, false, none, 950⟩ ∧
    (deleteComment 2000 smallForum 1 4).2 = success 200 "Comment deleted successfully" ∧
    findCommentById (deleteComment 2000 smallForum 1 4).1 4 =
      some ⟨4, tombstone, 1, 3, none, [], [], [], true, some 2000, true, some 2000, 950⟩ := by
  decide

/-- Claim C17, at the input on which `createPost` breaks it: one mention of Bob
gives one `mention` notification for the new post, two mentions of Bob in one
post give two; a self-mention and an unresolved handle give none. -/
theorem repeated_mention_notifies_twice :
    tupleCount (createPost Faults.none 1000 twoUsers 1 "Hello @bob #test" .pub
      (some (.array ["test"])) []).1 ⟨2, 1, .mention, none, some 3, none⟩ = 1 ∧
    tupleCount (createPost Faults.none 1000 twoUsers 1 "Hello @bob, thanks @bob" .pub
      none []).1 ⟨2, 1, .mention, none, some 3, none⟩ = 2 ∧
    (createPost Faults.none 1000 twoUsers 1 "note to @ann and @carol" .pub
      none []).1.notifications = [] := by
  decide


theorem notifyPostMentions_count (now : Time) (me postId b : Id) (ms : List Id) :
    ∀ db : Db,
      (notifyPostMentions Faults.none now me postId db ms).2 = true ∧
      tupleCount (notifyPostMentions Faults.none now me postId db ms).1
          ⟨b, me, .mention, none, some postId, none⟩ =
        tupleCount db ⟨b, me, .mention, none, some postId, none⟩ +
          (if b = me then 0 else ms.count b) := by
  induction ms with
  | nil => intro db; simp [notifyPostMentions]
  | cons m ms ih =>
    intro db
    unfold notifyPostMentions
    unfold Notification.createNotification
    by_cases hm : me = m
    · rw [if_pos hm]
      refine ⟨(ih db).1, ?_⟩
      rw [(ih db).2]
      by_cases hb : b = me
      · simp [hb]
      · have : m ≠ b := fun h => hb (by rw [← h, hm])
        simp [hb, List.count_cons, this]
    · rw [if_neg hm]
      have hsf : Faults.none.saveFails = false := rfl
      simp only [hsf, Bool.false_eq_true, if_false]
      refine ⟨(ih _).1, ?_⟩
      rw [(ih _).2]
      have hcount : tupleCount
          (insertNotification db (newNotification db now
            ⟨m, me, .mention, none, some postId, none⟩ (templateMessage .mention)))
          ⟨b, me, .mention, none, some postId, none⟩ =
          tupleCount db ⟨b, me, .mention, none, some postId, none⟩ + (if m = b then 1 else 0) := by
        by_cases hmb : m = b
        · simp [tupleCount, insertNotification, List.filter_append, sameTuple, newNotification, hmb]
        · simp [tupleCount, insertNotification, List.filter_append, sameTuple, newNotification, hmb]
      rw [hcount]
      by_cases hb : b = me
      · have : m ≠ b := fun h => hm (by rw [h, hb])
        simp [hb, this]
        intro h; exact absurd h.symm hm
      · by_cases hmb : m = b
        · simp [hb, hmb, List.count_cons]; omega
        · simp [hb, hmb, List.count_cons]

/-- Supporting fact for mention fan-out: without storage faults `createPost` answers 201
and stores, for a user `b` other than the author, as many `mention` notifications
for the new post as `b` occurs in the extracted mention list, and none addressed
to the author. -/
theorem createPost_mention_count (now : Time) (db : Db) (me b : Id) (content : String)
    (visibility : Visibility) (tags : Option TagsInput) (images : List String)
    (hv : validContent 2000 content = true) :
    (createPost Faults.none now db me content visibility tags images).2 = created ∧
    tupleCount (createPost Faults.none now db me content visibility tags images).1
        ⟨b, me, .mention, none, some db.nextId, none⟩ =
      tupleCount db ⟨b, me, .mention, none, some db.nextId, none⟩ +
        (if b = me then 0 else (extractMentions db content).count b) := by
  have h := notifyPostMentions_count now me db.nextId b (extractMentions db content)
    { db with
      posts := db.posts ++ [⟨db.nextId, me, content, images, processTags tags,
        extractMentions db content, visibility, [], [], now⟩]
      nextId := db.nextId + 1 }
  unfold createPost
  simp only [hv, Bool.not_true, Bool.false_eq_true, if_false]
  split
  · next db2 heq =>
    rw [heq] at h
    simp at h
  · next db2 heq =>
    rw [heq] at h
    exact ⟨rfl, h.2⟩

/-- Claim C11 on a sample state. -/
theorem soft_delete_keeps_record_witness :
    findCommentById (deleteComment 2000 smallForum 1 4).1 4 =
      some ⟨4, tombstone, 1, 3, none, [], [], [], true, some 2000, true, some 2000, 950⟩ :=
  (soft_delete_keeps_record 2000 smallForum 1 4
    ⟨4, "nice", 1, 3, none, [], [], [], false, none, false, none, 950⟩
    (by decide) (by decide) (by decide) (by decide)).2

/-- Claim C12 on a sample state. -/
theorem soft_delete_is_terminal_witness :
    tombstonedWith
      (runCommentOps withTombstone
        [(3000, .create Faults.none 2 "me too" 3 (some 4)), (3100, .edit 1 4 "again"),
         (3200, .like 2 4), (3300, .delete 2 5), (3400, .delete 1 4)])
      4 tombstone ∧
    deleteComment 3400 withTombstone 1 4 = (withTombstone, failure 404 "Comment not found") :=
  ⟨(soft_delete_is_terminal withTombstone 4
      ⟨4, tombstone, 1, 3, none, [], [], [], true, some 980, true, some 980, 950⟩
      (by decide) (by decide)).1 _,
   ((soft_delete_is_terminal withTombstone 4
      ⟨4, tombstone, 1, 3, none, [], [], [], true, some 980, true, some 980, 950⟩
      (by decide) (by decide)).2.2 3400 1).1⟩

set_option maxRecDepth 20000 in
/-- Claim C16 on sample states: a post and a comment with mentions, and a content
of 251 characters beyond U+FFFF, which passes the route validation and is
rejected by the schema validators. -/
theorem stored_mentions_follow_spec_witness :
    specMentions twoUsers "Hello @bob and @carol, mail a@b.c" = [2] ∧
    (createPost Faults.none 1000 twoUsers 1 "Hello @bob" .pub none []).1.posts =
      [⟨3, 1, "Hello @bob", [], [], specMentions twoUsers "Hello @bob", .pub, [], [], 1000⟩] ∧
    (∃ others, (createComment Faults.none 1000 smallForum 2 "thanks @ann" 3 none).1.comments =
      others ++ [⟨5, "thanks @ann", 2, 3, none, [], [], specMentions smallForum "thanks @ann",
        false, none, false, none, 1000⟩]) ∧
    specMentions smallForum "thanks @ann" = [1] ∧
    createComment Faults.none 1000 smallForum 2 longEmoji 3 none =
      (smallForum, failure 500 "Server error") ∧
    updateComment smallForum 1 4 longEmoji = (smallForum, failure 500 "Server error") :=
  ⟨(stored_mentions_follow_spec.1 twoUsers "Hello @bob and @carol, mail a@b.c").symm.trans
      (by decide),
   stored_mentions_follow_spec.2.1 Faults.none 1000 twoUsers 1 "Hello @bob" .pub none []
      (by decide),
   (stored_mentions_follow_spec.2.2.1 Faults.none 1000 smallForum 2 "thanks @ann" 3 none
      ⟨3, 2, "hello", [], [], [], .pub, [], [4], 900⟩ (by decide) (by decide)
      (by intro pid h; cases h)).1 (by decide),
   (stored_mentions_follow_spec.1 smallForum "thanks @ann").symm.trans (by decide),
   (stored_mentions_follow_spec.2.2.1 Faults.none 1000 smallForum 2 longEmoji 3 none
      ⟨3, 2, "hello", [], [], [], .pub, [], [4], 900⟩ (by decide) (by decide)
      (by intro pid h; cases h)).2 (by decide),
   (stored_mentions_follow_spec.2.2.2.2.1 smallForum 1 4
      ⟨4, "nice", 1, 3, none, [], [], [], false, none, false, none, 950⟩ longEmoji
      (by decide) (by decide) (by decide) (by decide)).2 (by decide)⟩

/-! ## Feed -/

theorem inFeed_iff (me : Id) (following : List Id) (p : Post) :
    inFeed me following p = true ↔
      (p.author = me ∨
        (p.author ∈ following ∧ (p.visibility = .pub ∨ p.visibility = .followers))) := by
  unfold inFeed
  simp only [Bool.and_eq_true, Bool.or_eq_true, decide_eq_true_eq, List.mem_append,
    List.mem_singleton]
  constructor
  · rintro ⟨hin | hme, (hpub | ⟨hfol, hin2⟩) | hme2⟩
    · exact Or.inr ⟨hin, Or.inl hpub⟩
    · exact Or.inr ⟨hin2, Or.inr hfol⟩
    · exact Or.inl hme2
    · exact Or.inl hme
    · exact Or.inl hme
    · exact Or.inl hme
  · rintro (hme | ⟨hin, hpub | hfol⟩)
    · exact ⟨Or.inr hme, Or.inr hme⟩
    · exact ⟨Or.inl hin, Or.inl (Or.inl hpub)⟩
    · exact ⟨Or.inl hin, Or.inl (Or.inr ⟨hfol, hin⟩)⟩

theorem mem_feedQuery (db : Db) (me : Id) (following : List Id) (p : Post) :
    p ∈ feedQuery db me following ↔
      p ∈ db.posts ∧ (p.author = me ∨
        (p.author ∈ following ∧ (p.visibility = .pub ∨ p.visibility = .followers))) := by
  unfold feedQuery
  rw [List.mem_insertionSort, List.mem_filter, inFeed_iff]

theorem mem_pages {α : Type} (l : List α) (limit : Nat) (hl : 1 ≤ limit) (x : α) (hx : x ∈ l) :
    ∃ page, 1 ≤ page ∧ x ∈ (l.drop ((page - 1) * limit)).take limit := by
  obtain ⟨i, hi, rfl⟩ := List.getElem_of_mem hx
  refine ⟨i / limit + 1, Nat.le_add_left _ _, ?_⟩
  rw [Nat.add_sub_cancel, List.mem_iff_getElem]
  have hmod : i % limit < limit := Nat.mod_lt _ hl
  have hdiv : i / limit * limit + i % limit = i := by
    rw [Nat.mul_comm]; exact Nat.div_add_mod i limit
  have hlen : i % limit < ((l.drop (i / limit * limit)).take limit).length := by
    rw [List.length_take, List.length_drop]
    omega
  refine ⟨i % limit, hlen, ?_⟩
  rw [List.getElem_take, List.getElem_drop]
  congr 1

/-- Claim C18 fails as stated: Ann has no follow edge to Bob, yet her cached
`following` array still lists him, and her feed contains his post. -/
theorem feed_follows_the_cached_list :
    Follow.isFollowing staleFeed 1 2 = false ∧
    (getFeedPosts staleFeed 1 1 10).posts = [⟨3, 2, "hello", [], [], [], .pub, [], [], 900⟩] := by
  decide

/-- Claim C18 as amended: for a stored viewer, the posts matched by `getFeedPosts`
are exactly the stored posts written by the viewer (any visibility) or written by
an author listed in the viewer's cached `following` array with visibility public
or followers; they are ordered by `createdAt` descending and hold no post twice
when the collection holds none twice; page `k` is the `k`-th block of `limit`
posts of that list, so every matched post is on some page; and when the cached
array lists exactly the users the viewer has an accepted edge to, the set is the
one of the claim. -/
theorem feed_is_own_and_listed_authors (db : Db) (me : Id) (u : User)
    (hu : findUserById db me = some u) :
    (∀ p, p ∈ feedQuery db me u.following ↔
      p ∈ db.posts ∧ (p.author = me ∨
        (p.author ∈ u.following ∧ (p.visibility = .pub ∨ p.visibility = .followers)))) ∧
    (feedQuery db me u.following).Sorted newerFirst ∧
    (db.posts.Nodup → (feedQuery db me u.following).Nodup) ∧
    (∀ page limit, 1 ≤ page → 1 ≤ limit →
      (getFeedPosts db me page limit).status = 200 ∧
      (getFeedPosts db me page limit).posts =
        ((feedQuery db me u.following).drop ((page - 1) * limit)).take limit ∧
      (getFeedPosts db me page limit).total = (feedQuery db me u.following).length) ∧
    (∀ limit, 1 ≤ limit → ∀ p ∈ feedQuery db me u.following,
      ∃ page, 1 ≤ page ∧ p ∈ (getFeedPosts db me page limit).posts) ∧
    ((∀ b, b ∈ u.following ↔ Follow.isFollowing db me b = true) →
      ∀ p, p ∈ feedQuery db me u.following ↔
        p ∈ db.posts ∧ (p.author = me ∨
          (Follow.isFollowing db me p.author = true ∧
            (p.visibility = .pub ∨ p.visibility = .followers)))) := by
  have hpage : ∀ page limit, 1 ≤ page → 1 ≤ limit →
      (getFeedPosts db me page limit).status = 200 ∧
      (getFeedPosts db me page limit).posts =
        ((feedQuery db me u.following).drop ((page - 1) * limit)).take limit ∧
      (getFeedPosts db me page limit).total = (feedQuery db me u.following).length := by
    intro page limit hp hl
    have h1 : orDefault page 1 = page := by
      unfold orDefault; rw [if_neg (by omega)]
    have h2 : orDefault limit 10 = limit := by
      unfold orDefault; rw [if_neg (by omega)]
    unfold getFeedPosts
    simp only [hu, h1, h2]
    refine ⟨trivial, trivial, ?_⟩
    unfold feedQuery
    rw [List.length_insertionSort]
  refine ⟨mem_feedQuery db me u.following, List.sorted_insertionSort _ _, ?_, hpage, ?_, ?_⟩
  · intro hnd
    unfold feedQuery
    exact (List.perm_insertionSort _ _).nodup_iff.2 (hnd.filter _)
  · intro limit hl p hp
    obtain ⟨page, hpg, hmem⟩ := mem_pages _ limit hl p hp
    exact ⟨page, hpg, by rw [(hpage page limit hpg hl).2.1]; exact hmem⟩
  · intro hagree p
    rw [mem_feedQuery, hagree]

/-- Claim C18 on a sample state. -/
theorem feed_is_own_and_listed_authors_witness :
    (∀ p, p ∈ feedQuery staleFeed 1 [2] ↔
      p ∈ staleFeed.posts ∧ (p.author = 1 ∨
        (p.author ∈ [2] ∧ (p.visibility = .pub ∨ p.visibility = .followers)))) ∧
    (feedQuery staleFeed 1 [2]).Sorted newerFirst :=
  ⟨(feed_is_own_and_listed_authors staleFeed 1 ⟨1, "ann", "Ann", "Lee", [], [2]⟩
      (by decide)).1,
   (feed_is_own_and_listed_authors staleFeed 1 ⟨1, "ann", "Ann", "Lee", [], [2]⟩
      (by decide)).2.1⟩

/-! ## Pagination -/

theorem ceil_div_spec (total limit : Nat) (hl : 1 ≤ limit) :
    total ≤ (total + limit - 1) / limit * limit ∧
    ∀ n, total ≤ n * limit → (total + limit - 1) / limit ≤ n := by
  constructor
  · have h := Nat.div_add_mod (total + limit - 1) limit
    have hm := Nat.mod_lt (total + limit - 1) hl
    rw [Nat.mul_comm] at h
    omega
  · intro n hn
    apply Nat.le_of_lt_succ
    rw [Nat.div_lt_iff_lt_mul hl, Nat.succ_mul]
    omega

theorem lt_ceil_div_iff (page total limit : Nat) (hl : 1 ≤ limit) :
    page < (total + limit - 1) / limit ↔ page * limit < total := by
  rw [Nat.lt_iff_add_one_le, Nat.le_div_iff_mul_le hl, Nat.add_mul, Nat.one_mul]
  omega

/-- Claim C21: for `page ≥ 1`, `limit ≥ 1` and any total, the pagination numbers are
`skip = (page - 1) * limit` and `pages = ceil(total / limit)` (the least number of
pages of `limit` items that hold `total` items); `hasPrev` is reported exactly
when `page > 1`, `hasNext` exactly when `page < pages`, which is the case exactly
when `page * limit < total`; `getPosts`, `getComments`, `getReplies` and
`getFeedPosts` answer with these numbers for the count of matching documents and
return the block of `limit` items behind the first `skip`. -/
theorem pagination_numbers (page limit : Nat) (hp : 1 ≤ page) (hl : 1 ≤ limit) :
    (∀ total,
      (paginate page limit total).skip = (page - 1) * limit ∧
      total ≤ (paginate page limit total).pages * limit ∧
      (∀ n, total ≤ n * limit → (paginate page limit total).pages ≤ n) ∧
      ((paginate page limit total).hasPrev = true ↔ 1 < page) ∧
      ((paginate page limit total).hasNext = true ↔ page < (paginate page limit total).pages) ∧
      ((paginate page limit total).hasNext = true ↔ page * limit < total)) ∧
    (∀ db : Db,
      (getPosts db page limit).pagination = paginate page limit (getPosts db page limit).total ∧
      (getPosts db page limit).items.length ≤ limit) ∧
    (∀ (db : Db) (postId : Id),
      (getComments db postId page limit).pagination =
        paginate page limit (getComments db postId page limit).total ∧
      (getComments db postId page limit).total = (db.comments.filter (topLevelOf postId)).length ∧
      (getComments db postId page limit).items =
        (((db.comments.filter (topLevelOf postId)).insertionSort newerComment).drop
          ((page - 1) * limit)).take limit) ∧
    (∀ (db : Db) (commentId : Id),
      (getReplies db commentId page limit).pagination =
        paginate page limit (getReplies db commentId page limit).total) ∧
    (∀ (db : Db) (me : Id), (findUserById db me).isSome →
      (getFeedPosts db me page limit).pages =
        (paginate page limit (getFeedPosts db me page limit).total).pages ∧
      (getFeedPosts db me page limit).hasNext =
        (paginate page limit (getFeedPosts db me page limit).total).hasNext ∧
      (getFeedPosts db me page limit).hasPrev =
        (paginate page limit (getFeedPosts db me page limit).total).hasPrev) := by
  have h1 : ∀ d, orDefault page d = page := by
    intro d; unfold orDefault; rw [if_neg (by omega)]
  have h2 : ∀ d, orDefault limit d = limit := by
    intro d; unfold orDefault; rw [if_neg (by omega)]
  refine ⟨?_, ?_, ?_, ?_, ?_⟩
  · intro total
    refine ⟨rfl, (ceil_div_spec total limit hl).1, (ceil_div_spec total limit hl).2, ?_, ?_, ?_⟩
    · simp [paginate]
    · simp [paginate]
    · simp only [paginate, decide_eq_true_eq]
      exact lt_ceil_div_iff page total limit hl
  · intro db
    unfold getPosts
    simp only [h1, h2]
    exact ⟨trivial, by rw [List.length_take]; exact Nat.min_le_left _ _⟩
  · intro db postId
    unfold getComments
    simp only [h1, h2]
    exact ⟨trivial, List.length_insertionSort _ _, rfl⟩
  · intro db commentId
    unfold getReplies
    simp only [h1, h2]
  · intro db me hu
    obtain ⟨u, hu⟩ := Option.isSome_iff_exists.1 hu
    unfold getFeedPosts
    simp only [hu, h1, h2]
    exact ⟨rfl, rfl, rfl⟩

/-- Claim C21 on sample numbers. -/
theorem pagination_numbers_witness :
    paginate 2 10 25 = ⟨10, 2, 3, true, true⟩ ∧ paginate 3 10 25 = ⟨20, 3, 3, false, true⟩ ∧
    ((paginate 2 10 25).hasNext = true ↔ 2 * 10 < 25) :=
  ⟨by decide, by decide, ((pagination_numbers 2 10 (by decide) (by decide)).1 25).2.2.2.2.2⟩

/-! ## Read state of notifications -/

/-- Claim C22, at the input on which `markAsRead` breaks it: a second call on a
notification that is already read overwrites `readAt` with the time of the
second call, while `markAllAsRead` leaves an already read notification alone. -/
theorem second_markAsRead_moves_readAt :
    (findNotificationById (markAsRead 1000 oneNotification 2 3).1 3).map
      (fun n => (n.isRead, n.readAt)) = some (true, some 1000) ∧
    (findNotificationById (markAsRead 2000 (markAsRead 1000 oneNotification 2 3).1 2 3).1 3).map
      (fun n => (n.isRead, n.readAt)) = some (true, some 2000) ∧
    (findNotificationById (markAllAsRead 2000 (markAsRead 1000 oneNotification 2 3).1 2).1 3).map
      (fun n => (n.isRead, n.readAt)) = some (true, some 1000) := by
  decide

/-- Supporting fact for claim C22: a call of `markAsRead` by the recipient answers 200
and stores the notification with `isRead = true` and `readAt` equal to the time
of that call, whatever its read state was. -/
theorem markAsRead_sets_readAt (now : Time) (db : Db) (me id : Id) (n : Notification)
    (hn : findNotificationById db id = some n) (hme : n.recipient = me) :
    (markAsRead now db me id).2 = success 200 "Notification marked as read" ∧
    findNotificationById (markAsRead now db me id).1 id =
      some { n with isRead := true, readAt := some now } := by
  have hid : n.id = id := by simpa using List.find?_some hn
  subst hme
  unfold markAsRead
  simp only [hn, ne_eq, not_true_eq_false, if_false]
  refine ⟨trivial, ?_⟩
  unfold findNotificationById at hn ⊢
  simp only
  rw [find?_updateFirst_same _ _ _ (fun _ _ => by simp [Notification.markAsRead, hid]), hn]
  rfl

/-! ## Comment listings -/

theorem sorted_page {α : Type} (r : α → α → Prop) (l : List α) (h : l.Sorted r) (s k : Nat) :
    ((l.drop s).take k).Sorted r :=
  (h.sublist (List.drop_sublist s l)).sublist (List.take_sublist k _)

/-- Claim C24: on every page, `getComments` returns only stored comments of the
given post that have no parent and are not tombstoned, newest first, and
`getReplies` returns only stored comments whose parent is the given comment and
that are not tombstoned, oldest first; no tombstoned comment is in either
result. -/
theorem listings_exclude_tombstones (db : Db) (id page limit : Nat) :
    (∀ c ∈ (getComments db id page limit).items,
      c ∈ db.comments ∧ c.post = id ∧ c.parentComment = none ∧ c.isDeleted = false) ∧
    (getComments db id page limit).items.Sorted newerComment ∧
    (∀ c ∈ (getReplies db id page limit).items,
      c ∈ db.comments ∧ c.parentComment = some id ∧ c.isDeleted = false) ∧
    (getReplies db id page limit).items.Sorted olderComment := by
  refine ⟨?_, ?_, ?_, ?_⟩
  · intro c hc
    unfold getComments at hc
    have h1 := List.mem_of_mem_drop (List.mem_of_mem_take hc)
    rw [List.mem_insertionSort, List.mem_filter] at h1
    obtain ⟨hmem, hf⟩ := h1
    simp only [topLevelOf, decide_eq_true_eq] at hf
    exact ⟨hmem, hf⟩
  · unfold getComments
    exact sorted_page _ _ (List.sorted_insertionSort _ _) _ _
  · intro c hc
    unfold getReplies at hc
    have h1 := List.mem_of_mem_drop (List.mem_of_mem_take hc)
    rw [List.mem_insertionSort, List.mem_filter] at h1
    obtain ⟨hmem, hf⟩ := h1
    simp only [liveReplyOf, decide_eq_true_eq] at hf
    exact ⟨hmem, hf⟩
  · unfold getReplies
    exact sorted_page _ _ (List.sorted_insertionSort _ _) _ _

/-! ## Reported like counts -/

/-- Claim C25, at the input on which the like controllers break it: Bob likes a
comment without likes; the like set then has one entry and the answer reports
`likesCount` 2; Bob unlikes it again; the like set is empty and the answer
reports `likesCount` -1. -/
theorem reported_likesCount_is_off :
    commentLikes smallForum 4 = [] ∧
    (likeComment 1000 smallForum 2 4).2 =
      ⟨200, true, some "Comment liked successfully", some 2⟩ ∧
    commentLikes (likeComment 1000 smallForum 2 4).1 4 = [⟨2, 1000⟩] ∧
    (unlikeComment 2000 (likeComment 1000 smallForum 2 4).1 2 4).2 =
      ⟨200, true, some "Comment unliked successfully", some (-1)⟩ ∧
    commentLikes (unlikeComment 2000 (likeComment 1000 smallForum 2 4).1 2 4).1 4 = [] := by
  decide

/-- Supporting fact for claim C25: a successful `likeComment` reports the size of the
like set before the call plus 2. -/
theorem likeComment_reports_size_plus_two (now : Time) (db : Db) (me cid : Id) (c : Comment)
    (hc : findCommentById db cid = some c) (hlive : c.isDeleted = false)
    (hl : c.isLikedBy me = false) :
    (likeComment now db me cid).2.likesCount = some ((c.likes.length : Int) + 2) := by
  unfold likeComment
  simp only [hc, hlive, hl, Bool.false_eq_true, if_false]
  simp [Comment.addLike, hl, Comment.likesCount]
  ring

/-! ## Like sets of comments -/

theorem removeLike_nodup (c : Comment) (u : Id) (h : (c.likes.map (fun l => l.user)).Nodup) :
    ((c.removeLike u).likes.map (fun l => l.user)).Nodup := by
  unfold Comment.removeLike
  exact h.sublist ((List.filter_sublist _).map _)

theorem addLike_nodup (c : Comment) (u : Id) (now : Time)
    (h : (c.likes.map (fun l => l.user)).Nodup) :
    ((c.addLike u now).likes.map (fun l => l.user)).Nodup := by
  unfold Comment.addLike
  by_cases hl : c.isLikedBy u = true
  · simp only [hl, Bool.not_true, Bool.false_eq_true, if_false]
    exact h
  · simp only [Bool.not_eq_true] at hl
    simp only [hl, Bool.not_false, if_true, List.map_append, List.map_cons, List.map_nil]
    rw [List.nodup_append]
    refine ⟨h, List.nodup_singleton _, ?_⟩
    intro x hx hx2
    rw [List.mem_singleton] at hx2
    subst hx2
    simp only [Comment.isLikedBy, List.any_eq_false, decide_eq_true_eq] at hl
    rw [List.mem_map] at hx
    obtain ⟨l, hlm, hlu⟩ := hx
    exact hl l hlm hlu

theorem runLikeCalls_nodup (calls : List LikeCall) :
    ∀ c : Comment, (c.likes.map (fun l => l.user)).Nodup →
      ((runLikeCalls c calls).likes.map (fun l => l.user)).Nodup := by
  induction calls with
  | nil => intro c h; exact h
  | cons call rest ih =>
    intro c h
    unfold runLikeCalls
    rw [List.foldl_cons]
    apply ih
    cases call with
    | add u now => exact addLike_nodup c u now h
    | remove u => exact removeLike_nodup c u h

/-- Claim C28: for a comment whose like set holds each user at most once, every
sequence of `addLike` and `removeLike` calls keeps it so; `addLike(u)` leaves a
comment already liked by `u` unchanged and otherwise appends exactly one entry
for `u`; after `removeLike(u)` no entry is by `u` and the entries of all other
users are kept, in their order. -/
theorem like_set_stays_duplicate_free (c : Comment)
    (h : (c.likes.map (fun l => l.user)).Nodup) :
    (∀ calls, ((runLikeCalls c calls).likes.map (fun l => l.user)).Nodup) ∧
    (∀ u now, c.isLikedBy u = true → c.addLike u now = c) ∧
    (∀ u now, c.isLikedBy u = false → (c.addLike u now).likes = c.likes ++ [⟨u, now⟩]) ∧
    (∀ u, (c.removeLike u).isLikedBy u = false ∧
      (c.removeLike u).likes = c.likes.filter (fun l => decide (l.user ≠ u)) ∧
      (c.removeLike u).likes.Sublist c.likes ∧
      (∀ l ∈ c.likes, l.user ≠ u → l ∈ (c.removeLike u).likes)) := by
  refine ⟨fun calls => runLikeCalls_nodup calls c h, ?_, ?_, ?_⟩
  · intro u now hl
    simp [Comment.addLike, hl]
  · intro u now hl
    simp [Comment.addLike, hl]
  · intro u
    refine ⟨?_, rfl, List.filter_sublist _, ?_⟩
    · simp [Comment.isLikedBy, Comment.removeLike]
    · intro l hl hne
      simp [Comment.removeLike, hl, hne]

/-- Claim C28 on a sample comment. -/
theorem like_set_stays_duplicate_free_witness :
    (((runLikeCalls ⟨4, "nice", 1, 3, none, [], [⟨2, 10⟩], [], false, none, false, none, 950⟩
        [.add 1 20, .add 2 30, .remove 2, .add 2 40]).likes.map (fun l => l.user)).Nodup) :=
  (like_set_stays_duplicate_free
    ⟨4, "nice", 1, 3, none, [], [⟨2, 10⟩], [], false, none, false, none, 950⟩
    (by decide)).1 _

/-! ## Edits of a post without content -/

/-- Claim C29, at the input on which `updatePost` breaks it: the owner changes only
the visibility of a post that mentions Bob; the content is kept and the stored
mention list is emptied. -/
theorem edit_without_content_clears_mentions :
    findPostById mentionPost 3 = some ⟨3, 1, "hi @bob", [], ["news"], [2], .pub, [], [], 900⟩ ∧
    updatePost mentionPost 1 3 none (some .priv) none =
      ({ mentionPost with
          posts := [⟨3, 1, "hi @bob", [], ["news"], [], .priv, [], [], 900⟩] },
       ok200) := by
  decide

/-- Supporting fact for claim C29: an edit by the owner without content keeps the content
and stores the empty mention list. -/
theorem updatePost_without_content (db : Db) (me postId : Id) (p : Post)
    (visibility : Option Visibility) (tags : Option TagsInput)
    (hp : findPostById db postId = some p) (hown : p.author = me) :
    (findPostById (updatePost db me postId none visibility tags).1 postId).map
      (fun q => (q.content, q.mentions)) = some (p.content, []) := by
  subst hown
  have hm : extractMentions db "undefined" = [] := by
    unfold extractMentions
    have : scanMentions "undefined".toList = [] := by decide
    rw [this]; rfl
  unfold updatePost
  simp only [validOptContent, hp, Bool.not_true, Bool.false_eq_true, if_false, ne_eq,
    not_true_eq_false, Option.getD_none, hm]
  unfold findPostById at hp ⊢
  simp only
  rw [find?_updateFirst_same _ _ _ (fun _ hx => by simpa using hx), hp]
  rfl

/-- Claim C24 on a sample state. -/
theorem listings_exclude_tombstones_witness :
    (⟨4, "nice", 1, 3, none, [], [], [], false, none, false, none, 950⟩ : Comment) ∈
      (getComments smallForum 3 1 20).items ∧
    (getComments withTombstone 3 1 20).items = [] ∧
    (⟨4, "nice", 1, 3, none, [], [], [], false, none, false, none, 950⟩ : Comment).isDeleted
      = false :=
  ⟨by decide, by decide,
    ((listings_exclude_tombstones smallForum 3 1 20).1 _ (by decide)).2.2.2⟩

/-! ## Notifications for likes -/

/-- Claim C23, at the input on which `likeComment` breaks it: Bob likes a comment of
Ann; the like is stored and answered with 200, and no notification is stored
for Ann. On the same store Ann likes the post of Bob through the sibling
`likePost`, which stores one `like` notification for Bob with Ann as sender. -/
theorem comment_like_sends_no_notification :
    (findCommentById smallForum 4).map (fun c => c.author) = some 1 ∧
    (likeComment 1000 smallForum 2 4).2.status = 200 ∧
    commentLikes (likeComment 1000 smallForum 2 4).1 4 = [⟨2, 1000⟩] ∧
    (likeComment 1000 smallForum 2 4).1.notifications = [] ∧
    (findPostById smallForum 3).map (fun p => p.author) = some 2 ∧
    (likePost Faults.none 1000 smallForum 1 3).2.status = 200 ∧
    (likePost Faults.none 1000 smallForum 1 3).1.notifications =
      [⟨5, 2, 1, .like, "Ann Lee liked your post", some 3, none, false, none, 1000⟩] := by
  decide

theorem likeComment_notifications (now : Time) (db : Db) (me cid : Id) :
    (likeComment now db me cid).1.notifications = db.notifications := by
  unfold likeComment
  cases findCommentById db cid with
  | none => rfl
  | some c =>
    simp only
    split
    · rfl
    · split
      · rfl
      · unfold Comment.save
        split <;> rfl

/-- Supporting fact for claim C23: a successful `likePost` by a stored actor who is not the
author, served without storage faults, stores one new `like` notification for
the author with the actor as sender and the post as related post, unless such a
notification of the last 24 hours is already stored, in which case nothing is
added; a like by the author on the own post stores no notification; and
`likeComment` never stores a notification. -/
theorem like_notifies_post_author_only :
    (∀ (now : Time) (db : Db) (me pid : Id) (p : Post) (su : User),
      findPostById db pid = some p → p.isLikedBy me = false → p.author ≠ me →
      findUserById db me = some su →
      (likePost Faults.none now db me pid).2.status = 200 ∧
      ((db.notifications.find? (dupQuery
          ⟨p.author, me, .like, some (senderText su "liked your post"), some p.id, none⟩
          now)).isSome →
        (likePost Faults.none now db me pid).1.notifications = db.notifications) ∧
      (db.notifications.find? (dupQuery
          ⟨p.author, me, .like, some (senderText su "liked your post"), some p.id, none⟩
          now) = none →
        (likePost Faults.none now db me pid).1.notifications = db.notifications ++
          [⟨db.nextId, p.author, me, .like, senderText su "liked your post", some p.id, none,
            false, none, now⟩])) ∧
    (∀ (f : Faults) (now : Time) (db : Db) (me pid : Id) (p : Post),
      findPostById db pid = some p → p.isLikedBy me = false → p.author = me →
      (likePost f now db me pid).2.status = 200 ∧
      (likePost f now db me pid).1.notifications = db.notifications) ∧
    (∀ (now : Time) (db : Db) (me cid : Id),
      (likeComment now db me cid).1.notifications = db.notifications) := by
  refine ⟨?_, ?_, likeComment_notifications⟩
  · intro now db me pid p su hp hl hne hsu
    have hsu1 : findUserById (Post.save db (p.addLike me now)) me = some su := by
      rw [← hsu]; rfl
    have hmsg : senderText su "liked your post" ≠ "" := by
      unfold senderText
      intro h
      have := congrArg String.length h
      simp only [String.length_append] at this
      have h1 : "liked your post".length = 15 := by decide
      have h0 : "".length = 0 := rfl
      omega
    have hlp : (likePost Faults.none now db me pid) =
        ((createNotification Faults.none now (Post.save db (p.addLike me now))
            ⟨p.author, me, .like, some (senderText su "liked your post"), some p.id, none⟩).1,
          ⟨200, true, some "Post liked successfully",
            some ((p.addLike me now).likesCount + 1)⟩) := by
      unfold likePost
      simp only [hp, hl, Bool.false_eq_true, if_false, ne_eq, hne, not_false_eq_true, if_true,
        hsu1]
    rw [hlp]
    refine ⟨rfl, ?_, ?_⟩
    · intro hsome
      obtain ⟨n, hn⟩ := Option.isSome_iff_exists.1 hsome
      have hn1 : (Post.save db (p.addLike me now)).notifications.find? (dupQuery
          ⟨p.author, me, .like, some (senderText su "liked your post"), some p.id, none⟩
          now) = some n := hn
      simp only [createNotification, hne, hn1, Faults.none, if_false, Bool.false_eq_true]
      rfl
    · intro hnone
      have hn1 : (Post.save db (p.addLike me now)).notifications.find? (dupQuery
          ⟨p.author, me, .like, some (senderText su "liked your post"), some p.id, none⟩
          now) = none := hnone
      rw [createNotification_fresh _ _ (senderText su "liked your post") now hne rfl hmsg hn1]
      rfl
  · intro f now db me pid p hp hl hown
    unfold likePost
    simp only [hp, hl, Bool.false_eq_true, if_false, ne_eq, hown, not_true_eq_false]
    exact ⟨trivial, rfl⟩

/-- Supporting fact for claim C23 on a sample state. -/
theorem like_notifies_post_author_only_witness :
    (likePost Faults.none 1000 smallForum 1 3).1.notifications =
      [⟨5, 2, 1, .like, "Ann Lee liked your post", some 3, none, false, none, 1000⟩] :=
  (like_notifies_post_author_only.1 1000 smallForum 1 3
    ⟨3, 2, "hello", [], [], [], .pub, [], [4], 900⟩ ⟨1, "ann", "Ann", "Lee", [], []⟩
    (by decide) (by decide) (by decide) (by decide)).2.2 (by decide)

/-! ## Agreement of the cached arrays with the edge collection -/

theorem updateFirst_eq_map (a : Id) (g : User → User) (l : List User)
    (h : (l.map (fun u => u.id)).Nodup) :
    updateFirst (fun u => decide (u.id = a)) g l =
      l.map (fun u => if u.id = a then g u else u) := by
  induction l with
  | nil => rfl
  | cons x xs ih =>
    simp only [List.map_cons, List.nodup_cons] at h
    simp only [updateFirst, List.map_cons]
    by_cases hx : x.id = a
    · simp only [hx, decide_True, if_true]
      congr 1
      symm
      calc xs.map (fun u => if u.id = a then g u else u) = xs.map id := by
            apply List.map_congr_left
            intro u hu
            have : u.id ≠ a := by
              intro hua
              exact h.1 (List.mem_map.2 ⟨u, hu, by rw [hua, hx]⟩)
            simp [this]
        _ = xs := List.map_id xs
    · simp only [hx, decide_False, if_false, Bool.false_eq_true]
      rw [ih h.2]

theorem map_ids_of_preserving (F : User → User) (l : List User) (hF : ∀ u, (F u).id = u.id) :
    (l.map F).map (fun u => u.id) = l.map (fun u => u.id) := by
  rw [List.map_map]
  apply List.map_congr_left
  intro u _
  exact hF u

/-- The user document after the two `$push` updates of `followUser`. -/
theorem followUser_shape (f : Faults) (now : Time) (db : Db) (me t : Id)
    (hu : uniqueUserIds db) :
    ((followUser f now db me t).1.users = db.users ∧
      (followUser f now db me t).1.follows = db.follows) ∨
    (me ≠ t ∧ edgeCount db me t = 0 ∧
      (followUser f now db me t).1.follows = db.follows ++ [⟨me, t, .accepted, now⟩] ∧
      (followUser f now db me t).1.users = db.users.map (fun u =>
        { u with
          following := if u.id = me then u.following ++ [t] else u.following,
          followers := if u.id = t then u.followers ++ [me] else u.followers })) := by
  unfold followUser
  cases hb : findUserById db t with
  | none => exact Or.inl ⟨rfl, rfl⟩
  | some ub =>
    by_cases hab : me = t
    · simp [hab]
    cases he : db.follows.find? (edgeOf me t) with
    | some e => simp [hab]
    | none =>
      right
      refine ⟨hab, (edge_find?_eq_none_iff db me t).1 he, ?_⟩
      simp only [hab, Follow.create_fresh db now me t hab he, if_false]
      have hus : (User.findByIdAndUpdate
            (User.findByIdAndUpdate { db with follows := db.follows ++ [⟨me, t, .accepted, now⟩] }
              me (fun u => { u with following := u.following ++ [t] }))
            t (fun u => { u with followers := u.followers ++ [me] })).users =
          db.users.map (fun u =>
            { u with
              following := if u.id = me then u.following ++ [t] else u.following,
              followers := if u.id = t then u.followers ++ [me] else u.followers }) := by
        simp only [User.findByIdAndUpdate]
        rw [updateFirst_eq_map me _ db.users hu]
        rw [updateFirst_eq_map t _ _ (by
          rw [map_ids_of_preserving _ _ (by intro u; split <;> rfl)]; exact hu)]
        rw [List.map_map]
        apply List.map_congr_left
        intro u _
        simp only [Function.comp]
        by_cases h1 : u.id = me
        · subst h1
          simp [hab]
        · by_cases h2 : u.id = t
          · subst h2
            simp [h1]
          · simp [h1, h2]
      split
      · exact ⟨rfl, hus⟩
      · exact ⟨(createNotification_frame _ _ _ _).2.1.trans rfl,
          (createNotification_frame _ _ _ _).1.trans hus⟩

/-- The user documents after the two `$pull` updates of `unfollowUser`. -/
theorem unfollowUser_shape (db : Db) (me t : Id) (hu : uniqueUserIds db) :
    ((unfollowUser db me t).1.users = db.users ∧
      (unfollowUser db me t).1.follows = db.follows) ∨
    ((unfollowUser db me t).1.follows = db.follows.eraseP (edgeOf me t) ∧
      (unfollowUser db me t).1.users = db.users.map (fun u =>
        { u with
          following := if u.id = me then u.following.filter (fun x => decide (x ≠ t))
            else u.following,
          followers := if u.id = t then u.followers.filter (fun x => decide (x ≠ me))
            else u.followers })) := by
  unfold unfollowUser
  cases hb : findUserById db t with
  | none => exact Or.inl ⟨rfl, rfl⟩
  | some ub =>
    right
    refine ⟨rfl, ?_⟩
    simp only [User.findByIdAndUpdate]
    rw [updateFirst_eq_map me _ db.users hu]
    rw [updateFirst_eq_map t _ _ (by
      rw [map_ids_of_preserving _ _ (by intro u; split <;> rfl)]; exact hu)]
    rw [List.map_map]
    apply List.map_congr_left
    intro u _
    simp only [Function.comp]
    by_cases h1 : u.id = me
    · subst h1
      by_cases h2 : u.id = t
      · subst h2
        simp
      · simp [h2]
    · by_cases h2 : u.id = t
      · subst h2
        simp [h1]
      · simp [h1, h2]

theorem count_append_edge (l : List Follow) (me t a b : Id) (s : FollowStatus) (now : Time) :
    ((l ++ [(⟨me, t, s, now⟩ : Follow)]).filter (edgeOf a b)).length =
      (l.filter (edgeOf a b)).length + (if me = a ∧ t = b then 1 else 0) := by
  rw [List.filter_append, List.length_append]
  congr 1
  by_cases h : me = a ∧ t = b
  · simp [List.filter_cons, edgeOf, h]
  · simp [List.filter_cons, edgeOf, h]

theorem count_eraseP_other (l : List Follow) (me t a b : Id) (h : ¬ (a = me ∧ b = t)) :
    ((l.eraseP (edgeOf me t)).filter (edgeOf a b)).length = (l.filter (edgeOf a b)).length := by
  induction l with
  | nil => rfl
  | cons x xs ih =>
    cases hx : edgeOf me t x with
    | true =>
      rw [List.eraseP_cons_of_pos hx]
      have hx2 : edgeOf a b x = false := by
        simp only [edgeOf, decide_eq_true_eq] at hx
        simp only [edgeOf, decide_eq_false_iff_not]
        intro hab
        exact h ⟨hab.1.symm.trans hx.1, hab.2.symm.trans hx.2⟩
      simp [List.filter_cons, hx2]
    | false =>
      rw [List.eraseP_cons_of_neg (by simp [hx])]
      simp only [List.filter_cons]
      split <;> simp [ih]

theorem count_eraseP_same (l : List Follow) (me t : Id)
    (h : (l.map (fun e => (e.follower, e.following))).Nodup) :
    ((l.eraseP (edgeOf me t)).filter (edgeOf me t)).length = 0 := by
  rw [List.length_eq_zero, List.filter_eq_nil_iff]
  intro e he
  simp [eraseP_no_edge l me t h e he]

theorem followUser_keeps_agreement (f : Faults) (now : Time) (db : Db) (me t : Id)
    (hu : uniqueUserIds db) (he : uniqueEdges db) (hc : cacheAgrees db) :
    uniqueUserIds (followUser f now db me t).1 ∧ uniqueEdges (followUser f now db me t).1 ∧
      cacheAgrees (followUser f now db me t).1 := by
  rcases followUser_shape f now db me t hu with ⟨h1, h2⟩ | ⟨hne, h0, h2, h1⟩
  · refine ⟨by unfold uniqueUserIds; rw [h1]; exact hu,
      by unfold uniqueEdges; rw [h2]; exact he, ?_⟩
    unfold cacheAgrees edgeCount
    rw [h1, h2]
    exact hc
  · refine ⟨?_, ?_, ?_⟩
    · unfold uniqueUserIds
      rw [h1, map_ids_of_preserving _ _ (by intro u; rfl)]
      exact hu
    · unfold uniqueEdges
      rw [h2, List.map_append, List.nodup_append]
      refine ⟨he, by simp, ?_⟩
      intro p hp hq
      simp only [List.map_cons, List.map_nil, List.mem_singleton] at hq
      subst hq
      obtain ⟨e, hel, hee⟩ := List.mem_map.1 hp
      have hz : db.follows.filter (edgeOf me t) = [] := List.length_eq_zero.1 h0
      rw [List.filter_eq_nil_iff] at hz
      apply hz e hel
      simp only [Prod.mk.injEq] at hee
      simp [edgeOf, hee.1, hee.2]
    · unfold cacheAgrees edgeCount
      rw [h1, h2]
      intro u' hu'
      obtain ⟨u, hul, rfl⟩ := List.mem_map.1 hu'
      obtain ⟨n1, n2, m1, m2⟩ := hc u hul
      unfold edgeCount at m1 m2 h0
      refine ⟨?_, ?_, ?_, ?_⟩
      · show (if u.id = me then u.following ++ [t] else u.following).Nodup
        split
        · next hm =>
          rw [List.nodup_append]
          refine ⟨n1, by simp, ?_⟩
          intro x hx hx2
          simp only [List.mem_singleton] at hx2
          subst hx2
          have := (m1 x).1 hx
          rw [hm, h0] at this
          exact Nat.lt_irrefl 0 this
        · exact n1
      · show (if u.id = t then u.followers ++ [me] else u.followers).Nodup
        split
        · next hm =>
          rw [List.nodup_append]
          refine ⟨n2, by simp, ?_⟩
          intro x hx hx2
          simp only [List.mem_singleton] at hx2
          subst hx2
          have := (m2 x).1 hx
          rw [hm, h0] at this
          exact Nat.lt_irrefl 0 this
        · exact n2
      · intro b
        show b ∈ (if u.id = me then u.following ++ [t] else u.following) ↔
          0 < ((db.follows ++ [(⟨me, t, .accepted, now⟩ : Follow)]).filter (edgeOf u.id b)).length
        rw [count_append_edge]
        by_cases hm : u.id = me
        · by_cases hb : t = b
          · simp [hm, hb]
          · have hb2 : b ≠ t := fun h => hb h.symm
            simp only [hm, if_true, List.mem_append, List.mem_singleton, hb2, or_false,
              true_and, hb, if_false, Nat.add_zero]
            rw [← hm]; exact m1 b
        · have hm2 : ¬ (me = u.id ∧ t = b) := fun h => hm h.1.symm
          simp only [hm, if_false, hm2, Nat.add_zero]
          exact m1 b
      · intro a
        show a ∈ (if u.id = t then u.followers ++ [me] else u.followers) ↔
          0 < ((db.follows ++ [(⟨me, t, .accepted, now⟩ : Follow)]).filter (edgeOf a u.id)).length
        rw [count_append_edge]
        by_cases hm : u.id = t
        · by_cases ha : me = a
          · simp [hm, ha]
          · have ha2 : a ≠ me := fun h => ha h.symm
            simp only [hm, if_true, List.mem_append, List.mem_singleton, ha2, or_false,
              and_true, ha, if_false, Nat.add_zero]
            rw [← hm]; exact m2 a
        · have hm2 : ¬ (me = a ∧ t = u.id) := fun h => hm h.2.symm
          simp only [hm, if_false, hm2, Nat.add_zero]
          exact m2 a

theorem unfollowUser_keeps_agreement (db : Db) (me t : Id)
    (hu : uniqueUserIds db) (he : uniqueEdges db) (hc : cacheAgrees db) :
    uniqueUserIds (unfollowUser db me t).1 ∧ uniqueEdges (unfollowUser db me t).1 ∧
      cacheAgrees (unfollowUser db me t).1 := by
  rcases unfollowUser_shape db me t hu with ⟨h1, h2⟩ | ⟨h2, h1⟩
  · refine ⟨by unfold uniqueUserIds; rw [h1]; exact hu,
      by unfold uniqueEdges; rw [h2]; exact he, ?_⟩
    unfold cacheAgrees edgeCount
    rw [h1, h2]
    exact hc
  · refine ⟨?_, ?_, ?_⟩
    · unfold uniqueUserIds
      rw [h1, map_ids_of_preserving _ _ (by intro u; rfl)]
      exact hu
    · unfold uniqueEdges
      rw [h2]
      exact List.Nodup.sublist ((List.eraseP_sublist _).map _) he
    · unfold cacheAgrees edgeCount
      rw [h1, h2]
      intro u' hu'
      obtain ⟨u, hul, rfl⟩ := List.mem_map.1 hu'
      obtain ⟨n1, n2, m1, m2⟩ := hc u hul
      unfold edgeCount at m1 m2
      refine ⟨?_, ?_, ?_, ?_⟩
      · show (if u.id = me then u.following.filter (fun x => decide (x ≠ t))
          else u.following).Nodup
        split
        · exact n1.filter _
        · exact n1
      · show (if u.id = t then u.followers.filter (fun x => decide (x ≠ me))
          else u.followers).Nodup
        split
        · exact n2.filter _
        · exact n2
      · intro b
        show b ∈ (if u.id = me then u.following.filter (fun x => decide (x ≠ t))
            else u.following) ↔
          0 < ((db.follows.eraseP (edgeOf me t)).filter (edgeOf u.id b)).length
        by_cases hm : u.id = me
        · by_cases hb : b = t
          · subst hb
            rw [hm, count_eraseP_same _ _ _ he]
            simp
          · rw [count_eraseP_other _ _ _ _ _ (fun h => hb h.2)]
            simp only [hm, if_true, List.mem_filter, decide_eq_true_eq, ne_eq, hb,
              not_false_eq_true, and_true]
            rw [← hm]; exact m1 b
        · rw [count_eraseP_other _ _ _ _ _ (fun h => hm h.1)]
          simp only [hm, if_false]
          exact m1 b
      · intro a
        show a ∈ (if u.id = t then u.followers.filter (fun x => decide (x ≠ me))
            else u.followers) ↔
          0 < ((db.follows.eraseP (edgeOf me t)).filter (edgeOf a u.id)).length
        by_cases hm : u.id = t
        · by_cases ha : a = me
          · subst ha
            rw [hm, count_eraseP_same _ _ _ he]
            simp
          · rw [count_eraseP_other _ _ _ _ _ (fun h => ha h.1)]
            simp only [hm, if_true, List.mem_filter, decide_eq_true_eq, ne_eq, ha,
              not_false_eq_true, and_true]
            rw [← hm]; exact m2 a
        · rw [count_eraseP_other _ _ _ _ _ (fun h => hm h.2)]
          simp only [hm, if_false]
          exact m2 a

theorem runFollowOps_keeps_agreement (ops : List FollowOp) :
    ∀ db : Db, uniqueUserIds db → uniqueEdges db → cacheAgrees db →
      uniqueUserIds (runFollowOps db ops) ∧ uniqueEdges (runFollowOps db ops) ∧
        cacheAgrees (runFollowOps db ops) := by
  induction ops with
  | nil => intro db hu he hc; exact ⟨hu, he, hc⟩
  | cons op rest ih =>
    intro db hu he hc
    have hstep : uniqueUserIds (applyFollowOp db op) ∧ uniqueEdges (applyFollowOp db op) ∧
        cacheAgrees (applyFollowOp db op) := by
      cases op with
      | follow f now me t => exact followUser_keeps_agreement f now db me t hu he hc
      | unfollow me t => exact unfollowUser_keeps_agreement db me t hu he hc
    exact ih _ hstep.1 hstep.2.1 hstep.2.2

/-- With unique edges, a duplicate-free list that holds exactly the far ends of
the edges selected by `sel` is as long as the selection. -/
theorem length_eq_edges (l : List Follow) (ids : List Id) (sel : Follow → Bool)
    (far : Follow → Id) (hn : ids.Nodup) (hfar : ((l.filter sel).map far).Nodup)
    (hm : ∀ x, x ∈ ids ↔ x ∈ (l.filter sel).map far) :
    ids.length = (l.filter sel).length := by
  have hp : ids.Perm ((l.filter sel).map far) := (List.perm_ext_iff_of_nodup hn hfar).2 hm
  rw [hp.length_eq, List.length_map]

theorem following_length (db : Db) (he : uniqueEdges db) (hc : cacheAgrees db) :
    ∀ u ∈ db.users,
      u.following.length = (db.follows.filter (fun e => decide (e.follower = u.id))).length ∧
      u.followers.length = (db.follows.filter (fun e => decide (e.following = u.id))).length := by
  intro u hu
  obtain ⟨n1, n2, m1, m2⟩ := hc u hu
  unfold uniqueEdges at he
  constructor
  · apply length_eq_edges db.follows u.following _ (fun e => e.following) n1
    · have h1 : ((db.follows.filter (fun e => decide (e.follower = u.id))).map
          (fun e => (e.follower, e.following))).Nodup :=
        List.Nodup.sublist ((List.filter_sublist _).map _) he
      have h2 : (db.follows.filter (fun e => decide (e.follower = u.id))).map
          (fun e => (e.follower, e.following)) =
          ((db.follows.filter (fun e => decide (e.follower = u.id))).map
            (fun e => e.following)).map (fun x => (u.id, x)) := by
        rw [List.map_map]
        apply List.map_congr_left
        intro e hel
        have := (List.mem_filter.1 hel).2
        simp only [decide_eq_true_eq] at this
        simp [this]
      rw [h2] at h1
      exact List.Nodup.of_map _ h1
    · intro b
      rw [m1 b, ← edge_find?_isSome_iff]
      simp only [List.mem_map, List.mem_filter, decide_eq_true_eq, List.find?_isSome, edgeOf]
      constructor
      · rintro ⟨e, hel, h1, h2⟩; exact ⟨e, ⟨hel, h1⟩, h2⟩
      · rintro ⟨e, ⟨hel, h1⟩, h2⟩; exact ⟨e, hel, h1, h2⟩
  · apply length_eq_edges db.follows u.followers _ (fun e => e.follower) n2
    · have h1 : ((db.follows.filter (fun e => decide (e.following = u.id))).map
          (fun e => (e.follower, e.following))).Nodup :=
        List.Nodup.sublist ((List.filter_sublist _).map _) he
      have h2 : (db.follows.filter (fun e => decide (e.following = u.id))).map
          (fun e => (e.follower, e.following)) =
          ((db.follows.filter (fun e => decide (e.following = u.id))).map
            (fun e => e.follower)).map (fun x => (x, u.id)) := by
        rw [List.map_map]
        apply List.map_congr_left
        intro e hel
        have := (List.mem_filter.1 hel).2
        simp only [decide_eq_true_eq] at this
        simp [this]
      rw [h2] at h1
      exact List.Nodup.of_map _ h1
    · intro a
      rw [m2 a, ← edge_find?_isSome_iff]
      simp only [List.mem_map, List.mem_filter, decide_eq_true_eq, List.find?_isSome, edgeOf]
      constructor
      · rintro ⟨e, hel, h1, h2⟩; exact ⟨e, ⟨hel, h2⟩, h1⟩
      · rintro ⟨e, ⟨hel, h1⟩, h2⟩; exact ⟨e, hel, h2, h1⟩

/-- Claim C27: from a state with unique user ids and unique edges (the primary
key and the unique index of the two collections) in which the cached
`following` and `followers` arrays agree with the edge collection, every
sequence of `followUser` and `unfollowUser` requests, under any storage faults,
ends in a state with the same three properties, and there the length of each
`following` array is the number of edges leaving its owner and the length of
each `followers` array the number of edges arriving at its owner. -/
theorem follow_ops_keep_cache_agreement (db : Db) (ops : List FollowOp)
    (hu : uniqueUserIds db) (he : uniqueEdges db) (hc : cacheAgrees db) :
    uniqueUserIds (runFollowOps db ops) ∧ uniqueEdges (runFollowOps db ops) ∧
    cacheAgrees (runFollowOps db ops) ∧
    ∀ u ∈ (runFollowOps db ops).users,
      u.following.length =
        ((runFollowOps db ops).follows.filter (fun e => decide (e.follower = u.id))).length ∧
      u.followers.length =
        ((runFollowOps db ops).follows.filter (fun e => decide (e.following = u.id))).length := by
  obtain ⟨h1, h2, h3⟩ := runFollowOps_keeps_agreement ops db hu he hc
  exact ⟨h1, h2, h3, following_length _ h2 h3⟩

theorem twoUsers_cacheAgrees : cacheAgrees twoUsers := by
  intro u hu
  simp only [twoUsers, List.mem_cons, List.mem_singleton, List.not_mem_nil, or_false] at hu
  have hf : twoUsers.follows = [] := rfl
  rcases hu with rfl | rfl <;> simp [edgeCount, hf]

/-- Claim C27 on a sample run: Ann follows Bob, Bob follows Ann, Ann unfollows
Bob. -/
theorem follow_ops_keep_cache_agreement_witness :
    uniqueUserIds twoUsers ∧ uniqueEdges twoUsers ∧ cacheAgrees twoUsers ∧
    (runFollowOps twoUsers
      [.follow Faults.none 10 1 2, .follow Faults.none 20 2 1, .unfollow 1 2]).users.map
        (fun u => (u.id, u.following, u.followers)) = [(1, [], [2]), (2, [1], [])] ∧
    cacheAgrees (runFollowOps twoUsers
      [.follow Faults.none 10 1 2, .follow Faults.none 20 2 1, .unfollow 1 2]) :=
  ⟨by unfold uniqueUserIds; decide, by decide, twoUsers_cacheAgrees, by decide,
    (follow_ops_keep_cache_agreement twoUsers
      [.follow Faults.none 10 1 2, .follow Faults.none 20 2 1, .unfollow 1 2]
      (by unfold uniqueUserIds; decide) (by decide) twoUsers_cacheAgrees).2.2.1⟩

/-! ## The tag statistics of trending topics -/

theorem statOf_setStat (m : HashtagStats) (k : String) (st : TagStat) (h : String) :
    statOf (setStat m k st) h = if h = k then some st else statOf m h := by
  induction m with
  | nil =>
    by_cases hk : h = k
    · simp [setStat, statOf, hk]
    · have hk2 : ¬ k = h := fun e => hk e.symm
      simp [setStat, statOf, hk, hk2]
  | cons e rest ih =>
    unfold statOf at ih ⊢
    simp only [setStat]
    by_cases he : e.1 = k
    · by_cases hk : h = k
      · simp [he, hk]
      · have hk2 : ¬ k = h := fun e => hk e.symm
        have he2 : ¬ e.1 = h := fun e2 => hk (e2.symm.trans he)
        simp [he, hk, hk2, he2, List.find?_cons]
    · by_cases hk : h = k
      · have he2 : ¬ e.1 = h := fun e2 => he (e2.trans hk)
        simp only [he, if_false, List.find?_cons, he2, decide_False]
        exact ih
      · simp only [he, if_false, List.find?_cons]
        by_cases he2 : e.1 = h
        · simp [he2, hk]
        · simp only [he2, decide_False]
          exact ih

theorem keys_setStat (m : HashtagStats) (k : String) (st : TagStat) :
    (setStat m k st).map (fun e => e.1) =
      if k ∈ m.map (fun e => e.1) then m.map (fun e => e.1) else m.map (fun e => e.1) ++ [k] := by
  induction m with
  | nil => simp [setStat]
  | cons e rest ih =>
    simp only [setStat]
    by_cases he : e.1 = k
    · simp [he]
    · have he2 : ¬ k = e.1 := fun e2 => he e2.symm
      simp only [he, if_false, List.map_cons, ih, List.mem_cons, he2, false_or]
      split <;> simp

theorem keys_setStat_nodup (m : HashtagStats) (k : String) (st : TagStat)
    (h : (m.map (fun e => e.1)).Nodup) : ((setStat m k st).map (fun e => e.1)).Nodup := by
  rw [keys_setStat]
  split
  · exact h
  · next hk =>
    rw [List.nodup_append]
    refine ⟨h, List.nodup_singleton _, ?_⟩
    intro x hx hx2
    rw [List.mem_singleton] at hx2
    subst hx2
    exact hk hx

theorem statOf_of_mem (m : HashtagStats) (e : String × TagStat)
    (h : (m.map (fun e => e.1)).Nodup) (he : e ∈ m) : statOf m e.1 = some e.2 := by
  induction m with
  | nil => simp at he
  | cons x rest ih =>
    simp only [List.map_cons, List.nodup_cons] at h
    unfold statOf at ih ⊢
    rcases List.mem_cons.1 he with rfl | hr
    · simp [List.find?_cons]
    · have hx : ¬ x.1 = e.1 := by
        intro hxe
        exact h.1 (List.mem_map.2 ⟨e, hr, hxe.symm⟩)
      simp only [List.find?_cons, hx, decide_False]
      exact ih h.2 hr

theorem statOf_eq_none_iff (m : HashtagStats) (k : String) :
    statOf m k = none ↔ k ∉ m.map (fun e => e.1) := by
  unfold statOf
  simp only [Option.map_eq_none', List.find?_eq_none, decide_eq_true_eq, List.mem_map, not_exists,
    not_and]

/-! ## Scans that collect distinct ids -/

theorem firstDistinct_append_singleton (l : List Id) (a : Id) :
    firstDistinct (l ++ [a]) = addDistinct (firstDistinct l) a := by
  simp [firstDistinct, List.foldl_append]

theorem foldl_addDistinct_nodup (l : List Id) :
    ∀ acc : List Id, acc.Nodup → (l.foldl addDistinct acc).Nodup := by
  induction l with
  | nil => intro acc h; exact h
  | cons a rest ih =>
    intro acc h
    rw [List.foldl_cons]
    apply ih
    unfold addDistinct
    split
    · exact h
    · next ha =>
      rw [List.nodup_append]
      refine ⟨h, List.nodup_singleton _, ?_⟩
      intro x hx hx2
      rw [List.mem_singleton] at hx2
      subst hx2
      exact ha hx

theorem mem_foldl_addDistinct (l : List Id) (x : Id) :
    ∀ acc : List Id, x ∈ l.foldl addDistinct acc ↔ x ∈ acc ∨ x ∈ l := by
  induction l with
  | nil => intro acc; simp
  | cons a rest ih =>
    intro acc
    rw [List.foldl_cons, ih]
    unfold addDistinct
    split
    · next ha =>
      simp only [List.mem_cons]
      constructor
      · rintro (h | h)
        · exact Or.inl h
        · exact Or.inr (Or.inr h)
      · rintro (h | h | h)
        · exact Or.inl h
        · subst h; exact Or.inl ha
        · exact Or.inr h
    · simp only [List.mem_append, List.mem_singleton, List.mem_cons]
      tauto

theorem firstDistinct_nodup (l : List Id) : (firstDistinct l).Nodup :=
  foldl_addDistinct_nodup l [] List.nodup_nil

theorem mem_firstDistinct (l : List Id) (x : Id) : x ∈ firstDistinct l ↔ x ∈ l := by
  unfold firstDistinct
  rw [mem_foldl_addDistinct]
  simp

theorem take_three_addDistinct (d : List Id) (a : Id) :
    (addDistinct d a).take 3 =
      if (d.take 3).length < 3 ∧ a ∉ d.take 3 then d.take 3 ++ [a] else d.take 3 := by
  unfold addDistinct
  by_cases hlen : d.length < 3
  · have ht : d.take 3 = d := List.take_of_length_le (by omega)
    rw [ht]
    by_cases ha : a ∈ d
    · simp [ha, ht]
    · simp only [ha, if_false, hlen, not_false_eq_true, and_self, if_true]
      exact List.take_of_length_le (by simp; omega)
  · have hl3 : (d.take 3).length = 3 := by rw [List.length_take]; omega
    have hc : ¬ ((d.take 3).length < 3 ∧ a ∉ d.take 3) := by rw [hl3]; simp
    rw [if_neg hc]
    split
    · rfl
    · exact List.take_append_of_le_length (by omega)

theorem addDistinct_idem (acc : List Id) (a : Id) :
    addDistinct (addDistinct acc a) a = addDistinct acc a := by
  unfold addDistinct
  by_cases h : a ∈ acc <;> simp [h]

theorem foldl_addDistinct_const {β : Type} (a : Id) (l : List β) :
    ∀ acc : List Id, (l.map (fun _ => a)).foldl addDistinct acc =
      if l.isEmpty then acc else addDistinct acc a := by
  induction l with
  | nil => intro acc; rfl
  | cons x rest ih =>
    intro acc
    rw [List.map_cons, List.foldl_cons, ih]
    cases rest with
    | nil => rfl
    | cons y ys => simp [addDistinct_idem]

/-! ## What the counting loop records -/

theorem visitsOf_append {lower : String → String} (h : String) (l1 l2 : List (Post × String)) :
    visitsOf lower h (l1 ++ l2) = visitsOf lower h l1 ++ visitsOf lower h l2 := by
  simp [visitsOf, List.filter_append]

theorem countTag_some {lower : String → String}
    (db : Db) (m m1 : HashtagStats) (p : Post) (tag : String)
    (h : countTag lower db m p tag = some m1) :
    isInheritedKey (lower tag) = false ∧
    ∃ st : TagStat, m1 = setStat m (lower tag) st ∧
      st.count = ((statOf m (lower tag)).getD ⟨0, [], []⟩).count + 1 ∧
      ((st.recentUsers = ((statOf m (lower tag)).getD ⟨0, [], []⟩).recentUsers ∧
        st.userProfiles = ((statOf m (lower tag)).getD ⟨0, [], []⟩).userProfiles ∧
        ¬ (((statOf m (lower tag)).getD ⟨0, [], []⟩).recentUsers.length < 3 ∧
          p.author ∉ ((statOf m (lower tag)).getD ⟨0, [], []⟩).recentUsers)) ∨
       (∃ u, findUserById db p.author = some u ∧
        ((statOf m (lower tag)).getD ⟨0, [], []⟩).recentUsers.length < 3 ∧
        p.author ∉ ((statOf m (lower tag)).getD ⟨0, [], []⟩).recentUsers ∧
        st.recentUsers =
          ((statOf m (lower tag)).getD ⟨0, [], []⟩).recentUsers ++ [p.author] ∧
        st.userProfiles =
          ((statOf m (lower tag)).getD ⟨0, [], []⟩).userProfiles ++ [profileOf u])) := by
  unfold countTag at h
  by_cases hk : isInheritedKey (lower tag) = true
  · simp [hk] at h
  simp only [Bool.not_eq_true] at hk
  refine ⟨hk, ?_⟩
  simp only [hk, Bool.false_eq_true, if_false] at h
  generalize (statOf m (lower tag)).getD ⟨0, [], []⟩ = st0 at h ⊢
  by_cases hlen : st0.recentUsers.length < 3
  · simp only [hlen, if_true] at h
    cases hu : findUserById db p.author with
    | none => rw [hu] at h; simp at h
    | some u =>
      rw [hu] at h
      simp only at h
      by_cases ha : p.author ∈ st0.recentUsers
      · simp only [ha, if_true, Option.some.injEq] at h
        exact ⟨_, h.symm, rfl, Or.inl ⟨rfl, rfl, fun hc => hc.2 ha⟩⟩
      · simp only [ha, if_false, Option.some.injEq] at h
        exact ⟨_, h.symm, rfl, Or.inr ⟨u, rfl, hlen, ha, rfl, rfl⟩⟩
  · simp only [hlen, if_false, Option.some.injEq] at h
    exact ⟨_, h.symm, rfl, Or.inl ⟨rfl, rfl, fun hc => hlen hc.1⟩⟩

theorem recordsVisits_step {lower : String → String}
    (db : Db) (seen : List (Post × String)) (m m1 : HashtagStats)
    (p : Post) (tag : String) (hinv : recordsVisits lower db seen m)
    (h : countTag lower db m p tag = some m1) : recordsVisits lower db (seen ++ [(p, tag)]) m1 := by
  obtain ⟨_, st, hm1, hcount, hrec⟩ := countTag_some db m m1 p tag h
  obtain ⟨hnd, hall⟩ := hinv
  subst hm1
  refine ⟨keys_setStat_nodup _ _ _ hnd, ?_⟩
  intro k
  rw [statOf_setStat, visitsOf_append]
  by_cases hk : k = lower tag
  · subst hk
    right
    have hv : visitsOf lower (lower tag) [(p, tag)] = [(p, tag)] := by simp [visitsOf]
    rw [hv]
    refine ⟨st, by simp, by simp, ?_⟩
    -- the facts about the previous value of the property
    have hprev : ((statOf m (lower tag)).getD ⟨0, [], []⟩).count =
          (visitsOf lower (lower tag) seen).length ∧
        ((statOf m (lower tag)).getD ⟨0, [], []⟩).recentUsers =
          (firstDistinct ((visitsOf lower (lower tag) seen).map (fun v => v.1.author))).take 3 ∧
        ((statOf m (lower tag)).getD ⟨0, [], []⟩).userProfiles.map some =
          ((statOf m (lower tag)).getD ⟨0, [], []⟩).recentUsers.map
            (fun i => (findUserById db i).map profileOf) := by
      rcases hall (lower tag) with ⟨h1, h2⟩ | ⟨s0, h1, _, h3, h4, h5⟩
      · rw [h1, h2]
        simp [firstDistinct]
      · rw [h1]
        exact ⟨h3, h4, h5⟩
    generalize (statOf m (lower tag)).getD ⟨0, [], []⟩ = st0 at hcount hrec hprev
    obtain ⟨p1, p2, p3⟩ := hprev
    have hfd : (firstDistinct ((visitsOf lower (lower tag) seen ++ [(p, tag)]).map
          (fun v => v.1.author))).take 3 =
        if st0.recentUsers.length < 3 ∧ p.author ∉ st0.recentUsers then
          st0.recentUsers ++ [p.author] else st0.recentUsers := by
      rw [List.map_append, List.map_cons, List.map_nil, firstDistinct_append_singleton,
        take_three_addDistinct, ← p2]
    refine ⟨by rw [hcount, p1, List.length_append]; rfl, ?_, ?_⟩
    · rw [hfd]
      rcases hrec with ⟨r1, _, r3⟩ | ⟨u, _, r2, r3, r4, _⟩
      · rw [if_neg r3]; exact r1
      · rw [if_pos ⟨r2, r3⟩]; exact r4
    · rcases hrec with ⟨r1, r2, _⟩ | ⟨u, hu, _, _, r4, r5⟩
      · rw [r1, r2]; exact p3
      · rw [r4, r5, List.map_append, List.map_append, p3]
        simp [hu]
  · have hv : visitsOf lower k [(p, tag)] = [] := by
      have hk2 : ¬ lower tag = k := fun e => hk e.symm
      simp [visitsOf, hk2]
    rw [hv, List.append_nil, if_neg hk]
    exact hall k

theorem recordsVisits_run {lower : String → String} (db : Db) (vs : List (Post × String)) :
    ∀ (seen : List (Post × String)) (m m1 : HashtagStats), recordsVisits lower db seen m →
      countTags lower db m vs = some m1 → recordsVisits lower db (seen ++ vs) m1 := by
  induction vs with
  | nil =>
    intro seen m m1 hinv h
    simp only [countTags, Option.some.injEq] at h
    subst h
    rw [List.append_nil]
    exact hinv
  | cons v rest ih =>
    intro seen m m1 hinv h
    simp only [countTags] at h
    cases hs : countTag lower db m v.1 v.2 with
    | none => rw [hs] at h; simp at h
    | some m2 =>
      rw [hs] at h
      have h2 := ih (seen ++ [(v.1, v.2)]) m2 m1 (recordsVisits_step db seen m m2 v.1 v.2 hinv hs) h
      rw [List.append_assoc] at h2
      exact h2

theorem recordsVisits_nil {lower : String → String} (db : Db) : recordsVisits lower db [] [] :=
  ⟨List.nodup_nil, fun _ => Or.inl ⟨rfl, rfl⟩⟩

theorem recordsVisits_of_countTags {lower : String → String}
    (db : Db) (vs : List (Post × String)) (m : HashtagStats)
    (h : countTags lower db [] vs = some m) : recordsVisits lower db vs m := by
  have := recordsVisits_run db vs [] [] m (recordsVisits_nil db) h
  simpa using this

/-! ## From the statistics to the answer -/

theorem objectEntries_perm (m : HashtagStats) : (objectEntries m).Perm m := by
  unfold objectEntries
  have h2 : (fun e : String × TagStat => (arrayIndex? e.1).isNone) =
      (fun e => !(arrayIndex? e.1).isSome) := by
    funext e
    cases arrayIndex? e.1 <;> rfl
  rw [h2]
  exact ((List.perm_insertionSort _ _).append_right _).trans (List.filter_append_perm _ m)

theorem rankedTopics_perm (m : HashtagStats) :
    (rankedTopics m).Perm (m.map (fun e => (⟨e.1, e.2.count, e.2.userProfiles⟩ : Topic))) :=
  (List.perm_insertionSort _ _).trans ((objectEntries_perm m).map _)

theorem mem_rankedTopics (m : HashtagStats) (t : Topic) :
    t ∈ rankedTopics m ↔ ∃ e ∈ m, t = ⟨e.1, e.2.count, e.2.userProfiles⟩ := by
  rw [(rankedTopics_perm m).mem_iff, List.mem_map]
  constructor
  · rintro ⟨e, he, rfl⟩; exact ⟨e, he, rfl⟩
  · rintro ⟨e, he, rfl⟩; exact ⟨e, he, rfl⟩

theorem rankedTopics_hashtags_nodup (m : HashtagStats) (h : (m.map (fun e => e.1)).Nodup) :
    ((rankedTopics m).map (fun t => t.hashtag)).Nodup := by
  have hp := (rankedTopics_perm m).map (fun t : Topic => t.hashtag)
  rw [List.map_map] at hp
  exact hp.nodup_iff.2 h

theorem rankedTopics_length (m : HashtagStats) : (rankedTopics m).length = m.length := by
  rw [(rankedTopics_perm m).length_eq, List.length_map]

theorem trendingOf_length_eq_zero (m : HashtagStats) :
    (trendingOf m).length = 0 ↔ m = [] := by
  unfold trendingOf
  rw [List.length_take, rankedTopics_length]
  constructor
  · intro h
    have : m.length = 0 := by omega
    exact List.length_eq_zero.1 this
  · intro h; subst h; rfl

theorem mem_of_statOf (m : HashtagStats) (k : String) (st : TagStat)
    (h : statOf m k = some st) : (k, st) ∈ m := by
  unfold statOf at h
  cases hf : m.find? (fun e => decide (e.1 = k)) with
  | none => rw [hf] at h; simp at h
  | some e =>
    rw [hf] at h
    simp only [Option.map_some', Option.some.injEq] at h
    have h1 := List.find?_some hf
    simp only [decide_eq_true_eq] at h1
    have h2 := List.mem_of_find?_eq_some hf
    have : e = (k, st) := Prod.ext h1 h
    rw [← this]
    exact h2

theorem mem_tagVisits (posts : List Post) (v : Post × String) :
    v ∈ tagVisits posts ↔ v.1 ∈ posts ∧ v.2 ∈ v.1.tags := by
  unfold tagVisits
  simp only [List.mem_flatMap, List.mem_map]
  constructor
  · rintro ⟨p, hp, t, ht, rfl⟩; exact ⟨hp, ht⟩
  · rintro ⟨hp, ht⟩; exact ⟨v.1, hp, v.2, ht, rfl⟩

theorem mem_taggedRecent (db : Db) (now : Time) (p : Post) :
    p ∈ taggedRecent db now ↔
      p ∈ db.posts ∧ sevenDaysAgo now ≤ p.createdAt ∧ p.tags ≠ [] ∧ p.visibility = .pub := by
  unfold taggedRecent
  rw [List.mem_insertionSort, List.mem_filter]
  simp only [Bool.and_eq_true, decide_eq_true_eq, and_assoc]

theorem tagVisits_ne_nil (db : Db) (now : Time) (h : taggedRecent db now ≠ []) :
    tagVisits (taggedRecent db now) ≠ [] := by
  obtain ⟨p, hp⟩ := List.exists_mem_of_ne_nil _ h
  have htags := ((mem_taggedRecent db now p).1 hp).2.2.1
  obtain ⟨t, ht⟩ := List.exists_mem_of_ne_nil _ htags
  intro hnil
  have hmem : (p, t) ∈ tagVisits (taggedRecent db now) := (mem_tagVisits _ _).2 ⟨hp, ht⟩
  rw [hnil] at hmem
  simp at hmem

theorem stats_ne_nil {lower : String → String}
    (db : Db) (vs : List (Post × String)) (m : HashtagStats)
    (hvs : vs ≠ []) (h : countTags lower db [] vs = some m) : m ≠ [] := by
  obtain ⟨v, hv⟩ := List.exists_mem_of_ne_nil _ hvs
  have hinv := recordsVisits_of_countTags db vs m h
  rcases hinv.2 (lower v.2) with ⟨h1, _⟩ | ⟨st, h1, _⟩
  · exfalso
    have : v ∈ visitsOf lower (lower v.2) vs := by
      unfold visitsOf
      rw [List.mem_filter]
      exact ⟨hv, by simp⟩
    rw [h1] at this
    simp at this
  · intro hm
    subst hm
    simp [statOf] at h1

/-! ## Recent contributors -/

theorem foldl_visits_eq_carriers {lower : String → String} (h : String) (posts : List Post) :
    ∀ acc : List Id,
      ((visitsOf lower h (tagVisits posts)).map (fun v => v.1.author)).foldl addDistinct acc =
      ((posts.filter (fun p => p.tags.any (fun t => decide (lower t = h)))).map
        (fun p => p.author)).foldl addDistinct acc := by
  induction posts with
  | nil => intro acc; rfl
  | cons p ps ih =>
    intro acc
    have hsplit : tagVisits (p :: ps) = p.tags.map (fun t => (p, t)) ++ tagVisits ps := by
      simp [tagVisits, List.flatMap_cons]
    have hhead : (visitsOf lower h (p.tags.map (fun t => (p, t)))).map (fun v => v.1.author) =
        (p.tags.filter (fun t => decide (lower t = h))).map (fun _ => p.author) := by
      unfold visitsOf
      rw [List.filter_map, List.map_map]
      rfl
    rw [hsplit, visitsOf_append, List.map_append, List.foldl_append, hhead,
      foldl_addDistinct_const, ih]
    cases hany : p.tags.any (fun t => decide (lower t = h)) with
    | true =>
      have hne : (p.tags.filter (fun t => decide (lower t = h))).isEmpty = false := by
        rw [List.any_eq_true] at hany
        obtain ⟨t, ht, htt⟩ := hany
        cases hf : p.tags.filter (fun t => decide (lower t = h)) with
        | nil =>
          have : t ∈ p.tags.filter (fun t => decide (lower t = h)) :=
            List.mem_filter.2 ⟨ht, htt⟩
          rw [hf] at this
          simp at this
        | cons _ _ => rfl
      rw [hne]
      simp only [List.filter_cons, hany, if_true, List.map_cons, List.foldl_cons]
      rfl
    | false =>
      have he : (p.tags.filter (fun t => decide (lower t = h))).isEmpty = true := by
        rw [List.any_eq_false] at hany
        rw [List.isEmpty_iff, List.filter_eq_nil_iff]
        exact hany
      rw [he]
      simp only [List.filter_cons, hany, if_true]
      rfl

theorem recentAuthors_eq {lower : String → String} (db : Db) (now : Time) (h : String) :
    recentAuthors lower db now h =
      (firstDistinct ((visitsOf lower h (tagVisits (taggedRecent db now))).map
        (fun v => v.1.author))).take 3 := by
  unfold recentAuthors carriers firstDistinct
  rw [foldl_visits_eq_carriers]

theorem mem_recentAuthors {lower : String → String} (db : Db) (now : Time) (h : String) (i : Id)
    (hi : i ∈ recentAuthors lower db now h) :
    ∃ p ∈ db.posts, p.author = i ∧ p.visibility = .pub ∧ sevenDaysAgo now ≤ p.createdAt ∧
      ∃ tag ∈ p.tags, lower tag = h := by
  unfold recentAuthors at hi
  have h1 := (mem_firstDistinct _ _).1 (List.mem_of_mem_take hi)
  obtain ⟨p, hp, rfl⟩ := List.mem_map.1 h1
  unfold carriers at hp
  rw [List.mem_filter, List.any_eq_true] at hp
  obtain ⟨hp1, t, ht, htt⟩ := hp
  obtain ⟨q1, q2, _, q4⟩ := (mem_taggedRecent db now p).1 hp1
  exact ⟨p, q1, rfl, q4, q2, t, ht, by simpa using htt⟩

/-- Claim C20: whatever letters the method `toLowerCase` folds (`lower`), on the
main path of `getTrendingTopics`, that is when the counting loop ends with
statistics `m` whose `trending` array is not empty, the answer is 200 with
that array, the scanned posts are in `createdAt`-descending order, and
for every returned topic the recorded contributors are the profiles of
`recentAuthors`, the first distinct authors met when the in-window public posts
carrying the tag are scanned in that order, cut after three: between 1 and 3
authors, pairwise distinct, each with a user document and each the author of a
stored public post of the window that carries the tag. -/
theorem recent_authors_of_returned_topics (lower : String → String)
    (rand : Nat → Nat) (now : Time) (db : Db)
    (m : HashtagStats)
    (hm : countTags lower db [] (tagVisits (taggedRecent db now)) = some m)
    (hne : (trendingOf m).length ≠ 0) :
    getTrendingTopics lower rand now db = ⟨200, some (trendingOf m)⟩ ∧
    (taggedRecent db now).Sorted newerFirst ∧
    ∀ t ∈ trendingOf m,
      1 ≤ (recentAuthors lower db now t.hashtag).length ∧
      (recentAuthors lower db now t.hashtag).length ≤ 3 ∧
      (recentAuthors lower db now t.hashtag).Nodup ∧
      t.recentUsers.map some =
        (recentAuthors lower db now t.hashtag).map (fun i => (findUserById db i).map profileOf) ∧
      (∀ i ∈ recentAuthors lower db now t.hashtag,
        ∃ p ∈ db.posts, p.author = i ∧ p.visibility = .pub ∧ sevenDaysAgo now ≤ p.createdAt ∧
          ∃ tag ∈ p.tags, lower tag = t.hashtag) := by
  refine ⟨?_, List.sorted_insertionSort _ _, ?_⟩
  · unfold getTrendingTopics
    rw [hm]
    simp only [hne, if_false]
  · intro t ht
    have hinv := recordsVisits_of_countTags db _ m hm
    obtain ⟨e, he, rfl⟩ := (mem_rankedTopics m t).1 (List.mem_of_mem_take ht)
    have hst := statOf_of_mem m e hinv.1 he
    rcases hinv.2 e.1 with ⟨_, h2⟩ | ⟨st, h1, h2, _, h4, h5⟩
    · rw [hst] at h2; simp at h2
    · rw [hst] at h1
      simp only [Option.some.injEq] at h1
      subst h1
      have hra : recentAuthors lower db now e.1 = e.2.recentUsers := by
        rw [recentAuthors_eq, h4]
      show 1 ≤ (recentAuthors lower db now e.1).length ∧ _
      refine ⟨?_, ?_, ?_, ?_, fun i hi => mem_recentAuthors db now e.1 i hi⟩
      · rw [recentAuthors_eq]
        obtain ⟨v, hv⟩ := List.exists_mem_of_ne_nil _ h2
        have hmem : v.1.author ∈ firstDistinct
            ((visitsOf lower e.1 (tagVisits (taggedRecent db now))).map (fun v => v.1.author)) :=
          (mem_firstDistinct _ _).2 (List.mem_map.2 ⟨v, hv, rfl⟩)
        rw [List.length_take]
        have : 0 < (firstDistinct
            ((visitsOf lower e.1 (tagVisits (taggedRecent db now))).map
              (fun v => v.1.author))).length :=
          List.length_pos_of_mem hmem
        omega
      · unfold recentAuthors
        exact List.length_take_le _ _
      · unfold recentAuthors
        exact (firstDistinct_nodup _).sublist (List.take_sublist _ _)
      · rw [hra]
        exact h5

/-- Claim C20 on a sample state: the one post tagged `launch` is by Bob. -/
theorem recent_authors_of_returned_topics_witness :
    countTags asciiToLowerCase launchPost [] (tagVisits (taggedRecent launchPost 1000)) =
      some [("launch", ⟨1, [2], [⟨"Bob Ray", "bob"⟩]⟩)] ∧
    recentAuthors asciiToLowerCase launchPost 1000 "launch" = [2] ∧
    getTrendingTopics asciiToLowerCase (fun _ => 0) 1000 launchPost =
      ⟨200, some (trendingOf [("launch", ⟨1, [2], [⟨"Bob Ray", "bob"⟩]⟩)])⟩ :=
  ⟨by decide, by decide,
    (recent_authors_of_returned_topics asciiToLowerCase (fun _ => 0) 1000 launchPost
      [("launch", ⟨1, [2], [⟨"Bob Ray", "bob"⟩]⟩)] (by decide) (by decide)).1⟩

/-! ## Trending topics: counts and reserved names -/

/-- Claim C19, at the input on which `getTrendingTopics` breaks it: the store holds
two public tagged posts of the window, one tagged `launch` and one tagged
`Constructor`; the answer is 500 for every draw of `Math.random`, so no entry
is returned, neither for `launch` nor for `constructor`. With the post tagged
`launch` alone the answer is 200 with `launch` counted once and Bob as its
contributor. -/
theorem tagged_posts_answered_with_error :
    (taggedRecent reservedTag 1000).map (fun p => (p.id, p.tags)) =
      [(4, ["Constructor"]), (3, ["launch"])] ∧
    (∀ rand : Nat → Nat,
      getTrendingTopics asciiToLowerCase rand 1000 reservedTag = ⟨500, none⟩) ∧
    (∀ rand : Nat → Nat, getTrendingTopics asciiToLowerCase rand 1000 launchPost =
      ⟨200, some [⟨"launch", 1, [⟨"Bob Ray", "bob"⟩]⟩]⟩) := by
  refine ⟨by decide, ?_, ?_⟩
  · intro rand
    have h : countTags asciiToLowerCase reservedTag []
        (tagVisits (taggedRecent reservedTag 1000)) = none := by
      decide
    simp only [getTrendingTopics, h]
  · intro rand
    have h : countTags asciiToLowerCase launchPost [] (tagVisits (taggedRecent launchPost 1000)) =
        some [("launch", ⟨1, [2], [⟨"Bob Ray", "bob"⟩]⟩)] := by decide
    have h2 : trendingOf [("launch", ⟨1, [2], [⟨"Bob Ray", "bob"⟩]⟩)] =
        [⟨"launch", 1, [⟨"Bob Ray", "bob"⟩]⟩] := by decide
    simp only [getTrendingTopics, h, h2]
    rfl

theorem countTag_isSome {lower : String → String}
    (db : Db) (m : HashtagStats) (p : Post) (tag : String)
    (hk : isInheritedKey (lower tag) = false) (ha : (findUserById db p.author).isSome) :
    (countTag lower db m p tag).isSome := by
  obtain ⟨u, hu⟩ := Option.isSome_iff_exists.1 ha
  unfold countTag
  simp only [hk, Bool.false_eq_true, if_false, hu]
  split
  · split <;> rfl
  · rfl

theorem countTags_isSome {lower : String → String} (db : Db) (vs : List (Post × String))
    (h : ∀ v ∈ vs, isInheritedKey (lower v.2) = false ∧
      (findUserById db v.1.author).isSome) :
    ∀ m, (countTags lower db m vs).isSome := by
  induction vs with
  | nil => intro m; rfl
  | cons v rest ih =>
    intro m
    have hv := h v (List.mem_cons_self _ _)
    obtain ⟨m1, hm1⟩ := Option.isSome_iff_exists.1 (countTag_isSome db m v.1 v.2 hv.1 hv.2)
    simp only [countTags, hm1]
    exact ih (fun w hw => h w (List.mem_cons_of_mem _ hw)) m1

/-- Supporting fact for claim C19: when at least one public tagged post lies in the
window, no tag of such a post lower-cases to an inherited property name and
every such post has an author document, the answer is 200 with a non-empty
list of at most 10 topics with pairwise distinct hashtags, sorted by count in
non-increasing order; the count of each topic is the number of occurrences of
its hashtag, and no hashtag that occurs but is left out has more occurrences
than a returned one. -/
theorem trending_counts_without_reserved_names (lower : String → String)
    (rand : Nat → Nat) (now : Time) (db : Db)
    (hposts : taggedRecent db now ≠ [])
    (hkeys : ∀ p ∈ taggedRecent db now, ∀ t ∈ p.tags, isInheritedKey (lower t) = false)
    (hauth : ∀ p ∈ taggedRecent db now, (findUserById db p.author).isSome) :
    ∃ data, getTrendingTopics lower rand now db = ⟨200, some data⟩ ∧
      data ≠ [] ∧ data.length ≤ 10 ∧
      (data.map (fun t => t.hashtag)).Nodup ∧
      data.Sorted moreFrequent ∧
      (∀ t ∈ data, t.count = occurrences lower db now t.hashtag ∧ 0 < t.count) ∧
      (∀ h, 0 < occurrences lower db now h → h ∉ data.map (fun t => t.hashtag) →
        ∀ t ∈ data, occurrences lower db now h ≤ t.count) := by
  have hsome := countTags_isSome db (tagVisits (taggedRecent db now))
    (fun v hv => by
      obtain ⟨h1, h2⟩ := (mem_tagVisits _ _).1 hv
      exact ⟨hkeys v.1 h1 v.2 h2, hauth v.1 h1⟩) []
  obtain ⟨m, hm⟩ := Option.isSome_iff_exists.1 hsome
  have hmne : m ≠ [] := stats_ne_nil db _ m (tagVisits_ne_nil db now hposts) hm
  have hlen : (trendingOf m).length ≠ 0 := fun h => hmne ((trendingOf_length_eq_zero m).1 h)
  have hinv := recordsVisits_of_countTags db _ m hm
  have hsorted : (rankedTopics m).Sorted moreFrequent := List.sorted_insertionSort _ _
  refine ⟨trendingOf m, ?_, ?_, ?_, ?_, ?_, ?_, ?_⟩
  · unfold getTrendingTopics
    rw [hm]
    simp only [hlen, if_false]
  · intro h
    rw [h] at hlen
    exact hlen rfl
  · exact List.length_take_le _ _
  · exact (rankedTopics_hashtags_nodup m hinv.1).sublist ((List.take_sublist _ _).map _)
  · exact hsorted.sublist (List.take_sublist _ _)
  · intro t ht
    obtain ⟨e, he, rfl⟩ := (mem_rankedTopics m t).1 (List.mem_of_mem_take ht)
    have hst := statOf_of_mem m e hinv.1 he
    rcases hinv.2 e.1 with ⟨_, h2⟩ | ⟨st, h1, h2, h3, _, _⟩
    · rw [hst] at h2; simp at h2
    · rw [hst] at h1
      simp only [Option.some.injEq] at h1
      subst h1
      refine ⟨h3, ?_⟩
      show 0 < e.2.count
      rw [h3]
      exact List.length_pos.2 h2
  · intro h hocc hout t ht
    rcases hinv.2 h with ⟨h1, _⟩ | ⟨st, h1, _, h3, _, _⟩
    · unfold occurrences at hocc
      rw [h1] at hocc
      simp at hocc
    · have hmem : (⟨h, st.count, st.userProfiles⟩ : Topic) ∈ rankedTopics m :=
        (mem_rankedTopics m _).2 ⟨(h, st), mem_of_statOf m h st h1, rfl⟩
      rw [← List.take_append_drop 10 (rankedTopics m)] at hmem hsorted
      rcases List.mem_append.1 hmem with hin | hdrop
      · exact absurd (List.mem_map.2 ⟨_, hin, rfl⟩) hout
      · have := (List.pairwise_append.1 hsorted).2.2 t ht _ hdrop
        unfold moreFrequent at this
        unfold occurrences
        rw [← h3]
        exact this

/-- Claim C26, at the input on which `getTrendingTopics` breaks it: Ann creates a
public post tagged `__proto__`, which is answered 201 and stored with that tag;
the next request for the trending topics is answered by the `catch` block with
500, for every draw of `Math.random`. -/
theorem reserved_tag_reaches_error_branch :
    (createPost Faults.none 900 twoUsers 1 "built it" .pub
      (some (.array ["__proto__"])) []).2.status = 201 ∧
    (createPost Faults.none 900 twoUsers 1 "built it" .pub
      (some (.array ["__proto__"])) []).1.posts.map (fun p => (p.id, p.tags)) =
      [(3, ["__proto__"])] ∧
    ∀ rand : Nat → Nat, getTrendingTopics asciiToLowerCase rand 1000
      (createPost Faults.none 900 twoUsers 1 "built it" .pub
        (some (.array ["__proto__"])) []).1 = ⟨500, none⟩ := by
  refine ⟨by decide, by decide, ?_⟩
  intro rand
  have h : countTags asciiToLowerCase
      (createPost Faults.none 900 twoUsers 1 "built it" .pub (some (.array ["__proto__"])) []).1
      [] (tagVisits (taggedRecent
        (createPost Faults.none 900 twoUsers 1 "built it" .pub
          (some (.array ["__proto__"])) []).1 1000)) = none := by
    decide
  simp only [getTrendingTopics, h]

/-- Supporting fact for claim C26: a tag whose lower-cased text is an inherited
property name, on a public post of the window, makes every request end in the
error branch. -/
theorem inherited_name_gives_500 (lower : String → String)
    (rand : Nat → Nat) (now : Time) (db : Db) (p : Post)
    (tag : String) (hp : p ∈ taggedRecent db now) (ht : tag ∈ p.tags)
    (hk : isInheritedKey (lower tag) = true) :
    getTrendingTopics lower rand now db = ⟨500, none⟩ := by
  have hnone : ∀ (vs : List (Post × String)), (p, tag) ∈ vs →
      ∀ m, countTags lower db m vs = none := by
    intro vs
    induction vs with
    | nil => intro h; simp at h
    | cons v rest ih =>
      intro h m
      simp only [countTags]
      cases hs : countTag lower db m v.1 v.2 with
      | none => rfl
      | some m1 =>
        rcases List.mem_cons.1 h with h1 | h1
        · subst h1
          have := (countTag_some db m m1 p tag hs).1
          rw [hk] at this
          simp at this
        · exact ih h1 m1
  unfold getTrendingTopics
  rw [hnone _ ((mem_tagVisits _ _).2 ⟨hp, ht⟩) []]

/-! ## Trending topics: the fallback and the random draws -/

/-- Claim C30 fails as stated: no tagged post lies in the window, the one public
post holds `#Launch` in its content; with the draw 0 the topic `launch` is
returned with count 10, with the draw 7 with count 17. -/
theorem fallback_count_follows_the_draw :
    taggedRecent hashtagInContent 1000 = [] ∧
    getTrendingTopics asciiToLowerCase (fun _ => 0) 1000 hashtagInContent =
      ⟨200, some [⟨"launch", 10, [⟨"Bob Ray", "bob"⟩]⟩]⟩ ∧
    getTrendingTopics asciiToLowerCase (fun _ => 7) 1000 hashtagInContent =
      ⟨200, some [⟨"launch", 17, [⟨"Bob Ray", "bob"⟩]⟩]⟩ := by
  decide

theorem fallbackTag_same_topics (db : Db) (r1 r2 : Nat → Nat) (s1 s2 : List Topic × List String)
    (p : Post) (h : String)
    (hs : s1.1.map (fun t => (t.hashtag, t.recentUsers)) =
        s2.1.map (fun t => (t.hashtag, t.recentUsers)) ∧ s1.2 = s2.2) :
    (fallbackTag db r1 s1 p h).map
        (fun s => (s.1.map (fun t => (t.hashtag, t.recentUsers)), s.2)) =
      (fallbackTag db r2 s2 p h).map
        (fun s => (s.1.map (fun t => (t.hashtag, t.recentUsers)), s.2)) := by
  obtain ⟨h1, h2⟩ := hs
  have hlen : s1.1.length = s2.1.length := by
    have := congrArg List.length h1
    simpa using this
  unfold fallbackTag
  rw [h2, hlen]
  by_cases hc : h ∉ s2.2 ∧ s2.1.length < 5
  · simp only [hc, not_false_eq_true, and_self, if_true]
    cases findUserById db p.author with
    | none => rfl
    | some u => simp [h1, h2]
  · simp only [hc, if_false, Option.map_some', h1, h2]

theorem fallbackTags_same_topics (db : Db) (r1 r2 : Nat → Nat) (vs : List (Post × String)) :
    ∀ s1 s2 : List Topic × List String,
      (s1.1.map (fun t => (t.hashtag, t.recentUsers)) =
        s2.1.map (fun t => (t.hashtag, t.recentUsers)) ∧ s1.2 = s2.2) →
      (fallbackTags db r1 s1 vs).map
          (fun s => (s.1.map (fun t => (t.hashtag, t.recentUsers)), s.2)) =
        (fallbackTags db r2 s2 vs).map
          (fun s => (s.1.map (fun t => (t.hashtag, t.recentUsers)), s.2)) := by
  induction vs with
  | nil =>
    intro s1 s2 hs
    simp only [fallbackTags, Option.map_some', hs.1, hs.2]
  | cons v rest ih =>
    intro s1 s2 hs
    have hstep := fallbackTag_same_topics db r1 r2 s1 s2 v.1 v.2 hs
    simp only [fallbackTags]
    cases h1 : fallbackTag db r1 s1 v.1 v.2 with
    | none =>
      rw [h1] at hstep
      cases h2 : fallbackTag db r2 s2 v.1 v.2 with
      | none => rfl
      | some b => rw [h2] at hstep; simp at hstep
    | some a =>
      rw [h1] at hstep
      cases h2 : fallbackTag db r2 s2 v.1 v.2 with
      | none => rw [h2] at hstep; simp at hstep
      | some b =>
        rw [h2] at hstep
        simp only [Option.map_some', Option.some.injEq, Prod.mk.injEq] at hstep
        exact ih a b hstep

theorem fallbackTags_counts (db : Db) (r : Nat → Nat) (vs : List (Post × String)) :
    ∀ s s1 : List Topic × List String, fallbackTags db r s vs = some s1 →
      s.1.length ≤ 5 →
      s.1.map (fun t => t.count) = (List.range s.1.length).map (fun k => r k % 50 + 10) →
      s1.1.length ≤ 5 ∧
      s1.1.map (fun t => t.count) = (List.range s1.1.length).map (fun k => r k % 50 + 10) := by
  induction vs with
  | nil =>
    intro s s1 h hl hc
    simp only [fallbackTags, Option.some.injEq] at h
    subst h
    exact ⟨hl, hc⟩
  | cons v rest ih =>
    intro s s1 h hl hc
    simp only [fallbackTags] at h
    cases h1 : fallbackTag db r s v.1 v.2 with
    | none => rw [h1] at h; simp at h
    | some a =>
      rw [h1] at h
      simp only at h
      apply ih a s1 h
      · unfold fallbackTag at h1
        by_cases hcnd : v.2 ∉ s.2 ∧ s.1.length < 5
        · simp only [hcnd, not_false_eq_true, and_self, if_true] at h1
          cases hu : findUserById db v.1.author with
          | none => rw [hu] at h1; simp at h1
          | some u =>
            rw [hu] at h1
            simp only [Option.some.injEq] at h1
            subst h1
            simp only [List.length_append, List.length_singleton]
            omega
        · simp only [hcnd, if_false, Option.some.injEq] at h1
          subst h1
          exact hl
      · unfold fallbackTag at h1
        by_cases hcnd : v.2 ∉ s.2 ∧ s.1.length < 5
        · simp only [hcnd, not_false_eq_true, and_self, if_true] at h1
          cases hu : findUserById db v.1.author with
          | none => rw [hu] at h1; simp at h1
          | some u =>
            rw [hu] at h1
            simp only [Option.some.injEq] at h1
            subst h1
            simp only [List.length_append, List.length_singleton, List.map_append, List.map_cons,
              List.map_nil, List.range_succ, hc]
        · simp only [hcnd, if_false, Option.some.injEq] at h1
          subst h1
          exact hc

/-- Claim C30 as amended: for a fixed store and clock value, two runs of
`getTrendingTopics` with any two sequences of random draws answer with the same
status and with topics that have the same hashtags and the same contributors in
the same order; when a public tagged post lies in the window the two answers
are equal, counts included; when none does, the fallback returns at most 5
topics, and the count of the `k`-th one is 10 plus the `k`-th draw taken modulo
50, a number from 10 to 59 that the stored posts and the clock do not
determine. -/
theorem trending_determined_up_to_fallback_counts (lower : String → String)
    (r1 r2 : Nat → Nat) (now : Time) (db : Db) :
    (getTrendingTopics lower r1 now db).status = (getTrendingTopics lower r2 now db).status ∧
    (getTrendingTopics lower r1 now db).data.map
        (List.map (fun t => (t.hashtag, t.recentUsers))) =
      (getTrendingTopics lower r2 now db).data.map
        (List.map (fun t => (t.hashtag, t.recentUsers))) ∧
    (taggedRecent db now ≠ [] →
      getTrendingTopics lower r1 now db = getTrendingTopics lower r2 now db) ∧
    (taggedRecent db now = [] → ∀ data, (getTrendingTopics lower r1 now db).data = some data →
      data.length ≤ 5 ∧
      data.map (fun t => t.count) = (List.range data.length).map (fun k => r1 k % 50 + 10) ∧
      ∀ t ∈ data, 10 ≤ t.count ∧ t.count ≤ 59) := by
  have hfb := fallbackTags_same_topics db r1 r2 (fallbackVisits lower (popularRecent db now))
    ([], []) ([], []) ⟨rfl, rfl⟩
  refine ⟨?_, ?_, ?_, ?_⟩
  · unfold getTrendingTopics
    cases countTags lower db [] (tagVisits (taggedRecent db now)) with
    | none => rfl
    | some m =>
      simp only
      split
      · cases h1 : fallbackTags db r1 ([], []) (fallbackVisits lower (popularRecent db now)) with
        | none =>
          rw [h1] at hfb
          cases h2 : fallbackTags db r2 ([], []) (fallbackVisits lower (popularRecent db now)) with
          | none => rfl
          | some b => rw [h2] at hfb; simp at hfb
        | some a =>
          rw [h1] at hfb
          cases h2 : fallbackTags db r2 ([], []) (fallbackVisits lower (popularRecent db now)) with
          | none => rw [h2] at hfb; simp at hfb
          | some b => rfl
      · rfl
  · unfold getTrendingTopics
    cases countTags lower db [] (tagVisits (taggedRecent db now)) with
    | none => rfl
    | some m =>
      simp only
      split
      · cases h1 : fallbackTags db r1 ([], []) (fallbackVisits lower (popularRecent db now)) with
        | none =>
          rw [h1] at hfb
          cases h2 : fallbackTags db r2 ([], []) (fallbackVisits lower (popularRecent db now)) with
          | none => rfl
          | some b => rw [h2] at hfb; simp at hfb
        | some a =>
          rw [h1] at hfb
          cases h2 : fallbackTags db r2 ([], []) (fallbackVisits lower (popularRecent db now)) with
          | none => rw [h2] at hfb; simp at hfb
          | some b =>
            rw [h2] at hfb
            simp only [Option.map_some', Option.some.injEq, Prod.mk.injEq] at hfb
            simp only [Option.map_some', hfb.1]
      · rfl
  · intro hne
    unfold getTrendingTopics
    cases hm : countTags lower db [] (tagVisits (taggedRecent db now)) with
    | none => rfl
    | some m =>
      have hmne : m ≠ [] := stats_ne_nil db _ m (tagVisits_ne_nil db now hne) hm
      have hlen : (trendingOf m).length ≠ 0 :=
        fun h => hmne ((trendingOf_length_eq_zero m).1 h)
      simp only [hlen, if_false]
  · intro hnil data hdata
    unfold getTrendingTopics at hdata
    rw [hnil] at hdata
    have h0 : countTags lower db [] (tagVisits []) = some [] := rfl
    have h1 : (trendingOf []).length = 0 := rfl
    rw [h0] at hdata
    simp only [h1, if_true] at hdata
    cases hf : fallbackTags db r1 ([], []) (fallbackVisits lower (popularRecent db now)) with
    | none => rw [hf] at hdata; simp at hdata
    | some s =>
      rw [hf] at hdata
      simp only [Option.some.injEq] at hdata
      subst hdata
      obtain ⟨c1, c2⟩ := fallbackTags_counts db r1 _ ([], []) s hf (by simp) (by simp)
      refine ⟨c1, c2, ?_⟩
      intro t ht
      have hmem : t.count ∈ s.1.map (fun t => t.count) := List.mem_map.2 ⟨t, ht, rfl⟩
      rw [c2, List.mem_map] at hmem
      obtain ⟨k, _, hk⟩ := hmem
      have := Nat.mod_lt (r1 k) (by decide : 0 < 50)
      omega

/-- Claim C30 on a sample state: with any two sequences of draws the fallback names
the topic `launch` with Bob as contributor. -/
theorem trending_determined_up_to_fallback_counts_witness :
    (getTrendingTopics asciiToLowerCase (fun _ => 0) 1000 hashtagInContent).data.map
        (List.map (fun t => (t.hashtag, t.recentUsers))) =
      (getTrendingTopics asciiToLowerCase (fun _ => 7) 1000 hashtagInContent).data.map
        (List.map (fun t => (t.hashtag, t.recentUsers))) ∧
    getTrendingTopics asciiToLowerCase (fun _ => 0) 1000 launchPost =
      getTrendingTopics asciiToLowerCase (fun _ => 7) 1000 launchPost :=
  ⟨(trending_determined_up_to_fallback_counts asciiToLowerCase (fun _ => 0) (fun _ => 7) 1000
      hashtagInContent).2.1,
    (trending_determined_up_to_fallback_counts asciiToLowerCase (fun _ => 0) (fun _ => 7) 1000
      launchPost).2.2.1 (by decide)⟩

end SocialMedia
